import Mathlib

/-!
# Delay-slot emulation trampoline (`arch/mips/math-emu/dsemul.c`)

A shallow embedding of the three entry points of `dsemul.c`

* `mips_dsemul`      (frame builder),
* `do_dsemulret`     (trap resolver),
* `vdso_epc_adjust`  (signal-entry corrector),

together with the properties of the emulation-frame protocol.

Conventions of the embedding

* `unsigned long`, pointers and registers are natural numbers below `2 ^ wbits`;
  arithmetic that can wrap in C is written with an explicit `% 2 ^ wbits`.
* User memory is a map from user virtual byte addresses to bytes.  The shared
  scratch page is written by the kernel through its kernel mapping
  (`page_address (vdso_page)`) and read back through the user mapping
  (`current->mm->context.vdso`); both name the same physical page, so a kernel
  store at `page_address + k` is a store at user address `vdso + k`.
* Constants, macros and types that come from headers outside the source file
  (`PAGE_SIZE`, `sizeof (struct mips_vdso)`, `BREAK_MATH`, `BD_COOKIE`,
  `MM_NOP16`, the `mm_a_format` bit fields, `access_ok`, the width of
  `unsigned long`, the byte order) are fields of `Cfg`.
* Cache maintenance (`flush_cache_sigtramp`, `mips_flush_data_cache_range`) and
  `pr_debug` have no effect on the modelled state and are omitted.
-/

namespace Dsemul

/-! ## Platform parameters -/

/-- Platform parameters taken from headers that are outside the source file. -/
structure Cfg where
  /-- Value of `sizeof (unsigned long)`: 4 on a 32-bit kernel, 8 on a 64-bit one. -/
  long_bytes : Nat
  /-- Byte order of the machine (MIPS runs in either). -/
  big_endian : Bool
  /-- Value of `PAGE_SHIFT`; `PAGE_SIZE` is `1 << PAGE_SHIFT`. -/
  PAGE_SHIFT : Nat
  /-- Value of `sizeof (struct mips_vdso)`: the fixed trampoline code at the page start. -/
  sizeof_mips_vdso : Nat
  /-- Encoding of the `BREAK` instruction used as trap marker. -/
  BREAK_MATH : Nat
  /-- Magic word stored after the trap marker. -/
  BD_COOKIE : Nat
  /-- Encoding of the microMIPS 16-bit no-op. -/
  MM_NOP16 : Nat
  /-- Major opcode of microMIPS `ADDIUPC`. -/
  mm_addiupc_op : Nat
  /-- Bit field `insn.mm_a_format.opcode` of an instruction word. -/
  mm_a_opcode : Nat → Nat
  /-- Bit field `insn.mm_a_format.rs` of an instruction word (3 bits, unsigned). -/
  mm_a_rs : Nat → Nat
  /-- Bit field `insn.mm_a_format.simmediate` of an instruction word (23 bits, signed). -/
  mm_a_simmediate : Nat → Int
  /-- Segment check `access_ok (type, addr, size)`. -/
  access_ok : Nat → Nat → Nat → Bool
  /-- Signal number `SIGBUS`. -/
  SIGBUS : Nat
  /-- Value left in the destination of a `__get_user` whose access faults. -/
  gu_fault : Nat

/-- First argument of `access_ok` for a read. -/
def VERIFY_READ : Nat := 0

/-- First argument of `access_ok` for a write. -/
def VERIFY_WRITE : Nat := 1

/-- Width of `unsigned long` in bits. -/
def Cfg.wbits (cfg : Cfg) : Nat := 8 * cfg.long_bytes

/-- Number of values of an `unsigned long`. -/
def Cfg.wmod (cfg : Cfg) : Nat := 2 ^ cfg.wbits

/-- Page size macro: `PAGE_SIZE = 1 << PAGE_SHIFT`. -/
def Cfg.PAGE_SIZE (cfg : Cfg) : Nat := 2 ^ cfg.PAGE_SHIFT

/-- Page mask macro: `PAGE_MASK = ~(PAGE_SIZE - 1)` as an `unsigned long`. -/
def Cfg.PAGE_MASK (cfg : Cfg) : Nat := cfg.wmod - cfg.PAGE_SIZE

/-- Addition of `unsigned long` values. -/
def Cfg.addw (cfg : Cfg) (a b : Nat) : Nat := (a + b) % cfg.wmod

/-- Subtraction of `unsigned long` values. -/
def Cfg.subw (cfg : Cfg) (a b : Nat) : Nat := (a + (cfg.wmod - b % cfg.wmod)) % cfg.wmod

/-- Complement `~m` of a small constant `m`, as an `unsigned long`. -/
def Cfg.notw (cfg : Cfg) (m : Nat) : Nat := cfg.wmod - 1 - m

/-- Modelled from the spec: the header macro `get_isa16_mode (x)`, the
encoding-mode indicator bit (bit 0) of a program counter, `x & 0x1`. -/
def get_isa16_mode (x : Nat) : Nat := x &&& 0x1

/-- Modelled from the spec: the header macro `msk_isa16_mode (x)`, a program
counter with the encoding-mode indicator bit cleared, `x & ~0x1`. -/
def msk_isa16_mode (cfg : Cfg) (x : Nat) : Nat := x &&& cfg.notw 0x1

/-! ## `struct emuframe` -/

/-- Value of `sizeof (mips_instruction)`: instructions are 32-bit words. -/
def sizeof_insn : Nat := 4

/-- Offset of field `emul`. -/
def off_emul : Nat := 0

/-- Offset of field `badinst`. -/
def off_badinst : Nat := 4

/-- Offset of field `cookie`. -/
def off_cookie : Nat := 8

/-- Offset of field `epc`: the three instruction words, padded to the
alignment of `unsigned long`. -/
def Cfg.off_epc (cfg : Cfg) : Nat := (12 + cfg.long_bytes - 1) / cfg.long_bytes * cfg.long_bytes

/-- Offset of field `bpc`. -/
def Cfg.off_bpc (cfg : Cfg) : Nat := cfg.off_epc + cfg.long_bytes

/-- Offset of field `r31`. -/
def Cfg.off_r31 (cfg : Cfg) : Nat := cfg.off_epc + 2 * cfg.long_bytes

/-- Value of `sizeof (struct emuframe)`. -/
def Cfg.sizeof_emuframe (cfg : Cfg) : Nat := cfg.off_epc + 3 * cfg.long_bytes

/-- The macro `EMULFRAME_ROUNDED_SIZE`:
`((sizeof(struct emuframe) + 0x7) & ~0x7)`, computed in `size_t`. -/
def Cfg.EMULFRAME_ROUNDED_SIZE (cfg : Cfg) : Nat :=
  ((cfg.sizeof_emuframe + 0x7) % cfg.wmod) &&& cfg.notw 0x7

/-! ## Memory -/

/-- User memory: one byte per user virtual address. -/
abbrev Mem := Nat → Nat

/-- Little-endian read of `n` bytes at `a`. -/
def load_le (m : Mem) (a : Nat) : Nat → Nat
  | 0 => 0
  | n + 1 => m a % 256 + 256 * load_le m (a + 1) n

/-- Big-endian read of `n` bytes at `a`. -/
def load_be (m : Mem) (a : Nat) : Nat → Nat
  | 0 => 0
  | n + 1 => load_be m a n * 256 + m (a + n) % 256

/-- Little-endian write of the low `n` bytes of `v` at `a`. -/
def store_le (m : Mem) (a : Nat) : Nat → Nat → Mem
  | 0, _ => m
  | n + 1, v => store_le (Function.update m a (v % 256)) (a + 1) n (v / 256)

/-- Big-endian write of the low `n` bytes of `v` at `a`. -/
def store_be (m : Mem) (a : Nat) : Nat → Nat → Mem
  | 0, _ => m
  | n + 1, v => store_be (Function.update m (a + n) (v % 256)) a n (v / 256)

/-- Read of an `n`-byte integer at `a` in the machine byte order. -/
def Cfg.load (cfg : Cfg) (m : Mem) (a n : Nat) : Nat :=
  if cfg.big_endian then load_be m a n else load_le m a n

/-- Write of an `n`-byte integer at `a` in the machine byte order. -/
def Cfg.store (cfg : Cfg) (m : Mem) (a n v : Nat) : Mem :=
  if cfg.big_endian then store_be m a n v else store_le m a n v

/-! ## Machine state -/

/-- The part of `struct pt_regs` used by the file. -/
structure pt_regs where
  /-- General registers `regs[0..31]`. -/
  regs : Nat → Nat
  /-- Saved program counter. -/
  cp0_epc : Nat

/-- Everything the three functions read or write. -/
structure State where
  /-- Trap context (`regs` / `xcp`). -/
  xcp : pt_regs
  /-- Field `current_thread_info()->vdso_page`: `none` is the null pointer, `some pg`
  a page whose kernel address `page_address (vdso_page)` is `pg`. -/
  vdso_page : Option Nat
  /-- Field `current_thread_info()->vdso_offset`. -/
  vdso_offset : Nat
  /-- Field `current->mm->context.vdso`: user address of the shared page. -/
  vdso : Nat
  /-- User memory. -/
  mem : Mem
  /-- Byte addresses whose user read does not fault. -/
  readable : Nat → Bool
  /-- Byte addresses whose user write does not fault. -/
  writable : Nat → Bool
  /-- Signals raised with `force_sig (sig, current)`, most recent first. -/
  forced : List Nat
  /-- Counter `MIPS_FPU_EMU_INC_STATS (errors)`. -/
  stat_errors : Nat
  /-- Counter `MIPS_FPU_EMU_INC_STATS (ds_emul)`. -/
  stat_ds_emul : Nat

/-- Whether all `n` bytes from `a` satisfy `p`. -/
def all_bytes (p : Nat → Bool) (a : Nat) : Nat → Bool
  | 0 => true
  | n + 1 => p a && all_bytes p (a + 1) n

/-- User read `__get_user (x, ptr)` of an `n`-byte integer: the flag is the
fault result (`true` for `-EFAULT`), the number is the value left in `x`. -/
def get_user (cfg : Cfg) (st : State) (a n : Nat) : Bool × Nat :=
  if all_bytes st.readable a n then (false, cfg.load st.mem a n)
  else (true, cfg.gu_fault % 256 ^ n)

/-- User write `__put_user (x, ptr)` of an `n`-byte integer: the flag is the
fault result (`true` for `-EFAULT`); a faulting write stores nothing. -/
def put_user (cfg : Cfg) (st : State) (v a n : Nat) : Bool × State :=
  if all_bytes st.writable a n then (false, { st with mem := cfg.store st.mem a n v })
  else (true, st)

/-- Kernel store of an `n`-byte integer at kernel address `a`, where the page
at kernel address `pg` is the page mapped at user address `st.vdso`.  A store
that is not inside that page lands in kernel memory, which is not user memory. -/
def kstore (cfg : Cfg) (st : State) (pg a n v : Nat) : State :=
  if pg ≤ a ∧ a + n ≤ pg + cfg.PAGE_SIZE then
    { st with mem := cfg.store st.mem (st.vdso + (a - pg)) n v }
  else st

/-! ## `mips_dsemul` -/

/-- Conversion of an integer to `s32` (two's complement, 32 bits). -/
def to_s32 (x : Int) : Int := (x + 2 ^ 31) % 2 ^ 32 - 2 ^ 31

/-- Conversion `(long) v` of a signed value, as the register bits it leaves. -/
def Cfg.of_long (cfg : Cfg) (x : Int) : Nat := (x % (cfg.wmod : Int)).toNat

/-- Register index written by the `ADDIUPC` case (line 63). -/
def addiupc_rs (cfg : Cfg) (ir : Nat) : Nat := ((cfg.mm_a_rs ir + 0xe) &&& 0xf) + 2

/-- Value computed by the `ADDIUPC` case (lines 64-65): `v = regs->cp0_epc & ~3;
v += insn.mm_a_format.simmediate << 2;` with `v` of type `s32`. -/
def addiupc_val (cfg : Cfg) (st : State) (ir : Nat) : Int :=
  to_s32 (to_s32 ((st.xcp.cp0_epc &&& cfg.notw 3 : Nat) : Int) + cfg.mm_a_simmediate ir * 2 ^ 2)

/-- Assignment `regs->cp0_epc = v`. -/
def State.set_epc (st : State) (v : Nat) : State :=
  { st with xcp := { st.xcp with cp0_epc := v } }

/-- Assignment `regs->regs[i] = v`. -/
def State.set_reg (st : State) (i v : Nat) : State :=
  { st with xcp := { st.xcp with regs := Function.update st.xcp.regs i v } }

/-- Statement `MIPS_FPU_EMU_INC_STATS (errors)`. -/
def State.inc_errors (st : State) : State :=
  { st with stat_errors := st.stat_errors + 1 }

/-- Statement `MIPS_FPU_EMU_INC_STATS (ds_emul)`. -/
def State.inc_ds_emul (st : State) : State :=
  { st with stat_ds_emul := st.stat_ds_emul + 1 }

/-- Statement `force_sig (sig, current)`. -/
def State.force_sig (st : State) (sig : Nat) : State :=
  { st with forced := sig :: st.forced }

/-- Lines 86-128: the frame is built in the shared page, whose kernel address is `pg`. -/
def dsemul_vdso (cfg : Cfg) (st : State) (pg ir cpc bpc r31 : Nat) : Int × State :=
  let fr := cfg.subw (cfg.addw pg st.vdso_offset) cfg.EMULFRAME_ROUNDED_SIZE
  if fr < cfg.addw pg cfg.sizeof_mips_vdso then
    ((cfg.SIGBUS : Int), st.inc_errors)
  else
    let s0 : State :=
      { st with vdso_offset := cfg.subw st.vdso_offset cfg.EMULFRAME_ROUNDED_SIZE }
    let s2 : State :=
      if get_isa16_mode s0.xcp.cp0_epc ≠ 0 then
        let a := kstore cfg s0 pg (fr + off_emul) 2 ((ir >>> 16) % 2 ^ 16)
        let b := kstore cfg a pg (fr + off_emul + 2) 2 ((ir &&& 0xffff) % 2 ^ 16)
        let c := kstore cfg b pg (fr + off_emul + 4) 2 ((cfg.BREAK_MATH >>> 16) % 2 ^ 16)
        kstore cfg c pg (fr + off_emul + 6) 2 ((cfg.BREAK_MATH &&& 0xffff) % 2 ^ 16)
      else
        let a := kstore cfg s0 pg (fr + off_emul) 4 ir
        kstore cfg a pg (fr + off_badinst) 4 cfg.BREAK_MATH
    let s3 := kstore cfg s2 pg (fr + off_cookie) 4 cfg.BD_COOKIE
    let s4 := kstore cfg s3 pg (fr + cfg.off_epc) cfg.long_bytes cpc
    let s5 := kstore cfg s4 pg (fr + cfg.off_bpc) cfg.long_bytes bpc
    let s6 := kstore cfg s5 pg (fr + cfg.off_r31) cfg.long_bytes r31
    (0, s6.set_epc (cfg.addw s6.vdso s6.vdso_offset ||| get_isa16_mode s6.xcp.cp0_epc))

/-- Lines 129-160: the frame is built on the user stack. -/
def dsemul_stack (cfg : Cfg) (st : State) (ir cpc : Nat) : Int × State :=
  let fr := cfg.subw (st.xcp.regs 29) cfg.sizeof_emuframe &&& cfg.notw 0x7
  if cfg.access_ok VERIFY_WRITE fr cfg.sizeof_emuframe = false then
    ((cfg.SIGBUS : Int), st)
  else
    let p2 : Bool × State :=
      if get_isa16_mode st.xcp.cp0_epc ≠ 0 then
        let a := put_user cfg st (ir >>> 16) (fr + off_emul) 2
        let b := put_user cfg a.2 (ir &&& 0xffff) (fr + off_emul + 2) 2
        let c := put_user cfg b.2 (cfg.BREAK_MATH >>> 16) (fr + off_badinst) 2
        let d := put_user cfg c.2 (cfg.BREAK_MATH &&& 0xffff) (fr + off_badinst + 2) 2
        (a.1 || b.1 || c.1 || d.1, d.2)
      else
        let a := put_user cfg st ir (fr + off_emul) 4
        let b := put_user cfg a.2 cfg.BREAK_MATH (fr + off_badinst) 4
        (a.1 || b.1, b.2)
    let p3 := put_user cfg p2.2 cfg.BD_COOKIE (fr + off_cookie) 4
    let p4 := put_user cfg p3.2 cpc (fr + cfg.off_epc) cfg.long_bytes
    if p2.1 || p3.1 || p4.1 then
      ((cfg.SIGBUS : Int), p4.2.inc_errors)
    else
      (0, p4.2.set_epc ((fr + off_emul) ||| get_isa16_mode p4.2.xcp.cp0_epc))

/-- The function `mips_dsemul (regs, ir, cpc, bpc, r31)`: the return value and
the state it leaves. -/
def mips_dsemul (cfg : Cfg) (st : State) (ir cpc bpc r31 : Nat) : Int × State :=
  if ir = 0 then (-1, st)
  else if get_isa16_mode st.xcp.cp0_epc ≠ 0 ∧ ir >>> 16 = cfg.MM_NOP16 then (-1, st)
  else if get_isa16_mode st.xcp.cp0_epc ≠ 0 ∧ cfg.mm_a_opcode ir = cfg.mm_addiupc_op then
    (-1, st.set_reg (addiupc_rs cfg ir) (cfg.of_long (addiupc_val cfg st ir)))
  else
    match st.vdso_page with
    | some pg => dsemul_vdso cfg st pg ir cpc bpc r31
    | none => dsemul_stack cfg st ir cpc

/-! ## `do_dsemulret` -/

/-- Lines 173-174: the candidate frame of a trap context, one instruction
width below the saved program counter with the mode bit masked. -/
def trap_frame (cfg : Cfg) (st : State) : Nat :=
  cfg.subw (msk_isa16_mode cfg st.xcp.cp0_epc) sizeof_insn

/-- Lines 189-195: the read of the trap-marker word `insn` of the frame at `fr`,
as two halfwords in compact mode; the flag is `err`. -/
def read_badinst (cfg : Cfg) (st : State) (fr : Nat) : Bool × Nat :=
  if get_isa16_mode st.xcp.cp0_epc ≠ 0 then
    let i0 := get_user cfg st (fr + off_badinst) 2
    let i1 := get_user cfg st (fr + off_badinst + 2) 2
    (i0.1 || i1.1, ((i0.2 <<< 16) ||| i1.2) % 2 ^ 32)
  else get_user cfg st (fr + off_badinst) 4

/-- The function `do_dsemulret (xcp)`: the return value and the state it leaves. -/
def do_dsemulret (cfg : Cfg) (st : State) : Int × State :=
  let fr := trap_frame cfg st
  if cfg.access_ok VERIFY_READ fr cfg.sizeof_emuframe = false then (0, st)
  else
    let rd := read_badinst cfg st fr
    let ck := get_user cfg st (fr + off_cookie) 4
    if (rd.1 || ck.1) = true ∨ rd.2 ≠ cfg.BREAK_MATH ∨ ck.2 ≠ cfg.BD_COOKIE ∨
        (st.vdso_page.isSome = true ∧ st.xcp.cp0_epc &&& cfg.PAGE_MASK ≠ st.vdso) then
      (0, st.inc_errors)
    else
      let ep := get_user cfg st (fr + cfg.off_epc) cfg.long_bytes
      if ep.1 = true then (0, st.force_sig cfg.SIGBUS)
      else if st.vdso_page.isSome = true then
        let up : State :=
          { st with vdso_offset := cfg.addw st.vdso_offset cfg.EMULFRAME_ROUNDED_SIZE }
        if up.vdso_offset > cfg.PAGE_SIZE then
          (0, ({ up with vdso_offset :=
                  cfg.subw up.vdso_offset cfg.EMULFRAME_ROUNDED_SIZE } : State).force_sig cfg.SIGBUS)
        else (1, (up.set_epc ep.2).inc_ds_emul)
      else (1, (st.set_epc ep.2).inc_ds_emul)

/-! ## `vdso_epc_adjust` -/

/-- The tests that leave the loop of `vdso_epc_adjust`: the `while` condition
(line 250) is false, or the `return` of lines 252-254 is taken. -/
def epc_adjust_done (cfg : Cfg) (st : State) : Bool :=
  if st.vdso_offset < cfg.PAGE_SIZE then
    let epc := msk_isa16_mode cfg st.xcp.cp0_epc
    decide (epc ≥ cfg.addw st.vdso cfg.PAGE_SIZE ∨ epc < cfg.addw st.vdso cfg.sizeof_mips_vdso)
  else true

/-- One pass through lines 256-274 of the loop body. -/
def epc_adjust_step (cfg : Cfg) (st : State) : State :=
  let epc := msk_isa16_mode cfg st.xcp.cp0_epc
  let fr := cfg.addw st.vdso st.vdso_offset
  let s1 : State :=
    if epc = fr + off_emul then
      let r31 := get_user cfg st (fr + cfg.off_r31) cfg.long_bytes
      let a := st.set_reg 31 r31.2
      a.set_epc (get_user cfg a (fr + cfg.off_bpc) cfg.long_bytes).2
    else
      st.set_epc (get_user cfg st (fr + cfg.off_epc) cfg.long_bytes).2
  { s1 with vdso_offset := cfg.addw s1.vdso_offset cfg.EMULFRAME_ROUNDED_SIZE }

/-- The function `vdso_epc_adjust (xcp)` run for at most `fuel` passes of its
loop: `none` when the loop has not finished within the fuel, `some st` with the
state at the return otherwise. -/
def vdso_epc_adjust (cfg : Cfg) : Nat → State → Option State
  | 0, st => if epc_adjust_done cfg st then some st else none
  | fuel + 1, st =>
    if epc_adjust_done cfg st then some st
    else vdso_epc_adjust cfg fuel (epc_adjust_step cfg st)

/-! ## Well-formedness of the platform and of the shared region -/

/-- The numeric facts about the platform that the kernel relies on:
`unsigned long` has 4 or 8 bytes, a page is at least 8 bytes and smaller than
the address space, the trampoline code fits in the page, the marker and the
cookie are 32-bit words and `SIGBUS` is not the success value 0. -/
def Cfg.WF (cfg : Cfg) : Prop :=
  (cfg.long_bytes = 4 ∨ cfg.long_bytes = 8) ∧
  3 ≤ cfg.PAGE_SHIFT ∧ cfg.PAGE_SHIFT < cfg.wbits ∧
  cfg.sizeof_mips_vdso ≤ cfg.PAGE_SIZE ∧
  cfg.BREAK_MATH < 2 ^ 32 ∧ cfg.BD_COOKIE < 2 ^ 32 ∧ cfg.SIGBUS ≠ 0

instance (cfg : Cfg) : Decidable cfg.WF := by
  unfold Cfg.WF
  infer_instance

/-- The thread has a shared scratch page: `vdso_page` is set and its kernel
address `pg` is such that pointer arithmetic around the page does not wrap; the
page is mapped page-aligned at user address `vdso`, below the top of the
address space, inside the user segment and readable by the user. -/
def SharedRegion (cfg : Cfg) (st : State) (pg : Nat) : Prop :=
  st.vdso_page = some pg ∧
  cfg.EMULFRAME_ROUNDED_SIZE ≤ pg ∧ pg + cfg.PAGE_SIZE < cfg.wmod ∧
  st.vdso % cfg.PAGE_SIZE = 0 ∧ st.vdso + cfg.PAGE_SIZE < cfg.wmod ∧
  (∀ k, k < cfg.PAGE_SIZE → st.readable (st.vdso + k) = true) ∧
  (∀ k, k + cfg.sizeof_emuframe ≤ cfg.PAGE_SIZE →
    cfg.access_ok VERIFY_READ (st.vdso + k) cfg.sizeof_emuframe = true)

/-- The instruction `ir` matches none of the fast paths of `mips_dsemul` when
the saved program counter is `epc`. -/
def not_fast_path (cfg : Cfg) (epc ir : Nat) : Prop :=
  ir ≠ 0 ∧ (get_isa16_mode epc ≠ 0 → ir >>> 16 ≠ cfg.MM_NOP16 ∧
    cfg.mm_a_opcode ir ≠ cfg.mm_addiupc_op)

instance (cfg : Cfg) (epc ir : Nat) : Decidable (not_fast_path cfg epc ir) := by
  unfold not_fast_path
  infer_instance

/-- The bytes that lines 104-116 leave in memory for a frame at user address
`u`: the same stores, in the same order, on the user view of the page. -/
def frame_image (cfg : Cfg) (m : Mem) (u mode ir cpc bpc r31 : Nat) : Mem :=
  let m2 : Mem :=
    if mode ≠ 0 then
      let a := cfg.store m (u + off_emul) 2 ((ir >>> 16) % 2 ^ 16)
      let b := cfg.store a (u + off_emul + 2) 2 ((ir &&& 0xffff) % 2 ^ 16)
      let c := cfg.store b (u + off_emul + 4) 2 ((cfg.BREAK_MATH >>> 16) % 2 ^ 16)
      cfg.store c (u + off_emul + 6) 2 ((cfg.BREAK_MATH &&& 0xffff) % 2 ^ 16)
    else
      let a := cfg.store m (u + off_emul) 4 ir
      cfg.store a (u + off_badinst) 4 cfg.BREAK_MATH
  let m3 := cfg.store m2 (u + off_cookie) 4 cfg.BD_COOKIE
  let m4 := cfg.store m3 (u + cfg.off_epc) cfg.long_bytes cpc
  let m5 := cfg.store m4 (u + cfg.off_bpc) cfg.long_bytes bpc
  cfg.store m5 (u + cfg.off_r31) cfg.long_bytes r31

/-- The state that a successful shared-region build leaves: the offset moved
down by one frame, the frame bytes stored at the user address of the new slot,
and the saved program counter redirected there with the mode bit kept. -/
def built_vdso (cfg : Cfg) (st : State) (ir cpc bpc r31 : Nat) : State :=
  let u := st.vdso + (st.vdso_offset - cfg.EMULFRAME_ROUNDED_SIZE)
  { st with
    vdso_offset := st.vdso_offset - cfg.EMULFRAME_ROUNDED_SIZE
    mem := frame_image cfg st.mem u (get_isa16_mode st.xcp.cp0_epc) ir cpc bpc r31
    xcp := { st.xcp with cp0_epc := u ||| get_isa16_mode st.xcp.cp0_epc } }

/-- The trap context when the trap marker of the frame that the saved program
counter of `st` points to fires: the exception program counter is the address of
the marker, one instruction width after the relocated instruction, with the mode
bit kept; the general registers are `regs`, whatever the relocated instruction
left in them. -/
def marker_trap (cfg : Cfg) (st : State) (regs : Nat → Nat) : State :=
  { st with xcp := { regs := regs, cp0_epc := cfg.addw st.xcp.cp0_epc sizeof_insn } }

/-! ## Sequences of calls -/

/-- The arguments of one call of `mips_dsemul`. -/
structure BuildArgs where
  /-- The instruction to relocate. -/
  ir : Nat
  /-- The continuation address. -/
  cpc : Nat
  /-- The target of the delay-slot branch. -/
  bpc : Nat
  /-- The link register at build time. -/
  r31 : Nat

/-- Consecutive calls of `mips_dsemul`, each on the state the previous one
left: the final state and, per call in call order, the return value and the
saved program counter after the call. -/
def build_seq (cfg : Cfg) : State → List BuildArgs → State × List (Int × Nat)
  | st, [] => (st, [])
  | st, a :: rest =>
    let r := mips_dsemul cfg st a.ir a.cpc a.bpc a.r31
    let t := build_seq cfg r.2 rest
    (t.1, (r.1, r.2.xcp.cp0_epc) :: t.2)

/-- Consecutive calls of `do_dsemulret`, one per listed frame program counter
(the value `mips_dsemul` left in the saved program counter when it built the
frame), each on the trap context of that frame's trap marker: the final state
and, per call in call order, the return value and the saved program counter
after the call. -/
def resolve_seq (cfg : Cfg) : State → List Nat → State × List (Int × Nat)
  | st, [] => (st, [])
  | st, pc :: rest =>
    let r := do_dsemulret cfg (marker_trap cfg (st.set_epc pc) st.xcp.regs)
    let t := resolve_seq cfg r.2 rest
    (t.1, (r.1, r.2.xcp.cp0_epc) :: t.2)

/-- The number of frames the shared page can hold. -/
def Cfg.capacity (cfg : Cfg) : Nat :=
  (cfg.PAGE_SIZE - cfg.sizeof_mips_vdso) / cfg.EMULFRAME_ROUNDED_SIZE

/-- One event in the life of a thread: a call of one of the three functions,
or anything else (user code, the rest of the kernel), which may replace the trap
context, the memory contents and the memory mappings but does not touch the
fields of the scratch page. -/
inductive Op where
  | dsemul (ir cpc bpc r31 : Nat)
  | dsemulret
  | epc_adjust
  | env (xcp : pt_regs) (mem : Mem) (readable writable : Nat → Bool)

/-- The state after one event; the loop of `vdso_epc_adjust` is given
`PAGE_SIZE` passes, and `none` means it has not finished within them. -/
def run_op (cfg : Cfg) (st : State) : Op → Option State
  | Op.dsemul ir cpc bpc r31 => some (mips_dsemul cfg st ir cpc bpc r31).2
  | Op.dsemulret => some (do_dsemulret cfg st).2
  | Op.epc_adjust => vdso_epc_adjust cfg cfg.PAGE_SIZE st
  | Op.env xcp mem readable writable =>
    some { st with xcp := xcp, mem := mem, readable := readable, writable := writable }

/-- The state after a sequence of events. -/
def run (cfg : Cfg) : State → List Op → Option State
  | st, [] => some st
  | st, op :: ops => (run_op cfg st op).bind (fun s => run cfg s ops)

/-- The invariant of the offset: it lies between the end of the trampoline code
and the page end, a whole number of frames below the page end, and the kernel
address of the page (if there is one) leaves room for pointer arithmetic. -/
def OffsetInv (cfg : Cfg) (st : State) : Prop :=
  cfg.sizeof_mips_vdso ≤ st.vdso_offset ∧ st.vdso_offset ≤ cfg.PAGE_SIZE ∧
  (cfg.PAGE_SIZE - st.vdso_offset) % cfg.EMULFRAME_ROUNDED_SIZE = 0 ∧
  (∀ pg, st.vdso_page = some pg →
    cfg.EMULFRAME_ROUNDED_SIZE ≤ pg ∧ pg + cfg.PAGE_SIZE < cfg.wmod)

/-- The saved program counter, mode bit masked, lies in scratch-frame memory:
in `[vdso + sizeof (struct mips_vdso), vdso + PAGE_SIZE)`. -/
def in_scratch (cfg : Cfg) (st : State) : Prop :=
  st.vdso + cfg.sizeof_mips_vdso ≤ msk_isa16_mode cfg st.xcp.cp0_epc ∧
  msk_isa16_mode cfg st.xcp.cp0_epc < st.vdso + cfg.PAGE_SIZE

instance (cfg : Cfg) (st : State) : Decidable (in_scratch cfg st) := by
  unfold in_scratch
  infer_instance

/-- The address `a`, mode bit masked, lies in the scratch-frame memory of the
page mapped at `vdso`: in `[vdso + sizeof (struct mips_vdso), vdso + PAGE_SIZE)`. -/
def scratch_addr (cfg : Cfg) (vdso a : Nat) : Prop :=
  vdso + cfg.sizeof_mips_vdso ≤ msk_isa16_mode cfg a ∧
  msk_isa16_mode cfg a < vdso + cfg.PAGE_SIZE

instance (cfg : Cfg) (vdso a : Nat) : Decidable (scratch_addr cfg vdso a) := by
  unfold scratch_addr
  infer_instance

/-! ## The stack placement -/

/-- Lines 131-132: the frame address on the user stack for stack pointer `sp`,
`(sp - sizeof (struct emuframe)) & ~0x7`. -/
def stack_frame (cfg : Cfg) (sp : Nat) : Nat :=
  cfg.subw sp cfg.sizeof_emuframe &&& cfg.notw 0x7

/-- The bytes that lines 138-149 leave in memory for a frame at user address
`u` when no write faults: the same stores, in the same order. -/
def stack_image (cfg : Cfg) (m : Mem) (u mode ir cpc : Nat) : Mem :=
  let m2 : Mem :=
    if mode ≠ 0 then
      let a := cfg.store m (u + off_emul) 2 (ir >>> 16)
      let b := cfg.store a (u + off_emul + 2) 2 (ir &&& 0xffff)
      let c := cfg.store b (u + off_badinst) 2 (cfg.BREAK_MATH >>> 16)
      cfg.store c (u + off_badinst + 2) 2 (cfg.BREAK_MATH &&& 0xffff)
    else
      let a := cfg.store m (u + off_emul) 4 ir
      cfg.store a (u + off_badinst) 4 cfg.BREAK_MATH
  let m3 := cfg.store m2 (u + off_cookie) 4 cfg.BD_COOKIE
  cfg.store m3 (u + cfg.off_epc) cfg.long_bytes cpc

/-- The state that a successful stack build leaves: the frame bytes stored
below the stack pointer and the saved program counter redirected there with the
mode bit kept. -/
def built_stack (cfg : Cfg) (st : State) (ir cpc : Nat) : State :=
  let u := stack_frame cfg (st.xcp.regs 29)
  { st with
    mem := stack_image cfg st.mem u (get_isa16_mode st.xcp.cp0_epc) ir cpc
    xcp := { st.xcp with cp0_epc := (u + off_emul) ||| get_isa16_mode st.xcp.cp0_epc } }

/-- No byte that the stack path writes in the frame at `fr` faults: the three
instruction words and the field `epc`. -/
def stack_writable (cfg : Cfg) (st : State) (fr : Nat) : Prop :=
  ∀ i, (i < 12 ∨ (cfg.off_epc ≤ i ∧ i < cfg.off_epc + cfg.long_bytes)) →
    st.writable (fr + i) = true

/-- The fields of `struct emuframe` that both placements write, read back from
memory `m` at frame address `u`: the relocated instruction and the trap marker
(as one word each in standard mode, as two halfwords each in compact mode), the
cookie and `epc`. -/
def frame_fields (cfg : Cfg) (m : Mem) (u mode ir cpc : Nat) : Prop :=
  (if mode ≠ 0 then
    cfg.load m (u + off_emul) 2 = ir >>> 16 ∧
    cfg.load m (u + off_emul + 2) 2 = ir &&& 0xffff ∧
    cfg.load m (u + off_badinst) 2 = cfg.BREAK_MATH >>> 16 ∧
    cfg.load m (u + off_badinst + 2) 2 = cfg.BREAK_MATH &&& 0xffff
  else
    cfg.load m (u + off_emul) 4 = ir ∧
    cfg.load m (u + off_badinst) 4 = cfg.BREAK_MATH) ∧
  cfg.load m (u + off_cookie) 4 = cfg.BD_COOKIE ∧
  cfg.load m (u + cfg.off_epc) cfg.long_bytes = cpc

/-! ## A concrete platform -/

/-- The 32-bit little-endian platform with 4 KiB pages and the constants of the
kernel headers: `BREAK_MATH` is `break 514`, the `mm_a_format` fields are
`opcode : 6`, `rs : 3`, `simmediate : 23` from the most significant bit down,
and `access_ok` accepts ranges inside the user segment `[0, 0x80000000)`. -/
def mips32 : Cfg where
  long_bytes := 4
  big_endian := false
  PAGE_SHIFT := 12
  sizeof_mips_vdso := 16
  BREAK_MATH := 0x0202000d
  BD_COOKIE := 0x0000bd36
  MM_NOP16 := 0x0c00
  mm_addiupc_op := 0x1e
  mm_a_opcode := fun ir => ir >>> 26
  mm_a_rs := fun ir => (ir >>> 23) &&& 0x7
  mm_a_simmediate := fun ir => ((ir % 2 ^ 23 + 2 ^ 22) % 2 ^ 23 : Nat) - 2 ^ 22
  access_ok := fun _ a n => decide (a + n ≤ 0x80000000)
  SIGBUS := 10
  gu_fault := 0

/-- A thread of `mips32` at rest in standard mode: the shared page has kernel
address `0x80010000` and user address `0x7fff0000`, no frame is pending
(`vdso_offset = PAGE_SIZE`), all user memory is readable and zero. -/
def rest32 : State where
  xcp := { regs := fun _ => 0, cp0_epc := 0x400100 }
  vdso_page := some 0x80010000
  vdso_offset := 4096
  vdso := 0x7fff0000
  mem := fun _ => 0
  readable := fun _ => true
  writable := fun _ => true
  forced := []
  stat_errors := 0
  stat_ds_emul := 0

/-- The thread `rest32` with the saved program counter in compact (ISA16) mode. -/
def rest32_mm : State := rest32.set_epc 0x400101

/-- Three builds with distinct continuation addresses. -/
def three_frames : List BuildArgs :=
  [⟨0x12345678, 0x400200, 0x400300, 1⟩, ⟨0x2345678a, 0x500200, 0x500300, 2⟩,
    ⟨0x345678ab, 0x600200, 0x600300, 3⟩]

/-- As many equal builds as the page of `mips32` has slots. -/
def full_page : List BuildArgs :=
  List.replicate 170 ⟨0x12345678, 0x400200, 0x400300, 1⟩

/-- One more build. -/
def one_more : BuildArgs := ⟨0x2345678a, 0x500200, 0x500300, 2⟩

/-- One pending frame on `rest32`, the saved program counter at its relocated
instruction. -/
def pending32 : State := (mips_dsemul mips32 rest32 0x12345678 0x400200 0x400300 77).2

/-- One pending frame on `rest32` whose continuation address `0x7fff07d0` lies
in the scratch area, the saved program counter at its trap marker. -/
def nested32 : State :=
  marker_trap mips32 (mips_dsemul mips32 rest32 0x12345678 0x7fff07d0 0x400300 77).2
    (fun _ => 0)

/-- The thread `rest32`, no frame pending, with the saved program counter inside
the scratch area. -/
def idle_scratch32 : State := rest32.set_epc 0x7fff0800

/-- A history: two nested builds, a signal entry, a return to another context,
a resolve, a further build and a further signal entry. -/
def history32 : List Op :=
  [Op.dsemul 0x12345678 0x400200 0x400300 1, Op.dsemul 0x2345678a 0x500200 0x500300 2,
    Op.epc_adjust, Op.env ⟨fun _ => 9, 0x7fffffd5⟩ (fun _ => 0xff) (fun _ => true) (fun _ => false),
    Op.dsemulret, Op.dsemul 0x345678ab 0x600200 0x600300 3, Op.epc_adjust]

/-- A thread of `mips32` without a shared page, in standard mode, with stack
pointer `0x7fff8000`; all user memory is readable, writable and zero. -/
def stack32 : State where
  xcp := { regs := fun i => if i = 29 then 0x7fff8000 else 0, cp0_epc := 0x400100 }
  vdso_page := none
  vdso_offset := 4096
  vdso := 0x7fff0000
  mem := fun _ => 0
  readable := fun _ => true
  writable := fun _ => true
  forced := []
  stat_errors := 0
  stat_ds_emul := 0

/-- The thread `stack32` with the saved program counter in compact (ISA16) mode. -/
def stack32_mm : State := stack32.set_epc 0x400101

/-- The thread `stack32` whose stack is mapped read-only. -/
def stack32_ro : State := { stack32 with writable := fun _ => false }

/-- The trap context of the marker of the frame `pending32` after the offset
has been put back to `PAGE_SIZE` (the frame was abandoned at a signal entry). -/
def unwound32 : State :=
  marker_trap mips32 { pending32 with vdso_offset := 4096 } pending32.xcp.regs

/-- The frame `pending32` with the saved program counter just past its trap
marker, two instruction widths above the frame address. -/
def past_marker32 : State := pending32.set_epc (pending32.xcp.cp0_epc + 2 * sizeof_insn)

/-- Three pending frames on `rest32`, the saved program counter at the trap
marker of the last one. -/
def stacked32 : State :=
  marker_trap mips32 (build_seq mips32 rest32 three_frames).1 (fun _ => 0)

/-- The trap context of a frame built on `rest32` whose cookie has been
overwritten afterwards. -/
def bad_cookie32 : State :=
  let b := (mips_dsemul mips32 rest32 0x12345678 0x400200 0x400300 77).2
  marker_trap mips32 { b with mem := Function.update b.mem (0x7fff0000 + 4072 + 8) 0x37 }
    b.xcp.regs

/-! ## Bit-level arithmetic -/

theorem and_high_mask (x w k : Nat) (hx : x < 2 ^ w) (hk : k ≤ w) :
    x &&& (2 ^ w - 2 ^ k) = x - x % 2 ^ k := by
  have h1 : 2 ^ w - 2 ^ k = 2 ^ k * (2 ^ (w - k) - 1) := by
    rw [Nat.mul_sub, ← Nat.pow_add, Nat.add_sub_cancel' hk, Nat.mul_one]
  have h2 : x - x % 2 ^ k = 2 ^ k * (x / 2 ^ k) := by
    have := Nat.div_add_mod x (2 ^ k)
    omega
  rw [h1, h2]
  apply Nat.eq_of_testBit_eq
  intro i
  rw [Nat.testBit_and, Nat.testBit_mul_pow_two, Nat.testBit_mul_pow_two,
    Nat.testBit_two_pow_sub_one, ← Nat.shiftRight_eq_div_pow, Nat.testBit_shiftRight]
  by_cases hik : k ≤ i
  · have e : k + (i - k) = i := by omega
    by_cases hiw : i < w
    · have : i - k < w - k := by omega
      simp [hik, this, e]
    · have hlt : x < 2 ^ i := lt_of_lt_of_le hx (Nat.pow_le_pow_right (by decide) (by omega))
      have : x.testBit i = false := Nat.testBit_lt_two_pow hlt
      simp [hik, this, e]
  · simp [hik]

theorem or_low (a b k : Nat) (ha : a % 2 ^ k = 0) (hb : b < 2 ^ k) : a ||| b = a + b := by
  have h := Nat.div_add_mod a (2 ^ k)
  rw [ha, Nat.add_zero] at h
  rw [← h, Nat.mul_add_lt_is_or hb]

theorem shl_or (a b k : Nat) (hb : b < 2 ^ k) : (a <<< k) ||| b = a * 2 ^ k + b := by
  rw [Nat.shiftLeft_eq, Nat.mul_comm, Nat.mul_add_lt_is_or hb]

theorem and_ffff (x : Nat) : x &&& 0xffff = x % 65536 := by
  have := Nat.and_pow_two_sub_one_eq_mod x 16
  simpa using this

theorem get_isa16_mode_eq (x : Nat) : get_isa16_mode x = x % 2 := by
  unfold get_isa16_mode
  exact Nat.and_one_is_mod x

theorem get_isa16_mode_lt (x : Nat) : get_isa16_mode x < 2 := by
  rw [get_isa16_mode_eq]
  omega

/-! ## Memory lemmas -/

theorem store_le_outside (n : Nat) : ∀ (m : Mem) (a v b : Nat), (b < a ∨ a + n ≤ b) →
    store_le m a n v b = m b := by
  induction n with
  | zero => intro m a v b _; rfl
  | succ n ih =>
    intro m a v b h
    rw [store_le, ih _ _ _ _ (by omega), Function.update_noteq (by omega)]

theorem store_be_outside (n : Nat) : ∀ (m : Mem) (a v b : Nat), (b < a ∨ a + n ≤ b) →
    store_be m a n v b = m b := by
  induction n with
  | zero => intro m a v b _; rfl
  | succ n ih =>
    intro m a v b h
    rw [store_be, ih _ _ _ _ (by omega), Function.update_noteq (by omega)]

theorem load_le_congr (n : Nat) : ∀ (m1 m2 : Mem) (a : Nat),
    (∀ i, i < n → m1 (a + i) = m2 (a + i)) → load_le m1 a n = load_le m2 a n := by
  induction n with
  | zero => intro m1 m2 a _; rfl
  | succ n ih =>
    intro m1 m2 a h
    have h0 := h 0 (by omega)
    rw [Nat.add_zero] at h0
    rw [load_le, load_le, h0, ih m1 m2 (a + 1) (fun i hi => by
      have := h (i + 1) (by omega)
      rwa [Nat.add_assoc, Nat.add_comm 1 i])]

theorem load_be_congr (n : Nat) : ∀ (m1 m2 : Mem) (a : Nat),
    (∀ i, i < n → m1 (a + i) = m2 (a + i)) → load_be m1 a n = load_be m2 a n := by
  induction n with
  | zero => intro m1 m2 a _; rfl
  | succ n ih =>
    intro m1 m2 a h
    rw [load_be, load_be, h n (by omega), ih m1 m2 a (fun i hi => h i (by omega))]

theorem load_le_store_le (n : Nat) : ∀ (m : Mem) (a v : Nat),
    load_le (store_le m a n v) a n = v % 256 ^ n := by
  induction n with
  | zero => intro m a v; simp [load_le, Nat.mod_one]
  | succ n ih =>
    intro m a v
    rw [load_le, store_le, ih, store_le_outside n _ _ _ _ (by omega), Function.update_same,
      Nat.mod_mod, Nat.pow_succ, Nat.mul_comm (256 ^ n) 256, Nat.mod_mul]

theorem load_be_store_be (n : Nat) : ∀ (m : Mem) (a v : Nat),
    load_be (store_be m a n v) a n = v % 256 ^ n := by
  induction n with
  | zero => intro m a v; simp [load_be, Nat.mod_one]
  | succ n ih =>
    intro m a v
    have hc : load_be (store_be (Function.update m (a + n) (v % 256)) a n (v / 256)) a n
        = (v / 256) % 256 ^ n := ih _ _ _
    rw [load_be, store_be, hc, store_be_outside n _ _ _ _ (by omega), Function.update_same,
      Nat.mod_mod, Nat.pow_succ, Nat.mul_comm (256 ^ n) 256, Nat.mod_mul]
    omega

theorem store_outside (cfg : Cfg) (m : Mem) (a n v b : Nat) (h : b < a ∨ a + n ≤ b) :
    cfg.store m a n v b = m b := by
  unfold Cfg.store
  split
  · exact store_be_outside n m a v b h
  · exact store_le_outside n m a v b h

theorem load_congr (cfg : Cfg) (m1 m2 : Mem) (a n : Nat)
    (h : ∀ i, i < n → m1 (a + i) = m2 (a + i)) : cfg.load m1 a n = cfg.load m2 a n := by
  unfold Cfg.load
  split
  · exact load_be_congr n m1 m2 a h
  · exact load_le_congr n m1 m2 a h

theorem load_store_same (cfg : Cfg) (m : Mem) (a n v : Nat) :
    cfg.load (cfg.store m a n v) a n = v % 256 ^ n := by
  unfold Cfg.load Cfg.store
  split
  · exact load_be_store_be n m a v
  · exact load_le_store_le n m a v

theorem load_store_disj (cfg : Cfg) (m : Mem) (a n v b k : Nat) (h : b + k ≤ a ∨ a + n ≤ b) :
    cfg.load (cfg.store m a n v) b k = cfg.load m b k := by
  apply load_congr
  intro i hi
  exact store_outside cfg m a n v (b + i) (by omega)

theorem all_bytes_of_forall (p : Nat → Bool) (n : Nat) : ∀ a : Nat,
    (∀ i, i < n → p (a + i) = true) → all_bytes p a n = true := by
  induction n with
  | zero => intro a _; rfl
  | succ n ih =>
    intro a h
    have h0 := h 0 (by omega)
    rw [Nat.add_zero] at h0
    rw [all_bytes, h0, ih (a + 1) (fun i hi => by
      have := h (i + 1) (by omega)
      rwa [Nat.add_assoc, Nat.add_comm 1 i])]
    rfl

/-! ## Arithmetic of the platform parameters -/

theorem notw_and (cfg : Cfg) (x k : Nat) (hx : x < cfg.wmod) (hk : k ≤ cfg.wbits) :
    x &&& cfg.notw (2 ^ k - 1) = x - x % 2 ^ k := by
  have hpos : 0 < 2 ^ k := Nat.two_pow_pos k
  have hle : 2 ^ k ≤ 2 ^ cfg.wbits := Nat.pow_le_pow_right (by decide) hk
  have e : cfg.notw (2 ^ k - 1) = 2 ^ cfg.wbits - 2 ^ k := by
    unfold Cfg.notw Cfg.wmod
    omega
  rw [e]
  exact and_high_mask x cfg.wbits k hx hk

theorem wf_layout (cfg : Cfg) (h : cfg.WF) :
    (cfg.long_bytes = 4 ∧ cfg.wbits = 32 ∧ cfg.wmod = 2 ^ 32 ∧ cfg.off_epc = 12 ∧
      cfg.off_bpc = 16 ∧ cfg.off_r31 = 20 ∧
      cfg.sizeof_emuframe = 24 ∧ cfg.EMULFRAME_ROUNDED_SIZE = 24) ∨
    (cfg.long_bytes = 8 ∧ cfg.wbits = 64 ∧ cfg.wmod = 2 ^ 64 ∧ cfg.off_epc = 16 ∧
      cfg.off_bpc = 24 ∧ cfg.off_r31 = 32 ∧
      cfg.sizeof_emuframe = 40 ∧ cfg.EMULFRAME_ROUNDED_SIZE = 40) := by
  rcases h.1 with h4 | h8
  · left
    have hb : cfg.wbits = 32 := by simp [Cfg.wbits, h4]
    have hw : cfg.wmod = 2 ^ 32 := by simp [Cfg.wmod, hb]
    have ho : cfg.off_epc = 12 := by simp [Cfg.off_epc, h4]
    have hs : cfg.sizeof_emuframe = 24 := by simp [Cfg.sizeof_emuframe, ho, h4]
    refine ⟨h4, hb, hw, ho, by simp [Cfg.off_bpc, ho, h4], by simp [Cfg.off_r31, ho, h4], hs, ?_⟩
    have := notw_and cfg ((cfg.sizeof_emuframe + 7) % cfg.wmod) 3
      (Nat.mod_lt _ (by rw [hw]; decide)) (by omega)
    simp only [Cfg.EMULFRAME_ROUNDED_SIZE]
    norm_num at this
    rw [this, hs, hw]
    norm_num
  · right
    have hb : cfg.wbits = 64 := by simp [Cfg.wbits, h8]
    have hw : cfg.wmod = 2 ^ 64 := by simp [Cfg.wmod, hb]
    have ho : cfg.off_epc = 16 := by simp [Cfg.off_epc, h8]
    have hs : cfg.sizeof_emuframe = 40 := by simp [Cfg.sizeof_emuframe, ho, h8]
    refine ⟨h8, hb, hw, ho, by simp [Cfg.off_bpc, ho, h8], by simp [Cfg.off_r31, ho, h8], hs, ?_⟩
    have := notw_and cfg ((cfg.sizeof_emuframe + 7) % cfg.wmod) 3
      (Nat.mod_lt _ (by rw [hw]; decide)) (by omega)
    simp only [Cfg.EMULFRAME_ROUNDED_SIZE]
    norm_num at this
    rw [this, hs, hw]
    norm_num

theorem wf_page (cfg : Cfg) (h : cfg.WF) :
    8 ≤ cfg.PAGE_SIZE ∧ cfg.PAGE_SIZE % 8 = 0 ∧ 2 * cfg.PAGE_SIZE ≤ cfg.wmod ∧
      cfg.sizeof_mips_vdso ≤ cfg.PAGE_SIZE := by
  obtain ⟨_, h3, hlt, hS, _⟩ := h
  have e : cfg.PAGE_SIZE = 8 * 2 ^ (cfg.PAGE_SHIFT - 3) := by
    unfold Cfg.PAGE_SIZE
    have : cfg.PAGE_SHIFT = 3 + (cfg.PAGE_SHIFT - 3) := by omega
    conv_lhs => rw [this, Nat.pow_add]
  have hp : 0 < 2 ^ (cfg.PAGE_SHIFT - 3) := Nat.two_pow_pos _
  refine ⟨by omega, by omega, ?_, hS⟩
  have : 2 ^ (cfg.PAGE_SHIFT + 1) ≤ 2 ^ cfg.wbits := Nat.pow_le_pow_right (by decide) (by omega)
  unfold Cfg.PAGE_SIZE Cfg.wmod
  rw [Nat.pow_succ] at this
  omega

theorem page_mask_and (cfg : Cfg) (h : cfg.WF) (x : Nat) (hx : x < cfg.wmod) :
    x &&& cfg.PAGE_MASK = x - x % cfg.PAGE_SIZE := by
  unfold Cfg.PAGE_MASK Cfg.PAGE_SIZE
  exact and_high_mask x cfg.wbits cfg.PAGE_SHIFT hx (le_of_lt h.2.2.1)

theorem mod8_of_page_aligned (cfg : Cfg) (h : cfg.WF) (v : Nat) (hv : v % cfg.PAGE_SIZE = 0) :
    v % 8 = 0 := by
  have h8 : (8 : Nat) ∣ cfg.PAGE_SIZE := Nat.dvd_of_mod_eq_zero (wf_page cfg h).2.1
  have : cfg.PAGE_SIZE ∣ v := Nat.dvd_of_mod_eq_zero hv
  exact Nat.mod_eq_zero_of_dvd (dvd_trans h8 this)

theorem page_offset (P v k : Nat) (hv : v % P = 0) (hk : k < P) : (v + k) % P = k := by
  rw [Nat.add_mod, hv, Nat.zero_add, Nat.mod_mod, Nat.mod_eq_of_lt hk]

theorem msk_isa16_mode_eq (cfg : Cfg) (h : cfg.WF) (x : Nat) (hx : x < cfg.wmod) :
    msk_isa16_mode cfg x = x - x % 2 := by
  have := notw_and cfg x 1 hx (by rcases h.1 with h4 | h8 <;> simp [Cfg.wbits, *])
  simpa [msk_isa16_mode] using this

theorem notw7_and (cfg : Cfg) (h : cfg.WF) (x : Nat) (hx : x < cfg.wmod) :
    x &&& cfg.notw 0x7 = x - x % 8 := by
  have := notw_and cfg x 3 hx (by rcases h.1 with h4 | h8 <;> simp [Cfg.wbits, *])
  simpa using this

theorem notw3_and (cfg : Cfg) (h : cfg.WF) (x : Nat) (hx : x < cfg.wmod) :
    x &&& cfg.notw 3 = x - x % 4 := by
  have := notw_and cfg x 2 hx (by rcases h.1 with h4 | h8 <;> simp [Cfg.wbits, *])
  simpa using this

theorem subw_eq (cfg : Cfg) (a b : Nat) (ha : a < cfg.wmod) (hb : b ≤ a) :
    cfg.subw a b = a - b := by
  unfold Cfg.subw
  have hbm : b % cfg.wmod = b := Nat.mod_eq_of_lt (lt_of_le_of_lt hb ha)
  rw [hbm]
  have : a + (cfg.wmod - b) = (a - b) + cfg.wmod := by omega
  rw [this, Nat.add_mod_right, Nat.mod_eq_of_lt (by omega)]

theorem addw_eq (cfg : Cfg) (a b : Nat) (h : a + b < cfg.wmod) : cfg.addw a b = a + b := by
  unfold Cfg.addw
  exact Nat.mod_eq_of_lt h

/-! ## The shared-region build -/

theorem kstore_xcp (cfg : Cfg) (st : State) (pg a n v : Nat) :
    (kstore cfg st pg a n v).xcp = st.xcp := by
  unfold kstore; split <;> rfl

theorem kstore_vdso_page (cfg : Cfg) (st : State) (pg a n v : Nat) :
    (kstore cfg st pg a n v).vdso_page = st.vdso_page := by
  unfold kstore; split <;> rfl

theorem kstore_vdso_offset (cfg : Cfg) (st : State) (pg a n v : Nat) :
    (kstore cfg st pg a n v).vdso_offset = st.vdso_offset := by
  unfold kstore; split <;> rfl

theorem kstore_vdso (cfg : Cfg) (st : State) (pg a n v : Nat) :
    (kstore cfg st pg a n v).vdso = st.vdso := by
  unfold kstore; split <;> rfl

theorem kstore_readable (cfg : Cfg) (st : State) (pg a n v : Nat) :
    (kstore cfg st pg a n v).readable = st.readable := by
  unfold kstore; split <;> rfl

theorem kstore_writable (cfg : Cfg) (st : State) (pg a n v : Nat) :
    (kstore cfg st pg a n v).writable = st.writable := by
  unfold kstore; split <;> rfl

theorem kstore_forced (cfg : Cfg) (st : State) (pg a n v : Nat) :
    (kstore cfg st pg a n v).forced = st.forced := by
  unfold kstore; split <;> rfl

theorem kstore_stat_errors (cfg : Cfg) (st : State) (pg a n v : Nat) :
    (kstore cfg st pg a n v).stat_errors = st.stat_errors := by
  unfold kstore; split <;> rfl

theorem kstore_stat_ds_emul (cfg : Cfg) (st : State) (pg a n v : Nat) :
    (kstore cfg st pg a n v).stat_ds_emul = st.stat_ds_emul := by
  unfold kstore; split <;> rfl

theorem kstore_mem (cfg : Cfg) (st : State) (pg d n v : Nat)
    (h : d + n ≤ cfg.PAGE_SIZE) :
    (kstore cfg st pg (pg + d) n v).mem = cfg.store st.mem (st.vdso + d) n v := by
  unfold kstore
  rw [if_pos ⟨by omega, by omega⟩, Nat.add_sub_cancel_left]

theorem dsemul_vdso_ok (cfg : Cfg) (h : cfg.WF) (st : State) (pg ir cpc bpc r31 : Nat)
    (hR : cfg.EMULFRAME_ROUNDED_SIZE ≤ pg) (hpg : pg + cfg.PAGE_SIZE < cfg.wmod)
    (hv : st.vdso + cfg.PAGE_SIZE < cfg.wmod)
    (hoff : st.vdso_offset ≤ cfg.PAGE_SIZE)
    (hcap : cfg.sizeof_mips_vdso + cfg.EMULFRAME_ROUNDED_SIZE ≤ st.vdso_offset) :
    dsemul_vdso cfg st pg ir cpc bpc r31 = (0, built_vdso cfg st ir cpc bpc r31) := by
  obtain ⟨hP8, hPm, hPw, hS⟩ := wf_page cfg h
  have hfr : cfg.subw (cfg.addw pg st.vdso_offset) cfg.EMULFRAME_ROUNDED_SIZE
      = pg + (st.vdso_offset - cfg.EMULFRAME_ROUNDED_SIZE) := by
    rw [addw_eq cfg _ _ (by omega), subw_eq cfg _ _ (by omega) (by omega)]
    omega
  have hlim : cfg.addw pg cfg.sizeof_mips_vdso = pg + cfg.sizeof_mips_vdso :=
    addw_eq cfg _ _ (by omega)
  have hso : cfg.subw st.vdso_offset cfg.EMULFRAME_ROUNDED_SIZE
      = st.vdso_offset - cfg.EMULFRAME_ROUNDED_SIZE := subw_eq cfg _ _ (by omega) (by omega)
  have hva : cfg.addw st.vdso (st.vdso_offset - cfg.EMULFRAME_ROUNDED_SIZE)
      = st.vdso + (st.vdso_offset - cfg.EMULFRAME_ROUNDED_SIZE) := addw_eq cfg _ _ (by omega)
  unfold dsemul_vdso
  simp only [hfr, hlim, hso]
  rw [if_neg (by omega)]
  refine Prod.ext rfl ?_
  rcases wf_layout cfg h with ⟨hL, -, -, ho, hb, hr, hs, hrs⟩ | ⟨hL, -, -, ho, hb, hr, hs, hrs⟩
  all_goals
    by_cases hm : get_isa16_mode st.xcp.cp0_epc ≠ 0
    all_goals
      simp only [if_pos hm, if_neg hm, State.set_epc, built_vdso, frame_image, kstore_xcp,
        kstore_vdso_page, kstore_vdso_offset, kstore_vdso, kstore_readable, kstore_writable,
        kstore_forced, kstore_stat_errors, kstore_stat_ds_emul, hva, Nat.add_assoc]
      simp only [hrs, ho, hb, hr, hL, off_emul, off_badinst, off_cookie, Nat.add_zero,
        Nat.zero_add, Nat.reduceAdd] at hcap hR ⊢
      rw [kstore_mem cfg _ pg _ _ _ (by omega), kstore_mem cfg _ pg _ _ _ (by omega),
        kstore_mem cfg _ pg _ _ _ (by omega), kstore_mem cfg _ pg _ _ _ (by omega),
        kstore_mem cfg _ pg _ _ _ (by omega), kstore_mem cfg _ pg _ _ _ (by omega)]
      first
        | rw [kstore_mem cfg _ pg _ _ _ (by omega), kstore_mem cfg _ pg _ _ _ (by omega)]
        | skip
      simp only [kstore_vdso, Nat.add_assoc, Nat.reduceAdd]

/-! ## Contents of a built frame -/

theorem frame_image_outside (cfg : Cfg) (h : cfg.WF) (m : Mem) (u mode ir cpc bpc r31 b : Nat)
    (hout : b < u ∨ u + cfg.sizeof_emuframe ≤ b) :
    frame_image cfg m u mode ir cpc bpc r31 b = m b := by
  unfold frame_image
  rcases wf_layout cfg h with ⟨hL, -, -, ho, hb, hr, hs, hrs⟩ | ⟨hL, -, -, ho, hb, hr, hs, hrs⟩
  all_goals
    simp only [ho, hb, hr, hL, hs, off_emul, off_badinst, off_cookie] at hout ⊢
    by_cases hm : mode ≠ 0
    all_goals
      simp only [if_pos hm, if_neg hm]
      repeat rw [store_outside cfg _ _ _ _ _ (by omega)]

theorem frame_image_cookie (cfg : Cfg) (h : cfg.WF) (m : Mem) (u mode ir cpc bpc r31 : Nat) :
    cfg.load (frame_image cfg m u mode ir cpc bpc r31) (u + off_cookie) 4 = cfg.BD_COOKIE := by
  have hc : cfg.BD_COOKIE % 256 ^ 4 = cfg.BD_COOKIE := Nat.mod_eq_of_lt h.2.2.2.2.2.1
  unfold frame_image
  rcases wf_layout cfg h with ⟨hL, -, -, ho, hb, hr, hs, hrs⟩ | ⟨hL, -, -, ho, hb, hr, hs, hrs⟩
  all_goals
    simp only [ho, hb, hr, hL, hs, off_emul, off_badinst, off_cookie]
    repeat rw [load_store_disj cfg _ _ _ _ _ _ (by omega)]
    rw [load_store_same, hc]

theorem frame_image_epc (cfg : Cfg) (h : cfg.WF) (m : Mem) (u mode ir cpc bpc r31 : Nat)
    (hcpc : cpc < cfg.wmod) :
    cfg.load (frame_image cfg m u mode ir cpc bpc r31) (u + cfg.off_epc) cfg.long_bytes = cpc := by
  unfold frame_image
  rcases wf_layout cfg h with ⟨hL, -, hw, ho, hb, hr, hs, hrs⟩ | ⟨hL, -, hw, ho, hb, hr, hs, hrs⟩
  all_goals
    simp only [ho, hb, hr, hL, hs, off_emul, off_badinst, off_cookie]
    repeat rw [load_store_disj cfg _ _ _ _ _ _ (by omega)]
    rw [load_store_same]
    rw [hw] at hcpc
    exact Nat.mod_eq_of_lt (by norm_num; omega)

theorem frame_image_bpc (cfg : Cfg) (h : cfg.WF) (m : Mem) (u mode ir cpc bpc r31 : Nat)
    (hbpc : bpc < cfg.wmod) :
    cfg.load (frame_image cfg m u mode ir cpc bpc r31) (u + cfg.off_bpc) cfg.long_bytes = bpc := by
  unfold frame_image
  rcases wf_layout cfg h with ⟨hL, -, hw, ho, hb, hr, hs, hrs⟩ | ⟨hL, -, hw, ho, hb, hr, hs, hrs⟩
  all_goals
    simp only [ho, hb, hr, hL, hs, off_emul, off_badinst, off_cookie]
    repeat rw [load_store_disj cfg _ _ _ _ _ _ (by omega)]
    rw [load_store_same]
    rw [hw] at hbpc
    exact Nat.mod_eq_of_lt (by norm_num; omega)

theorem frame_image_r31 (cfg : Cfg) (h : cfg.WF) (m : Mem) (u mode ir cpc bpc r31 : Nat)
    (hr31 : r31 < cfg.wmod) :
    cfg.load (frame_image cfg m u mode ir cpc bpc r31) (u + cfg.off_r31) cfg.long_bytes = r31 := by
  unfold frame_image
  rcases wf_layout cfg h with ⟨hL, -, hw, ho, hb, hr, hs, hrs⟩ | ⟨hL, -, hw, ho, hb, hr, hs, hrs⟩
  all_goals
    simp only [ho, hb, hr, hL, hs, off_emul, off_badinst, off_cookie]
    rw [load_store_same]
    rw [hw] at hr31
    exact Nat.mod_eq_of_lt (by norm_num; omega)

theorem frame_image_badinst (cfg : Cfg) (h : cfg.WF) (m : Mem) (u mode ir cpc bpc r31 : Nat)
    (hm : ¬ mode ≠ 0) :
    cfg.load (frame_image cfg m u mode ir cpc bpc r31) (u + off_badinst) 4 = cfg.BREAK_MATH := by
  have hc : cfg.BREAK_MATH % 256 ^ 4 = cfg.BREAK_MATH := Nat.mod_eq_of_lt h.2.2.2.2.1
  unfold frame_image
  rcases wf_layout cfg h with ⟨hL, -, -, ho, hb, hr, hs, hrs⟩ | ⟨hL, -, -, ho, hb, hr, hs, hrs⟩
  all_goals
    simp only [ho, hb, hr, hL, hs, off_emul, off_badinst, off_cookie, if_neg hm]
    repeat rw [load_store_disj cfg _ _ _ _ _ _ (by omega)]
    rw [load_store_same, hc]

theorem frame_image_badinst_hi (cfg : Cfg) (h : cfg.WF) (m : Mem) (u mode ir cpc bpc r31 : Nat)
    (hm : mode ≠ 0) :
    cfg.load (frame_image cfg m u mode ir cpc bpc r31) (u + off_badinst) 2
      = (cfg.BREAK_MATH >>> 16) % 2 ^ 16 := by
  unfold frame_image
  rcases wf_layout cfg h with ⟨hL, -, -, ho, hb, hr, hs, hrs⟩ | ⟨hL, -, -, ho, hb, hr, hs, hrs⟩
  all_goals
    simp only [ho, hb, hr, hL, hs, off_emul, off_badinst, off_cookie, if_pos hm, Nat.add_zero]
    repeat rw [load_store_disj cfg _ _ _ _ _ _ (by omega)]
    rw [load_store_same]
    norm_num

theorem frame_image_badinst_lo (cfg : Cfg) (h : cfg.WF) (m : Mem) (u mode ir cpc bpc r31 : Nat)
    (hm : mode ≠ 0) :
    cfg.load (frame_image cfg m u mode ir cpc bpc r31) (u + off_badinst + 2) 2
      = (cfg.BREAK_MATH &&& 0xffff) % 2 ^ 16 := by
  unfold frame_image
  rcases wf_layout cfg h with ⟨hL, -, -, ho, hb, hr, hs, hrs⟩ | ⟨hL, -, -, ho, hb, hr, hs, hrs⟩
  all_goals
    simp only [ho, hb, hr, hL, hs, off_emul, off_badinst, off_cookie, if_pos hm, Nat.add_zero]
    repeat rw [load_store_disj cfg _ _ _ _ _ _ (by omega)]
    rw [load_store_same]
    norm_num

theorem marker_halves (x : Nat) (hx : x < 2 ^ 32) :
    ((((x >>> 16) % 2 ^ 16) <<< 16) ||| ((x &&& 0xffff) % 2 ^ 16)) % 2 ^ 32 = x := by
  rw [shl_or _ _ 16 (Nat.mod_lt _ (by decide)), and_ffff, Nat.shiftRight_eq_div_pow]
  omega

/-! ## Resolving a frame of the shared page -/

theorem get_user_ok (cfg : Cfg) (st : State) (a n : Nat)
    (h : ∀ i, i < n → st.readable (a + i) = true) :
    get_user cfg st a n = (false, cfg.load st.mem a n) := by
  unfold get_user
  rw [if_pos (all_bytes_of_forall _ n a h)]

/-- Resolving a frame of the shared page. -/
theorem do_dsemulret_resolves (cfg : Cfg) (hcfg : cfg.WF) (s : State) (pg d mode c : Nat)
    (m0 : Mem) (ir bpc r31 : Nat)
    (hsh : SharedRegion cfg s pg)
    (hd : d + cfg.EMULFRAME_ROUNDED_SIZE ≤ cfg.PAGE_SIZE) (hd2 : d % 2 = 0)
    (hmode : mode < 2) (hc : c < cfg.wmod)
    (hpc : s.xcp.cp0_epc = s.vdso + d + sizeof_insn + mode)
    (hoff : s.vdso_offset + cfg.EMULFRAME_ROUNDED_SIZE ≤ cfg.PAGE_SIZE)
    (hmem : ∀ i, i < cfg.sizeof_emuframe →
      s.mem (s.vdso + d + i) = frame_image cfg m0 (s.vdso + d) mode ir c bpc r31 (s.vdso + d + i)) :
    do_dsemulret cfg s =
      (1, { s with
            vdso_offset := s.vdso_offset + cfg.EMULFRAME_ROUNDED_SIZE
            xcp := { s.xcp with cp0_epc := c }
            stat_ds_emul := s.stat_ds_emul + 1 }) := by
  obtain ⟨hvp, hRpg, hpgw, hval, hvw, hrd, hacc⟩ := hsh
  obtain ⟨hP8, hPm, hPw, hS⟩ := wf_page cfg hcfg
  have hv8 := mod8_of_page_aligned cfg hcfg s.vdso hval
  have hlay := wf_layout cfg hcfg
  have hFS : cfg.sizeof_emuframe = cfg.EMULFRAME_ROUNDED_SIZE ∧ 24 ≤ cfg.sizeof_emuframe ∧
      cfg.off_epc + cfg.long_bytes ≤ cfg.sizeof_emuframe := by
    rcases hlay with ⟨hL, -, -, ho, -, -, hs, hrs⟩ | ⟨hL, -, -, ho, -, -, hs, hrs⟩ <;> omega
  obtain ⟨hFR, hF24, hFe⟩ := hFS
  have hepc_lt : s.xcp.cp0_epc < cfg.wmod := by rw [hpc]; unfold sizeof_insn; omega
  have hmodebit : get_isa16_mode s.xcp.cp0_epc = mode := by
    rw [get_isa16_mode_eq, hpc]; unfold sizeof_insn; omega
  have hmsk : msk_isa16_mode cfg s.xcp.cp0_epc = s.vdso + d + sizeof_insn := by
    rw [msk_isa16_mode_eq cfg hcfg _ hepc_lt, hpc]; unfold sizeof_insn; omega
  have hfr : cfg.subw (msk_isa16_mode cfg s.xcp.cp0_epc) sizeof_insn = s.vdso + d := by
    rw [hmsk, subw_eq cfg _ _ (by unfold sizeof_insn; omega) (by unfold sizeof_insn; omega)]
    unfold sizeof_insn; omega
  have hpage : s.xcp.cp0_epc &&& cfg.PAGE_MASK = s.vdso := by
    rw [page_mask_and cfg hcfg _ hepc_lt, hpc]
    have e : s.vdso + d + sizeof_insn + mode = s.vdso + (d + sizeof_insn + mode) := by omega
    rw [e, page_offset cfg.PAGE_SIZE s.vdso _ hval (by unfold sizeof_insn; omega)]
    omega
  have hread : ∀ off n, off + n ≤ cfg.sizeof_emuframe →
      get_user cfg s (s.vdso + d + off) n = (false, cfg.load
        (frame_image cfg m0 (s.vdso + d) mode ir c bpc r31) (s.vdso + d + off) n) := by
    intro off n hn
    rw [get_user_ok cfg s _ n (fun i hi => by
      have := hrd (d + off + i) (by omega)
      rw [← this]; congr 1; omega)]
    congr 1
    apply load_congr
    intro i hi
    have := hmem (off + i) (by omega)
    rw [← Nat.add_assoc] at this
    exact this
  unfold do_dsemulret trap_frame
  simp only [hfr]
  rw [if_neg (by rw [hacc d (by omega)]; decide)]
  have hck := hread off_cookie 4 (by unfold off_cookie; omega)
  have hep := hread cfg.off_epc cfg.long_bytes hFe
  rw [frame_image_cookie cfg hcfg] at hck
  rw [frame_image_epc cfg hcfg _ _ _ _ _ _ _ hc] at hep
  have hsome : s.vdso_page.isSome = true := by rw [hvp]; rfl
  simp only [hck, hep, hmodebit, hsome, hpage]
  have hrdv : read_badinst cfg s (s.vdso + d) = (false, cfg.BREAK_MATH) := by
    unfold read_badinst
    simp only [hmodebit]
    by_cases hm : mode ≠ 0
    · rw [if_pos hm]
      have h1 := hread off_badinst 2 (by unfold off_badinst; omega)
      have h2 := hread (off_badinst + 2) 2 (by unfold off_badinst; omega)
      rw [frame_image_badinst_hi cfg hcfg _ _ _ _ _ _ _ hm] at h1
      rw [← Nat.add_assoc, frame_image_badinst_lo cfg hcfg _ _ _ _ _ _ _ hm] at h2
      rw [h1, h2]
      simp only [Bool.or_self]
      rw [marker_halves _ hcfg.2.2.2.2.1]
    · rw [if_neg hm]
      have h1 := hread off_badinst 4 (by unfold off_badinst; omega)
      rw [frame_image_badinst cfg hcfg _ _ _ _ _ _ _ hm] at h1
      exact h1
  simp only [hrdv]
  have hoffw : cfg.addw s.vdso_offset cfg.EMULFRAME_ROUNDED_SIZE
      = s.vdso_offset + cfg.EMULFRAME_ROUNDED_SIZE := addw_eq cfg _ _ (by omega)
  simp only [hoffw]
  rw [if_neg (by simp), if_neg (by simp), if_pos trivial, if_neg (by simp; omega)]
  rfl

/-! ## The round trip through the shared page -/

theorem mips_dsemul_slow (cfg : Cfg) (st : State) (ir cpc bpc r31 : Nat)
    (h : not_fast_path cfg st.xcp.cp0_epc ir) :
    mips_dsemul cfg st ir cpc bpc r31 =
      match st.vdso_page with
      | some pg => dsemul_vdso cfg st pg ir cpc bpc r31
      | none => dsemul_stack cfg st ir cpc := by
  obtain ⟨h0, h16⟩ := h
  unfold mips_dsemul
  rw [if_neg h0]
  by_cases hm : get_isa16_mode st.xcp.cp0_epc ≠ 0
  · rw [if_neg (fun hh => (h16 hm).1 hh.2), if_neg (fun hh => (h16 hm).2 hh.2)]
  · rw [if_neg (fun hh => hm hh.1), if_neg (fun hh => hm hh.1)]

theorem mips_dsemul_fast (cfg : Cfg) (st : State) (ir cpc bpc r31 : Nat)
    (h : ¬ not_fast_path cfg st.xcp.cp0_epc ir) :
    (mips_dsemul cfg st ir cpc bpc r31).1 = -1 := by
  unfold mips_dsemul
  by_cases h0 : ir = 0
  · rw [if_pos h0]
  · rw [if_neg h0]
    by_cases h1 : get_isa16_mode st.xcp.cp0_epc ≠ 0 ∧ ir >>> 16 = cfg.MM_NOP16
    · rw [if_pos h1]
    · rw [if_neg h1]
      by_cases h2 : get_isa16_mode st.xcp.cp0_epc ≠ 0 ∧ cfg.mm_a_opcode ir = cfg.mm_addiupc_op
      · rw [if_pos h2]
      · exfalso
        apply h
        refine ⟨h0, fun hm => ⟨fun e => h1 ⟨hm, e⟩, fun e => h2 ⟨hm, e⟩⟩⟩

theorem not_fast_of_ret_zero (cfg : Cfg) (st : State) (ir cpc bpc r31 : Nat)
    (h : (mips_dsemul cfg st ir cpc bpc r31).1 = 0) : not_fast_path cfg st.xcp.cp0_epc ir := by
  by_contra hn
  rw [mips_dsemul_fast cfg st ir cpc bpc r31 hn] at h
  exact absurd h (by decide)

theorem dsemul_vdso_full (cfg : Cfg) (h : cfg.WF) (st : State) (pg ir cpc bpc r31 : Nat)
    (hR : cfg.EMULFRAME_ROUNDED_SIZE ≤ pg) (hpg : pg + cfg.PAGE_SIZE < cfg.wmod)
    (hoff : st.vdso_offset ≤ cfg.PAGE_SIZE)
    (hcap : st.vdso_offset < cfg.sizeof_mips_vdso + cfg.EMULFRAME_ROUNDED_SIZE) :
    dsemul_vdso cfg st pg ir cpc bpc r31 = ((cfg.SIGBUS : Int), st.inc_errors) := by
  obtain ⟨hP8, hPm, hPw, hS⟩ := wf_page cfg h
  have hfr : cfg.subw (cfg.addw pg st.vdso_offset) cfg.EMULFRAME_ROUNDED_SIZE
      = pg + st.vdso_offset - cfg.EMULFRAME_ROUNDED_SIZE := by
    rw [addw_eq cfg _ _ (by omega), subw_eq cfg _ _ (by omega) (by omega)]
  have hlim : cfg.addw pg cfg.sizeof_mips_vdso = pg + cfg.sizeof_mips_vdso :=
    addw_eq cfg _ _ (by omega)
  unfold dsemul_vdso
  simp only [hfr, hlim]
  rw [if_pos (by omega)]

/-- A shared-region build either succeeds, leaving `built_vdso`, or fails with
`SIGBUS` when no slot is left. -/
theorem mips_dsemul_shared (cfg : Cfg) (h : cfg.WF) (st : State) (pg ir cpc bpc r31 : Nat)
    (hsh : SharedRegion cfg st pg) (hoff : st.vdso_offset ≤ cfg.PAGE_SIZE)
    (hnf : not_fast_path cfg st.xcp.cp0_epc ir) :
    (cfg.sizeof_mips_vdso + cfg.EMULFRAME_ROUNDED_SIZE ≤ st.vdso_offset ∧
      mips_dsemul cfg st ir cpc bpc r31 = (0, built_vdso cfg st ir cpc bpc r31)) ∨
    (st.vdso_offset < cfg.sizeof_mips_vdso + cfg.EMULFRAME_ROUNDED_SIZE ∧
      mips_dsemul cfg st ir cpc bpc r31 = ((cfg.SIGBUS : Int), st.inc_errors)) := by
  obtain ⟨hvp, hRpg, hpgw, hval, hvw, hrd, hacc⟩ := hsh
  rw [mips_dsemul_slow cfg st ir cpc bpc r31 hnf, hvp]
  by_cases hcap : cfg.sizeof_mips_vdso + cfg.EMULFRAME_ROUNDED_SIZE ≤ st.vdso_offset
  · left
    exact ⟨hcap, dsemul_vdso_ok cfg h st pg ir cpc bpc r31 hRpg hpgw hvw hoff hcap⟩
  · right
    exact ⟨by omega, dsemul_vdso_full cfg h st pg ir cpc bpc r31 hRpg hpgw hoff (by omega)⟩

theorem sigbus_ne_zero (cfg : Cfg) (h : cfg.WF) : ((cfg.SIGBUS : Nat) : Int) ≠ 0 := by
  have := h.2.2.2.2.2.2
  exact_mod_cast this

/-- C1. Shared-region round trip: in a state with a shared scratch page whose
offset is within the page and even, whenever `mips_dsemul` returns 0,
`do_dsemulret` on the trap context of the frame's trap marker (saved pc = the pc
set by `mips_dsemul` plus one instruction width, mode bit kept, any general
registers) returns 1, sets the saved pc to exactly `cpc`, and leaves
`vdso_offset` equal to its value before the frame was built. -/
theorem C1_shared_round_trip (cfg : Cfg) (st : State) (pg ir cpc bpc r31 : Nat)
    (regs : Nat → Nat)
    (hcfg : cfg.WF) (hsh : SharedRegion cfg st pg)
    (hoff : st.vdso_offset ≤ cfg.PAGE_SIZE) (heven : st.vdso_offset % 2 = 0)
    (hcpc : cpc < cfg.wmod)
    (hret : (mips_dsemul cfg st ir cpc bpc r31).1 = 0) :
    (do_dsemulret cfg (marker_trap cfg (mips_dsemul cfg st ir cpc bpc r31).2 regs)).1 = 1 ∧
    (do_dsemulret cfg (marker_trap cfg (mips_dsemul cfg st ir cpc bpc r31).2 regs)).2.xcp.cp0_epc
      = cpc ∧
    (do_dsemulret cfg (marker_trap cfg (mips_dsemul cfg st ir cpc bpc r31).2 regs)).2.vdso_offset
      = st.vdso_offset := by
  have hnf := not_fast_of_ret_zero cfg st ir cpc bpc r31 hret
  rcases mips_dsemul_shared cfg hcfg st pg ir cpc bpc r31 hsh hoff hnf with ⟨hcap, he⟩ | ⟨_, he⟩
  swap
  · rw [he] at hret
    exact absurd hret (sigbus_ne_zero cfg hcfg)
  rw [he]
  obtain ⟨hP8, hPm, hPw, hS⟩ := wf_page cfg hcfg
  have hsh' := hsh
  obtain ⟨hvp, hRpg, hpgw, hval, hvw, hrd, hacc⟩ := hsh
  have hv8 := mod8_of_page_aligned cfg hcfg st.vdso hval
  have hR : cfg.EMULFRAME_ROUNDED_SIZE % 8 = 0 ∧ cfg.sizeof_emuframe = cfg.EMULFRAME_ROUNDED_SIZE
      ∧ 24 ≤ cfg.EMULFRAME_ROUNDED_SIZE := by
    rcases wf_layout cfg hcfg with ⟨hL, -, -, ho, -, -, hs, hrs⟩ | ⟨hL, -, -, ho, -, -, hs, hrs⟩ <;>
      omega
  obtain ⟨hR8, hFR, hR24⟩ := hR
  have hmlt := get_isa16_mode_lt st.xcp.cp0_epc
  have hor : (st.vdso + (st.vdso_offset - cfg.EMULFRAME_ROUNDED_SIZE)) |||
      get_isa16_mode st.xcp.cp0_epc
      = st.vdso + (st.vdso_offset - cfg.EMULFRAME_ROUNDED_SIZE) + get_isa16_mode st.xcp.cp0_epc :=
    or_low _ _ 1 (by omega) (by omega)
  have key := do_dsemulret_resolves cfg hcfg
    (marker_trap cfg (built_vdso cfg st ir cpc bpc r31) regs) pg
    (st.vdso_offset - cfg.EMULFRAME_ROUNDED_SIZE) (get_isa16_mode st.xcp.cp0_epc) cpc
    st.mem ir bpc r31 ⟨hvp, hRpg, hpgw, hval, hvw, hrd, hacc⟩ (by omega) (by omega) hmlt hcpc
    (by
      show cfg.addw ((st.vdso + (st.vdso_offset - cfg.EMULFRAME_ROUNDED_SIZE)) |||
        get_isa16_mode st.xcp.cp0_epc) sizeof_insn =
        st.vdso + (st.vdso_offset - cfg.EMULFRAME_ROUNDED_SIZE) + sizeof_insn +
          get_isa16_mode st.xcp.cp0_epc
      rw [hor, addw_eq cfg _ _ (by unfold sizeof_insn; omega)]
      omega)
    (by
      show st.vdso_offset - cfg.EMULFRAME_ROUNDED_SIZE + cfg.EMULFRAME_ROUNDED_SIZE
        ≤ cfg.PAGE_SIZE
      omega)
    (fun i _ => rfl)
  rw [key]
  refine ⟨rfl, rfl, ?_⟩
  show st.vdso_offset - cfg.EMULFRAME_ROUNDED_SIZE + cfg.EMULFRAME_ROUNDED_SIZE
    = st.vdso_offset
  omega

/-! ## Concrete instances -/

theorem mips32_wf : mips32.WF := by decide

theorem rest32_shared (st : State) (h1 : st.vdso_page = some 0x80010000)
    (h2 : st.vdso = 0x7fff0000) (h3 : st.readable = fun _ => true) :
    SharedRegion mips32 st 0x80010000 := by
  refine ⟨h1, by decide, by decide, by rw [h2]; decide, by rw [h2]; decide, ?_, ?_⟩
  · intro k _
    rw [h3]
  · intro k hk
    have e : mips32.sizeof_emuframe = 24 := by decide
    have e2 : mips32.PAGE_SIZE = 4096 := by decide
    rw [e, e2] at hk
    rw [h2, e]
    simp only [mips32, decide_eq_true_eq]
    omega

/-- C1 at a concrete input, in compact mode. -/
theorem C1_shared_round_trip_witness :
    (mips_dsemul mips32 rest32_mm 0x12345678 0x400200 0x400300 77).1 = 0 ∧
    (do_dsemulret mips32 (marker_trap mips32
      (mips_dsemul mips32 rest32_mm 0x12345678 0x400200 0x400300 77).2 (fun _ => 5))).1 = 1 ∧
    (do_dsemulret mips32 (marker_trap mips32
      (mips_dsemul mips32 rest32_mm 0x12345678 0x400200 0x400300 77).2
        (fun _ => 5))).2.xcp.cp0_epc = 0x400200 ∧
    (do_dsemulret mips32 (marker_trap mips32
      (mips_dsemul mips32 rest32_mm 0x12345678 0x400200 0x400300 77).2
        (fun _ => 5))).2.vdso_offset = rest32_mm.vdso_offset :=
  ⟨by decide, C1_shared_round_trip mips32 rest32_mm 0x80010000 0x12345678 0x400200 0x400300 77
    (fun _ => 5) mips32_wf (rest32_shared _ rfl rfl rfl) (by decide) (by decide) (by decide)
    (by decide)⟩

/-! ## Stacked frames -/

theorem resolve_seq_append (cfg : Cfg) (l1 l2 : List Nat) : ∀ st : State,
    resolve_seq cfg st (l1 ++ l2) =
      ((resolve_seq cfg (resolve_seq cfg st l1).1 l2).1,
        (resolve_seq cfg st l1).2 ++ (resolve_seq cfg (resolve_seq cfg st l1).1 l2).2) := by
  induction l1 with
  | nil => intro st; rfl
  | cons pc l1 ih =>
    intro st
    rw [List.cons_append]
    simp only [resolve_seq]
    rw [ih]
    rfl

theorem not_fast_path_mode (cfg : Cfg) (e1 e2 ir : Nat)
    (h : get_isa16_mode e1 = get_isa16_mode e2) :
    not_fast_path cfg e1 ir ↔ not_fast_path cfg e2 ir := by
  unfold not_fast_path
  rw [h]

theorem wf_frame (cfg : Cfg) (h : cfg.WF) :
    cfg.EMULFRAME_ROUNDED_SIZE % 8 = 0 ∧ cfg.sizeof_emuframe = cfg.EMULFRAME_ROUNDED_SIZE ∧
      24 ≤ cfg.EMULFRAME_ROUNDED_SIZE := by
  rcases wf_layout cfg h with ⟨hL, -, -, ho, -, -, hs, hrs⟩ | ⟨hL, -, -, ho, -, -, hs, hrs⟩ <;>
    omega

theorem built_vdso_epc (cfg : Cfg) (h : cfg.WF) (st : State) (ir cpc bpc r31 : Nat)
    (hval : st.vdso % cfg.PAGE_SIZE = 0) (heven : st.vdso_offset % 2 = 0) :
    (built_vdso cfg st ir cpc bpc r31).xcp.cp0_epc =
      st.vdso + (st.vdso_offset - cfg.EMULFRAME_ROUNDED_SIZE) + get_isa16_mode st.xcp.cp0_epc := by
  have hv8 := mod8_of_page_aligned cfg h st.vdso hval
  obtain ⟨hR8, -, -⟩ := wf_frame cfg h
  have hmlt := get_isa16_mode_lt st.xcp.cp0_epc
  exact or_low _ _ 1 (by omega) (by omega)

theorem built_vdso_mode (cfg : Cfg) (h : cfg.WF) (st : State) (ir cpc bpc r31 : Nat)
    (hval : st.vdso % cfg.PAGE_SIZE = 0) (heven : st.vdso_offset % 2 = 0) :
    get_isa16_mode (built_vdso cfg st ir cpc bpc r31).xcp.cp0_epc
      = get_isa16_mode st.xcp.cp0_epc := by
  have hv8 := mod8_of_page_aligned cfg h st.vdso hval
  obtain ⟨hR8, -, -⟩ := wf_frame cfg h
  rw [built_vdso_epc cfg h st ir cpc bpc r31 hval heven, get_isa16_mode_eq, get_isa16_mode_eq]
  omega

/-- Building the frames of `args` on top of `st` and resolving them in reverse
order, from any state `s` that still holds the frames. -/
theorem stack_unwind (cfg : Cfg) (hcfg : cfg.WF) (pg : Nat) (args : List BuildArgs) :
    ∀ st : State, SharedRegion cfg st pg → st.vdso_offset ≤ cfg.PAGE_SIZE →
      st.vdso_offset % 2 = 0 →
      cfg.sizeof_mips_vdso + args.length * cfg.EMULFRAME_ROUNDED_SIZE ≤ st.vdso_offset →
      (∀ a ∈ args, not_fast_path cfg st.xcp.cp0_epc a.ir ∧ a.cpc < cfg.wmod) →
      (build_seq cfg st args).2.map Prod.fst = List.replicate args.length 0 ∧
      (build_seq cfg st args).1.vdso = st.vdso ∧
      (build_seq cfg st args).1.vdso_page = st.vdso_page ∧
      (build_seq cfg st args).1.readable = st.readable ∧
      (build_seq cfg st args).1.vdso_offset
        = st.vdso_offset - args.length * cfg.EMULFRAME_ROUNDED_SIZE ∧
      (∀ b, st.vdso + st.vdso_offset ≤ b → (build_seq cfg st args).1.mem b = st.mem b) ∧
      ∀ s : State, s.vdso = st.vdso → s.vdso_page = st.vdso_page → s.readable = st.readable →
        s.vdso_offset = st.vdso_offset - args.length * cfg.EMULFRAME_ROUNDED_SIZE →
        (∀ b, st.vdso + s.vdso_offset ≤ b → b < st.vdso + st.vdso_offset →
          s.mem b = (build_seq cfg st args).1.mem b) →
        (resolve_seq cfg s ((build_seq cfg st args).2.map Prod.snd).reverse).2
          = args.reverse.map (fun a => ((1 : Int), a.cpc)) ∧
        (resolve_seq cfg s ((build_seq cfg st args).2.map Prod.snd).reverse).1.vdso_offset
          = st.vdso_offset ∧
        (resolve_seq cfg s ((build_seq cfg st args).2.map Prod.snd).reverse).1.mem = s.mem ∧
        (resolve_seq cfg s ((build_seq cfg st args).2.map Prod.snd).reverse).1.vdso = s.vdso ∧
        (resolve_seq cfg s ((build_seq cfg st args).2.map Prod.snd).reverse).1.vdso_page
          = s.vdso_page ∧
        (resolve_seq cfg s ((build_seq cfg st args).2.map Prod.snd).reverse).1.readable
          = s.readable := by
  obtain ⟨hR8, hFR, hR24⟩ := wf_frame cfg hcfg
  obtain ⟨hP8, hPm, hPw, hS⟩ := wf_page cfg hcfg
  induction args with
  | nil =>
    intro st _ _ _ _ _
    refine ⟨rfl, rfl, rfl, rfl, by simp [build_seq], fun _ _ => rfl, ?_⟩
    intro s _ _ _ hso _
    simp only [List.length_nil, Nat.zero_mul, Nat.sub_zero] at hso
    exact ⟨rfl, hso, rfl, rfl, rfl, rfl⟩
  | cons a rest ih =>
    intro st hsh hoff heven hcap hargs
    have hsh0 := hsh
    obtain ⟨hvp, hRpg, hpgw, hval, hvw, hrd, hacc⟩ := hsh
    simp only [List.length_cons, Nat.add_mul, Nat.one_mul] at hcap
    obtain ⟨hnf, hcpc⟩ := hargs a (List.mem_cons_self _ _)
    have hb : mips_dsemul cfg st a.ir a.cpc a.bpc a.r31
        = (0, built_vdso cfg st a.ir a.cpc a.bpc a.r31) := by
      rcases mips_dsemul_shared cfg hcfg st pg a.ir a.cpc a.bpc a.r31 hsh0 hoff hnf with
        ⟨_, he⟩ | ⟨hlt, _⟩
      · exact he
      · omega
    -- the state after the first build
    have h1off : (built_vdso cfg st a.ir a.cpc a.bpc a.r31).vdso_offset
        = st.vdso_offset - cfg.EMULFRAME_ROUNDED_SIZE := rfl
    have h1v : (built_vdso cfg st a.ir a.cpc a.bpc a.r31).vdso = st.vdso := rfl
    have h1mode := built_vdso_mode cfg hcfg st a.ir a.cpc a.bpc a.r31 hval heven
    have h1epc := built_vdso_epc cfg hcfg st a.ir a.cpc a.bpc a.r31 hval heven
    have ih1 := ih (built_vdso cfg st a.ir a.cpc a.bpc a.r31)
      ⟨hvp, hRpg, hpgw, hval, hvw, hrd, hacc⟩ (by rw [h1off]; omega) (by rw [h1off]; omega)
      (by rw [h1off]; omega)
      (fun b hbm => ⟨(not_fast_path_mode cfg _ _ b.ir h1mode).mpr
        (hargs b (List.mem_cons_of_mem _ hbm)).1, (hargs b (List.mem_cons_of_mem _ hbm)).2⟩)
    obtain ⟨i1, i2, i3, i4, i5, i6, i7⟩ := ih1
    have hbs : build_seq cfg st (a :: rest) =
        ((build_seq cfg (built_vdso cfg st a.ir a.cpc a.bpc a.r31) rest).1,
          (0, (built_vdso cfg st a.ir a.cpc a.bpc a.r31).xcp.cp0_epc) ::
            (build_seq cfg (built_vdso cfg st a.ir a.cpc a.bpc a.r31) rest).2) := by
      simp only [build_seq, hb]
    rw [hbs]
    rw [h1off] at i5
    refine ⟨?_, i2, i3, i4, ?_, ?_, ?_⟩
    · simp only [List.map_cons, i1, List.length_cons, List.replicate_succ]
    · rw [i5]; simp only [List.length_cons, Nat.add_mul, Nat.one_mul]; omega
    · intro b hb
      rw [i6 b (by rw [h1v, h1off]; omega)]
      exact frame_image_outside cfg hcfg _ _ _ _ _ _ _ b (by omega)
    · intro s hsv hsp hsr hso hsm
      simp only [List.length_cons, Nat.add_mul, Nat.one_mul] at hso
      simp only [List.map_cons, List.reverse_cons, resolve_seq_append]
      have j := i7 s hsv hsp hsr (by rw [h1off, hso]; omega)
        (fun b hb1 hb2 => hsm b hb1 (by rw [h1v, h1off] at hb2; omega))
      obtain ⟨j1, j2, j3, j4, j5, j6⟩ := j
      rw [h1off] at j2
      generalize hr : resolve_seq cfg s
        (List.map Prod.snd (build_seq cfg (built_vdso cfg st a.ir a.cpc a.bpc a.r31) rest).2).reverse
        = r at j1 j2 j3 j4 j5 j6 ⊢
      -- the last resolve: the frame of `a`
      have hpc : (marker_trap cfg (r.1.set_epc
          (built_vdso cfg st a.ir a.cpc a.bpc a.r31).xcp.cp0_epc) r.1.xcp.regs).xcp.cp0_epc
          = r.1.vdso + (st.vdso_offset - cfg.EMULFRAME_ROUNDED_SIZE) + sizeof_insn
            + get_isa16_mode st.xcp.cp0_epc := by
        show cfg.addw (built_vdso cfg st a.ir a.cpc a.bpc a.r31).xcp.cp0_epc sizeof_insn = _
        have hmlt := get_isa16_mode_lt st.xcp.cp0_epc
        rw [h1epc, addw_eq cfg _ _ (by unfold sizeof_insn; omega), j4, hsv]
        omega
      have key := do_dsemulret_resolves cfg hcfg
        (marker_trap cfg (r.1.set_epc (built_vdso cfg st a.ir a.cpc a.bpc a.r31).xcp.cp0_epc)
          r.1.xcp.regs) pg
        (st.vdso_offset - cfg.EMULFRAME_ROUNDED_SIZE) (get_isa16_mode st.xcp.cp0_epc) a.cpc
        st.mem a.ir a.bpc a.r31
        ⟨by show r.1.vdso_page = some pg; rw [j5, hsp, hvp], hRpg, hpgw,
          by show r.1.vdso % cfg.PAGE_SIZE = 0; rw [j4, hsv]; exact hval,
          by show r.1.vdso + cfg.PAGE_SIZE < cfg.wmod; rw [j4, hsv]; exact hvw,
          by
            intro k hk
            show r.1.readable (r.1.vdso + k) = true
            rw [j6, j4, hsr, hsv]; exact hrd k hk,
          by
            intro k hk
            show cfg.access_ok VERIFY_READ (r.1.vdso + k) cfg.sizeof_emuframe = true
            rw [j4, hsv]; exact hacc k hk⟩
        (by omega) (by omega) (get_isa16_mode_lt _) hcpc hpc
        (by show r.1.vdso_offset + cfg.EMULFRAME_ROUNDED_SIZE ≤ cfg.PAGE_SIZE; rw [j2]; omega)
        (by
          intro i hi
          show r.1.mem (r.1.vdso + (st.vdso_offset - cfg.EMULFRAME_ROUNDED_SIZE) + i) =
            frame_image cfg st.mem (r.1.vdso + (st.vdso_offset - cfg.EMULFRAME_ROUNDED_SIZE))
              (get_isa16_mode st.xcp.cp0_epc) a.ir a.cpc a.bpc a.r31
              (r.1.vdso + (st.vdso_offset - cfg.EMULFRAME_ROUNDED_SIZE) + i)
          rw [j3, j4, hsv, hsm _ (by rw [hso]; omega) (by omega),
            i6 _ (by rw [h1v, h1off]; omega)]
          rfl)
      simp only [resolve_seq, key]
      refine ⟨?_, ?_, ?_, ?_, ?_, ?_⟩
      · rw [j1]; simp
      · show r.1.vdso_offset + cfg.EMULFRAME_ROUNDED_SIZE = st.vdso_offset
        rw [j2]; omega
      · exact j3
      · exact j4
      · exact j5
      · exact j6

/-! ## Stacking (C2) -/

theorem capacity_le (cfg : Cfg) (h : cfg.WF) (n : Nat) (hn : n ≤ cfg.capacity) :
    cfg.sizeof_mips_vdso + n * cfg.EMULFRAME_ROUNDED_SIZE ≤ cfg.PAGE_SIZE := by
  obtain ⟨-, -, hR24⟩ := wf_frame cfg h
  obtain ⟨-, -, -, hS⟩ := wf_page cfg h
  have := (Nat.le_div_iff_mul_le (by omega : 0 < cfg.EMULFRAME_ROUNDED_SIZE)).mp hn
  omega

/-- C2. Stacking: from the resting state (`vdso_offset = PAGE_SIZE`) of a thread
with a shared page, for every list of at most `capacity` builds that match no
fast path, all builds return 0, and resolving the frames in reverse build order,
each at its trap marker, returns 1 every time, sets the saved pc on the k-th
resolve to the continuation address of the (N-k+1)-th build, and ends with
`vdso_offset = PAGE_SIZE`. -/
theorem C2_stacking (cfg : Cfg) (st : State) (pg : Nat) (args : List BuildArgs)
    (hcfg : cfg.WF) (hsh : SharedRegion cfg st pg)
    (hrest : st.vdso_offset = cfg.PAGE_SIZE)
    (hN : args.length ≤ cfg.capacity)
    (hargs : ∀ a ∈ args, not_fast_path cfg st.xcp.cp0_epc a.ir ∧ a.cpc < cfg.wmod) :
    (build_seq cfg st args).2.map Prod.fst = List.replicate args.length 0 ∧
    (resolve_seq cfg (build_seq cfg st args).1
      ((build_seq cfg st args).2.map Prod.snd).reverse).2
      = args.reverse.map (fun a => ((1 : Int), a.cpc)) ∧
    (resolve_seq cfg (build_seq cfg st args).1
      ((build_seq cfg st args).2.map Prod.snd).reverse).1.vdso_offset = cfg.PAGE_SIZE := by
  obtain ⟨hP8, hPm, hPw, hS⟩ := wf_page cfg hcfg
  have hcap := capacity_le cfg hcfg args.length hN
  obtain ⟨h1, h2, h3, h4, h5, _, h7⟩ := stack_unwind cfg hcfg pg args st hsh (by omega)
    (by omega) (by omega) hargs
  obtain ⟨k1, k2, _⟩ := h7 (build_seq cfg st args).1 h2 h3 h4 h5 (fun _ _ _ => rfl)
  exact ⟨h1, k1, by rw [k2, hrest]⟩

/-- C2 at a concrete input: three frames in compact mode. -/
theorem C2_stacking_witness :
    (build_seq mips32 rest32_mm three_frames).2.map Prod.fst = [0, 0, 0] ∧
    (resolve_seq mips32 (build_seq mips32 rest32_mm three_frames).1
      ((build_seq mips32 rest32_mm three_frames).2.map Prod.snd).reverse).2
      = [(1, 0x600200), (1, 0x500200), (1, 0x400200)] ∧
    (resolve_seq mips32 (build_seq mips32 rest32_mm three_frames).1
      ((build_seq mips32 rest32_mm three_frames).2.map Prod.snd).reverse).1.vdso_offset = 4096 :=
  C2_stacking mips32 rest32_mm 0x80010000 three_frames
    mips32_wf (rest32_shared _ rfl rfl rfl) (by decide) (by decide) (by decide)

/-! ## Rejection (C3) -/

/-- C3. Rejection without mutation: for every trap context, if the candidate
frame (at saved pc minus one instruction width) fails the segment check or one
of its reads faults, or its trap-marker word(s) differ from `BREAK_MATH`, or its
cookie word differs from `BD_COOKIE`, or a shared region is in use and the saved
pc is not in that region's page, then `do_dsemulret` returns 0 and leaves
`vdso_offset`, the saved pc, all registers and memory unchanged. -/
theorem C3_rejection_without_mutation (cfg : Cfg) (st : State)
    (h : cfg.access_ok VERIFY_READ (trap_frame cfg st) cfg.sizeof_emuframe = false ∨
      (read_badinst cfg st (trap_frame cfg st)).1 = true ∨
      (get_user cfg st (trap_frame cfg st + off_cookie) 4).1 = true ∨
      (get_user cfg st (trap_frame cfg st + cfg.off_epc) cfg.long_bytes).1 = true ∨
      (read_badinst cfg st (trap_frame cfg st)).2 ≠ cfg.BREAK_MATH ∨
      (get_user cfg st (trap_frame cfg st + off_cookie) 4).2 ≠ cfg.BD_COOKIE ∨
      (st.vdso_page.isSome = true ∧ st.xcp.cp0_epc &&& cfg.PAGE_MASK ≠ st.vdso)) :
    (do_dsemulret cfg st).1 = 0 ∧
    (do_dsemulret cfg st).2.vdso_offset = st.vdso_offset ∧
    (do_dsemulret cfg st).2.xcp = st.xcp ∧
    (do_dsemulret cfg st).2.mem = st.mem := by
  unfold do_dsemulret
  simp only []
  by_cases h1 : cfg.access_ok VERIFY_READ (trap_frame cfg st) cfg.sizeof_emuframe = false
  · rw [if_pos h1]
    exact ⟨rfl, rfl, rfl, rfl⟩
  · rw [if_neg h1]
    split
    · exact ⟨rfl, rfl, rfl, rfl⟩
    · rename_i h2
      split
      · exact ⟨rfl, rfl, rfl, rfl⟩
      · rename_i h3
        exfalso
        rcases h with h | h | h | h | h | h | h
        · exact h1 h
        · exact h2 (Or.inl (by rw [h]; rfl))
        · exact h2 (Or.inl (by rw [h]; simp))
        · exact h3 h
        · exact h2 (Or.inr (Or.inl h))
        · exact h2 (Or.inr (Or.inr (Or.inl h)))
        · exact h2 (Or.inr (Or.inr (Or.inr h)))

/-- C3 at a concrete input: a built frame whose cookie was overwritten. -/
theorem C3_rejection_without_mutation_witness :
    (get_user mips32 bad_cookie32 (trap_frame mips32 bad_cookie32 + off_cookie) 4).2
      ≠ mips32.BD_COOKIE ∧
    (do_dsemulret mips32 bad_cookie32).1 = 0 ∧
    (do_dsemulret mips32 bad_cookie32).2.vdso_offset = bad_cookie32.vdso_offset ∧
    (do_dsemulret mips32 bad_cookie32).2.xcp = bad_cookie32.xcp ∧
    (do_dsemulret mips32 bad_cookie32).2.mem = bad_cookie32.mem :=
  ⟨by decide, C3_rejection_without_mutation mips32 bad_cookie32
    (Or.inr (Or.inr (Or.inr (Or.inr (Or.inr (Or.inl (by decide)))))))⟩

/-! ## Capacity (C4) -/

theorem build_seq_mode (cfg : Cfg) (hcfg : cfg.WF) (pg : Nat) (args : List BuildArgs) :
    ∀ st : State, SharedRegion cfg st pg → st.vdso_offset ≤ cfg.PAGE_SIZE →
      st.vdso_offset % 2 = 0 →
      cfg.sizeof_mips_vdso + args.length * cfg.EMULFRAME_ROUNDED_SIZE ≤ st.vdso_offset →
      (∀ a ∈ args, not_fast_path cfg st.xcp.cp0_epc a.ir) →
      get_isa16_mode (build_seq cfg st args).1.xcp.cp0_epc = get_isa16_mode st.xcp.cp0_epc ∧
      (build_seq cfg st args).2.map Prod.fst = List.replicate args.length 0 ∧
      SharedRegion cfg (build_seq cfg st args).1 pg ∧
      (build_seq cfg st args).1.vdso_offset
        = st.vdso_offset - args.length * cfg.EMULFRAME_ROUNDED_SIZE := by
  obtain ⟨hR8, hFR, hR24⟩ := wf_frame cfg hcfg
  induction args with
  | nil =>
    intro st hsh _ _ _ _
    exact ⟨rfl, rfl, hsh, by simp [build_seq]⟩
  | cons a rest ih =>
    intro st hsh hoff heven hcap hargs
    have hsh0 := hsh
    obtain ⟨hvp, hRpg, hpgw, hval, hvw, hrd, hacc⟩ := hsh
    simp only [List.length_cons, Nat.add_mul, Nat.one_mul] at hcap
    have hnf := hargs a (List.mem_cons_self _ _)
    have hb : mips_dsemul cfg st a.ir a.cpc a.bpc a.r31
        = (0, built_vdso cfg st a.ir a.cpc a.bpc a.r31) := by
      rcases mips_dsemul_shared cfg hcfg st pg a.ir a.cpc a.bpc a.r31 hsh0 hoff hnf with
        ⟨_, he⟩ | ⟨hlt, _⟩
      · exact he
      · omega
    have h1off : (built_vdso cfg st a.ir a.cpc a.bpc a.r31).vdso_offset
        = st.vdso_offset - cfg.EMULFRAME_ROUNDED_SIZE := rfl
    have h1mode := built_vdso_mode cfg hcfg st a.ir a.cpc a.bpc a.r31 hval heven
    obtain ⟨i1, i2, i3, i4⟩ := ih (built_vdso cfg st a.ir a.cpc a.bpc a.r31)
      ⟨hvp, hRpg, hpgw, hval, hvw, hrd, hacc⟩ (by rw [h1off]; omega) (by rw [h1off]; omega)
      (by rw [h1off]; omega)
      (fun b hbm => (not_fast_path_mode cfg _ _ b.ir h1mode).mpr
        (hargs b (List.mem_cons_of_mem _ hbm)))
    have hbs : build_seq cfg st (a :: rest) =
        ((build_seq cfg (built_vdso cfg st a.ir a.cpc a.bpc a.r31) rest).1,
          (0, (built_vdso cfg st a.ir a.cpc a.bpc a.r31).xcp.cp0_epc) ::
            (build_seq cfg (built_vdso cfg st a.ir a.cpc a.bpc a.r31) rest).2) := by
      simp only [build_seq, hb]
    rw [hbs]
    rw [h1off] at i4
    refine ⟨by rw [i1, h1mode], ?_, i3, ?_⟩
    · simp only [List.map_cons, i2, List.length_cons, List.replicate_succ]
    · rw [i4]; simp only [List.length_cons, Nat.add_mul, Nat.one_mul]; omega

theorem capacity_lt (cfg : Cfg) (h : cfg.WF) :
    cfg.PAGE_SIZE < cfg.sizeof_mips_vdso + (cfg.capacity + 1) * cfg.EMULFRAME_ROUNDED_SIZE := by
  obtain ⟨-, -, hR24⟩ := wf_frame cfg h
  obtain ⟨-, -, -, hS⟩ := wf_page cfg h
  have := Nat.lt_mul_div_succ (cfg.PAGE_SIZE - cfg.sizeof_mips_vdso)
    (by omega : 0 < cfg.EMULFRAME_ROUNDED_SIZE)
  unfold Cfg.capacity
  rw [Nat.mul_comm]
  omega

/-- C4. Capacity boundary: from the resting state (`vdso_offset = PAGE_SIZE`) of
a thread with a shared page, `capacity = (PAGE_SIZE - sizeof (struct mips_vdso))
/ EMULFRAME_ROUNDED_SIZE` consecutive calls of `mips_dsemul` that match no fast
path all return 0, and the next such call returns `SIGBUS` and leaves
`vdso_offset` and the trap context (saved pc, registers) as they were before
that call. -/
theorem C4_capacity_boundary (cfg : Cfg) (st : State) (pg : Nat) (args : List BuildArgs)
    (extra : BuildArgs)
    (hcfg : cfg.WF) (hsh : SharedRegion cfg st pg)
    (hrest : st.vdso_offset = cfg.PAGE_SIZE)
    (hN : args.length = cfg.capacity)
    (hargs : ∀ a ∈ args, not_fast_path cfg st.xcp.cp0_epc a.ir)
    (hextra : not_fast_path cfg st.xcp.cp0_epc extra.ir) :
    (build_seq cfg st args).2.map Prod.fst = List.replicate cfg.capacity 0 ∧
    (mips_dsemul cfg (build_seq cfg st args).1 extra.ir extra.cpc extra.bpc extra.r31).1
      = (cfg.SIGBUS : Int) ∧
    (cfg.SIGBUS : Int) ≠ 0 ∧
    (mips_dsemul cfg (build_seq cfg st args).1 extra.ir extra.cpc extra.bpc extra.r31).2.vdso_offset
      = (build_seq cfg st args).1.vdso_offset ∧
    (mips_dsemul cfg (build_seq cfg st args).1 extra.ir extra.cpc extra.bpc extra.r31).2.xcp
      = (build_seq cfg st args).1.xcp := by
  obtain ⟨hP8, hPm, hPw, hS⟩ := wf_page cfg hcfg
  have hcap := capacity_le cfg hcfg args.length (le_of_eq hN)
  have hlt := capacity_lt cfg hcfg
  obtain ⟨h1, h2, h3, h4⟩ := build_seq_mode cfg hcfg pg args st hsh (by omega) (by omega)
    (by omega) hargs
  rw [hN] at h2
  refine ⟨h2, ?_⟩
  rcases mips_dsemul_shared cfg hcfg (build_seq cfg st args).1 pg extra.ir extra.cpc extra.bpc
    extra.r31 h3 (by rw [h4]; omega)
    ((not_fast_path_mode cfg _ _ extra.ir h1).mpr hextra) with ⟨hge, _⟩ | ⟨_, he⟩
  · exfalso
    rw [h4, hN] at hge
    rw [hN] at hcap
    rw [Nat.add_mul, Nat.one_mul] at hlt
    omega
  · rw [he]
    exact ⟨rfl, sigbus_ne_zero cfg hcfg, rfl, rfl⟩

/-- C4 at a concrete input: 170 frames fill the 4 KiB page of `mips32`. -/
theorem C4_capacity_boundary_witness :
    mips32.capacity = 170 ∧
    (build_seq mips32 rest32 full_page).2.map Prod.fst = List.replicate mips32.capacity 0 ∧
    (mips_dsemul mips32 (build_seq mips32 rest32 full_page).1
      one_more.ir one_more.cpc one_more.bpc one_more.r31).1 = (mips32.SIGBUS : Int) ∧
    (mips32.SIGBUS : Int) ≠ 0 ∧
    (mips_dsemul mips32 (build_seq mips32 rest32 full_page).1
      one_more.ir one_more.cpc one_more.bpc one_more.r31).2.vdso_offset =
      (build_seq mips32 rest32 full_page).1.vdso_offset ∧
    (mips_dsemul mips32 (build_seq mips32 rest32 full_page).1
      one_more.ir one_more.cpc one_more.bpc one_more.r31).2.xcp =
      (build_seq mips32 rest32 full_page).1.xcp :=
  ⟨by decide, C4_capacity_boundary mips32 rest32 0x80010000 full_page one_more
    mips32_wf (rest32_shared rest32 rfl rfl rfl) (by decide)
    (List.length_replicate _ _)
    (fun a ha => by rw [List.eq_of_mem_replicate ha]; decide) (by decide)⟩

/-! ## The offset invariant (C5) -/

theorem put_user_vdso_offset (cfg : Cfg) (st : State) (v a n : Nat) :
    (put_user cfg st v a n).2.vdso_offset = st.vdso_offset := by
  unfold put_user; split <;> rfl

theorem put_user_vdso_page (cfg : Cfg) (st : State) (v a n : Nat) :
    (put_user cfg st v a n).2.vdso_page = st.vdso_page := by
  unfold put_user; split <;> rfl

theorem dsemul_stack_offset (cfg : Cfg) (st : State) (ir cpc : Nat) :
    (dsemul_stack cfg st ir cpc).2.vdso_offset = st.vdso_offset ∧
    (dsemul_stack cfg st ir cpc).2.vdso_page = st.vdso_page := by
  unfold dsemul_stack
  simp only []
  split
  · exact ⟨rfl, rfl⟩
  · split <;> split <;>
      simp only [State.inc_errors, State.set_epc, put_user_vdso_offset, put_user_vdso_page,
        and_self]

theorem dsemul_vdso_page (cfg : Cfg) (st : State) (pg ir cpc bpc r31 : Nat) :
    (dsemul_vdso cfg st pg ir cpc bpc r31).2.vdso_page = st.vdso_page := by
  unfold dsemul_vdso
  simp only []
  split
  · rfl
  · split <;> simp only [State.set_epc, kstore_vdso_page]

theorem dsemul_vdso_offset (cfg : Cfg) (h : cfg.WF) (st : State) (pg ir cpc bpc r31 : Nat)
    (hR : cfg.EMULFRAME_ROUNDED_SIZE ≤ pg) (hpg : pg + cfg.PAGE_SIZE < cfg.wmod)
    (hoff : st.vdso_offset ≤ cfg.PAGE_SIZE) :
    (dsemul_vdso cfg st pg ir cpc bpc r31).2.vdso_offset =
      if cfg.sizeof_mips_vdso + cfg.EMULFRAME_ROUNDED_SIZE ≤ st.vdso_offset then
        st.vdso_offset - cfg.EMULFRAME_ROUNDED_SIZE
      else st.vdso_offset := by
  obtain ⟨hP8, hPm, hPw, hS⟩ := wf_page cfg h
  by_cases hcap : cfg.sizeof_mips_vdso + cfg.EMULFRAME_ROUNDED_SIZE ≤ st.vdso_offset
  · rw [if_pos hcap]
    have hfr : cfg.subw (cfg.addw pg st.vdso_offset) cfg.EMULFRAME_ROUNDED_SIZE
        = pg + (st.vdso_offset - cfg.EMULFRAME_ROUNDED_SIZE) := by
      rw [addw_eq cfg _ _ (by omega), subw_eq cfg _ _ (by omega) (by omega)]
      omega
    have hlim : cfg.addw pg cfg.sizeof_mips_vdso = pg + cfg.sizeof_mips_vdso :=
      addw_eq cfg _ _ (by omega)
    have hso : cfg.subw st.vdso_offset cfg.EMULFRAME_ROUNDED_SIZE
        = st.vdso_offset - cfg.EMULFRAME_ROUNDED_SIZE := subw_eq cfg _ _ (by omega) (by omega)
    unfold dsemul_vdso
    simp only [hfr, hlim, hso]
    rw [if_neg (by omega)]
    split <;> simp only [State.set_epc, kstore_vdso_offset]
  · rw [if_neg hcap, dsemul_vdso_full cfg h st pg ir cpc bpc r31 hR hpg hoff (by omega)]
    rfl

theorem mips_dsemul_inv (cfg : Cfg) (h : cfg.WF) (st : State) (ir cpc bpc r31 : Nat)
    (hinv : OffsetInv cfg st) : OffsetInv cfg (mips_dsemul cfg st ir cpc bpc r31).2 := by
  obtain ⟨h1, h2, h3, h4⟩ := hinv
  obtain ⟨hR8, hFR, hR24⟩ := wf_frame cfg h
  unfold mips_dsemul
  split
  · exact ⟨h1, h2, h3, h4⟩
  · split
    · exact ⟨h1, h2, h3, h4⟩
    · split
      · exact ⟨h1, h2, h3, h4⟩
      · split
        · rename_i pg hpg
          obtain ⟨hp1, hp2⟩ := h4 pg hpg
          have ho := dsemul_vdso_offset cfg h st pg ir cpc bpc r31 hp1 hp2 h2
          have hp := dsemul_vdso_page cfg st pg ir cpc bpc r31
          unfold OffsetInv
          rw [ho, hp]
          refine ⟨?_, ?_, ?_, h4⟩
          · split <;> omega
          · split <;> omega
          · split
            · have e : cfg.PAGE_SIZE - (st.vdso_offset - cfg.EMULFRAME_ROUNDED_SIZE)
                  = (cfg.PAGE_SIZE - st.vdso_offset) + cfg.EMULFRAME_ROUNDED_SIZE := by omega
              rw [e, Nat.add_mod_right]
              exact h3
            · exact h3
        · obtain ⟨ho, hp⟩ := dsemul_stack_offset cfg st ir cpc
          unfold OffsetInv
          rw [ho, hp]
          exact ⟨h1, h2, h3, h4⟩

theorem do_dsemulret_inv (cfg : Cfg) (h : cfg.WF) (st : State)
    (hinv : OffsetInv cfg st) : OffsetInv cfg (do_dsemulret cfg st).2 := by
  obtain ⟨h1, h2, h3, h4⟩ := hinv
  obtain ⟨hR8, hFR, hR24⟩ := wf_frame cfg h
  obtain ⟨hP8, hPm, hPw, hS⟩ := wf_page cfg h
  have hadd : cfg.addw st.vdso_offset cfg.EMULFRAME_ROUNDED_SIZE
      = st.vdso_offset + cfg.EMULFRAME_ROUNDED_SIZE := by
    apply addw_eq
    rcases wf_layout cfg h with ⟨-, -, hw, -, -, -, -, hrs⟩ | ⟨-, -, hw, -, -, -, -, hrs⟩ <;> omega
  have hsub : cfg.subw (st.vdso_offset + cfg.EMULFRAME_ROUNDED_SIZE) cfg.EMULFRAME_ROUNDED_SIZE
      = st.vdso_offset := by
    rw [subw_eq cfg _ _ (by
      rcases wf_layout cfg h with ⟨-, -, hw, -, -, -, -, hrs⟩ | ⟨-, -, hw, -, -, -, -, hrs⟩ <;>
        omega) (by omega)]
    omega
  unfold do_dsemulret
  simp only [hadd, hsub]
  split
  · exact ⟨h1, h2, h3, h4⟩
  · split
    · exact ⟨h1, h2, h3, h4⟩
    · split
      · exact ⟨h1, h2, h3, h4⟩
      · split
        · split
          · exact ⟨h1, h2, h3, h4⟩
          · rename_i hle
            have hlt : st.vdso_offset + cfg.EMULFRAME_ROUNDED_SIZE ≤ cfg.PAGE_SIZE := by
              simp only [gt_iff_lt, not_lt] at hle
              exact hle
            refine ⟨?_, ?_, ?_, h4⟩
            · show cfg.sizeof_mips_vdso ≤ st.vdso_offset + cfg.EMULFRAME_ROUNDED_SIZE
              omega
            · exact hlt
            · show (cfg.PAGE_SIZE - (st.vdso_offset + cfg.EMULFRAME_ROUNDED_SIZE))
                % cfg.EMULFRAME_ROUNDED_SIZE = 0
              have e : cfg.PAGE_SIZE - st.vdso_offset
                  = (cfg.PAGE_SIZE - (st.vdso_offset + cfg.EMULFRAME_ROUNDED_SIZE))
                    + cfg.EMULFRAME_ROUNDED_SIZE := by omega
              rw [e, Nat.add_mod_right] at h3
              exact h3
        · exact ⟨h1, h2, h3, h4⟩

theorem epc_adjust_step_inv (cfg : Cfg) (h : cfg.WF) (st : State)
    (hinv : OffsetInv cfg st) (hlt : st.vdso_offset < cfg.PAGE_SIZE) :
    OffsetInv cfg (epc_adjust_step cfg st) ∧
    (epc_adjust_step cfg st).vdso_offset = st.vdso_offset + cfg.EMULFRAME_ROUNDED_SIZE := by
  obtain ⟨h1, h2, h3, h4⟩ := hinv
  obtain ⟨hR8, hFR, hR24⟩ := wf_frame cfg h
  obtain ⟨hP8, hPm, hPw, hS⟩ := wf_page cfg h
  have hdvd : cfg.EMULFRAME_ROUNDED_SIZE ∣ cfg.PAGE_SIZE - st.vdso_offset :=
    Nat.dvd_of_mod_eq_zero h3
  have hge : cfg.EMULFRAME_ROUNDED_SIZE ≤ cfg.PAGE_SIZE - st.vdso_offset :=
    Nat.le_of_dvd (by omega) hdvd
  have hadd : cfg.addw st.vdso_offset cfg.EMULFRAME_ROUNDED_SIZE
      = st.vdso_offset + cfg.EMULFRAME_ROUNDED_SIZE := addw_eq cfg _ _ (by omega)
  have hoff : (epc_adjust_step cfg st).vdso_offset
      = st.vdso_offset + cfg.EMULFRAME_ROUNDED_SIZE := by
    unfold epc_adjust_step
    simp only []
    split <;> exact hadd
  have hpage : (epc_adjust_step cfg st).vdso_page = st.vdso_page := by
    unfold epc_adjust_step
    simp only []
    split <;> rfl
  refine ⟨?_, hoff⟩
  unfold OffsetInv
  rw [hoff, hpage]
  refine ⟨by omega, by omega, ?_, h4⟩
  have e : cfg.PAGE_SIZE - st.vdso_offset
      = (cfg.PAGE_SIZE - (st.vdso_offset + cfg.EMULFRAME_ROUNDED_SIZE))
        + cfg.EMULFRAME_ROUNDED_SIZE := by omega
  rw [e, Nat.add_mod_right] at h3
  exact h3

theorem epc_adjust_done_of_ge (cfg : Cfg) (st : State) (h : cfg.PAGE_SIZE ≤ st.vdso_offset) :
    epc_adjust_done cfg st = true := by
  unfold epc_adjust_done
  rw [if_neg (by omega)]

/-- The loop of `vdso_epc_adjust` finishes within `PAGE_SIZE - vdso_offset`
passes and keeps the invariant. -/
theorem vdso_epc_adjust_inv (cfg : Cfg) (h : cfg.WF) (fuel : Nat) : ∀ st : State,
    OffsetInv cfg st → cfg.PAGE_SIZE - st.vdso_offset ≤ fuel →
    ∃ st', vdso_epc_adjust cfg fuel st = some st' ∧ OffsetInv cfg st' := by
  obtain ⟨hR8, hFR, hR24⟩ := wf_frame cfg h
  induction fuel with
  | zero =>
    intro st hinv hf
    refine ⟨st, ?_, hinv⟩
    unfold vdso_epc_adjust
    rw [if_pos (epc_adjust_done_of_ge cfg st (by omega))]
  | succ n ih =>
    intro st hinv hf
    unfold vdso_epc_adjust
    by_cases hd : epc_adjust_done cfg st = true
    · rw [if_pos hd]
      exact ⟨st, rfl, hinv⟩
    · rw [if_neg hd]
      have hlt : st.vdso_offset < cfg.PAGE_SIZE := by
        by_contra hc
        exact hd (epc_adjust_done_of_ge cfg st (by omega))
      obtain ⟨hi, ho⟩ := epc_adjust_step_inv cfg h st hinv hlt
      exact ih _ hi (by rw [ho]; omega)

/-- C5. Offset bounds invariant: starting from the resting state
(`vdso_offset = PAGE_SIZE`), after any finite sequence of calls of
`mips_dsemul`, `do_dsemulret` and `vdso_epc_adjust` with arbitrary arguments,
interleaved with arbitrary changes of the trap context, of memory and of the
mappings, every call has returned and
`sizeof (struct mips_vdso) ≤ vdso_offset ≤ PAGE_SIZE`. -/
theorem C5_offset_bounds (cfg : Cfg) (st : State) (ops : List Op)
    (hcfg : cfg.WF) (hrest : st.vdso_offset = cfg.PAGE_SIZE)
    (hpg : ∀ pg, st.vdso_page = some pg →
      cfg.EMULFRAME_ROUNDED_SIZE ≤ pg ∧ pg + cfg.PAGE_SIZE < cfg.wmod) :
    ∃ st', run cfg st ops = some st' ∧
      cfg.sizeof_mips_vdso ≤ st'.vdso_offset ∧ st'.vdso_offset ≤ cfg.PAGE_SIZE := by
  obtain ⟨hP8, hPm, hPw, hS⟩ := wf_page cfg hcfg
  have hinv : OffsetInv cfg st := ⟨by omega, by omega, by rw [hrest]; simp, hpg⟩
  clear hrest hpg
  induction ops generalizing st with
  | nil => exact ⟨st, rfl, hinv.1, hinv.2.1⟩
  | cons op ops ih =>
    have hstep : ∃ s, run_op cfg st op = some s ∧ OffsetInv cfg s := by
      cases op with
      | dsemul ir cpc bpc r31 => exact ⟨_, rfl, mips_dsemul_inv cfg hcfg st ir cpc bpc r31 hinv⟩
      | dsemulret => exact ⟨_, rfl, do_dsemulret_inv cfg hcfg st hinv⟩
      | epc_adjust => exact vdso_epc_adjust_inv cfg hcfg cfg.PAGE_SIZE st hinv (by omega)
      | env xcp mem rd wr => exact ⟨_, rfl, hinv⟩
    obtain ⟨s, hs, hsi⟩ := hstep
    obtain ⟨st', hr, hb⟩ := ih s hsi
    exact ⟨st', by simp only [run, hs, Option.bind]; exact hr, hb⟩

/-- C5 at a concrete input. -/
theorem C5_offset_bounds_witness :
    ∃ st', run mips32 rest32 history32 = some st' ∧
      mips32.sizeof_mips_vdso ≤ st'.vdso_offset ∧ st'.vdso_offset ≤ mips32.PAGE_SIZE :=
  C5_offset_bounds mips32 rest32 history32 mips32_wf (by decide)
    (fun pg hp => by
      obtain rfl : 0x80010000 = pg := Option.some.inj hp
      decide)

/-! ## Signal-entry correction of one frame (C6) -/

theorem vdso_epc_adjust_done (cfg : Cfg) (fuel : Nat) (st : State)
    (h : epc_adjust_done cfg st = true) : vdso_epc_adjust cfg fuel st = some st := by
  cases fuel <;> (unfold vdso_epc_adjust; rw [if_pos h])

theorem vdso_epc_adjust_step (cfg : Cfg) (fuel : Nat) (st : State)
    (h : ¬ epc_adjust_done cfg st = true) :
    vdso_epc_adjust cfg (fuel + 1) st = vdso_epc_adjust cfg fuel (epc_adjust_step cfg st) := by
  rw [vdso_epc_adjust, if_neg h]

/-- C6. Signal-entry correction of one pending frame: with a single pending
frame in the shared page (`vdso_offset = PAGE_SIZE - EMULFRAME_ROUNDED_SIZE`,
frame readable), `vdso_epc_adjust` returns after one pass with
`vdso_offset = PAGE_SIZE`; if the saved pc (mode bit masked) is the address of
the relocated instruction, the saved pc becomes the frame's `bpc`, register 31
the frame's `r31` and no other register changes; if the saved pc is elsewhere in
the scratch area, the saved pc becomes the frame's `epc` and no general register
changes. -/
theorem C6_single_frame_correction (cfg : Cfg) (st : State) (fuel : Nat)
    (hcfg : cfg.WF) (hfuel : 1 ≤ fuel)
    (hoff : st.vdso_offset + cfg.EMULFRAME_ROUNDED_SIZE = cfg.PAGE_SIZE)
    (hslot : cfg.sizeof_mips_vdso ≤ st.vdso_offset)
    (hvw : st.vdso + cfg.PAGE_SIZE < cfg.wmod)
    (hrd : ∀ i, i < cfg.sizeof_emuframe → st.readable (st.vdso + st.vdso_offset + i) = true) :
    (msk_isa16_mode cfg st.xcp.cp0_epc = st.vdso + st.vdso_offset →
      ∃ st', vdso_epc_adjust cfg fuel st = some st' ∧
        st'.xcp.cp0_epc = cfg.load st.mem (st.vdso + st.vdso_offset + cfg.off_bpc) cfg.long_bytes ∧
        st'.xcp.regs 31 = cfg.load st.mem (st.vdso + st.vdso_offset + cfg.off_r31) cfg.long_bytes ∧
        (∀ i, i ≠ 31 → st'.xcp.regs i = st.xcp.regs i) ∧
        st'.vdso_offset = cfg.PAGE_SIZE) ∧
    (st.vdso + cfg.sizeof_mips_vdso ≤ msk_isa16_mode cfg st.xcp.cp0_epc →
      msk_isa16_mode cfg st.xcp.cp0_epc < st.vdso + cfg.PAGE_SIZE →
      msk_isa16_mode cfg st.xcp.cp0_epc ≠ st.vdso + st.vdso_offset →
      ∃ st', vdso_epc_adjust cfg fuel st = some st' ∧
        st'.xcp.cp0_epc = cfg.load st.mem (st.vdso + st.vdso_offset + cfg.off_epc) cfg.long_bytes ∧
        st'.xcp.regs = st.xcp.regs ∧
        st'.vdso_offset = cfg.PAGE_SIZE) := by
  obtain ⟨hR8, hFR, hR24⟩ := wf_frame cfg hcfg
  obtain ⟨hP8, hPm, hPw, hS⟩ := wf_page cfg hcfg
  obtain ⟨n, rfl⟩ : ∃ n, fuel = n + 1 := ⟨fuel - 1, by omega⟩
  have hlim1 : cfg.addw st.vdso cfg.PAGE_SIZE = st.vdso + cfg.PAGE_SIZE := addw_eq cfg _ _ hvw
  have hlim2 : cfg.addw st.vdso cfg.sizeof_mips_vdso = st.vdso + cfg.sizeof_mips_vdso :=
    addw_eq cfg _ _ (by omega)
  have hfr : cfg.addw st.vdso st.vdso_offset = st.vdso + st.vdso_offset :=
    addw_eq cfg _ _ (by omega)
  have hnew : cfg.addw st.vdso_offset cfg.EMULFRAME_ROUNDED_SIZE = cfg.PAGE_SIZE := by
    rw [addw_eq cfg _ _ (by omega), hoff]
  have hfields : cfg.off_epc + cfg.long_bytes ≤ cfg.sizeof_emuframe ∧
      cfg.off_bpc + cfg.long_bytes ≤ cfg.sizeof_emuframe ∧
      cfg.off_r31 + cfg.long_bytes ≤ cfg.sizeof_emuframe := by
    rcases wf_layout cfg hcfg with ⟨hL, -, -, ho, hb, hr, hs, -⟩ | ⟨hL, -, -, ho, hb, hr, hs, -⟩ <;>
      omega
  have hget : ∀ (s : State) (off : Nat), s.readable = st.readable → s.mem = st.mem →
      off + cfg.long_bytes ≤ cfg.sizeof_emuframe →
      get_user cfg s (st.vdso + st.vdso_offset + off) cfg.long_bytes
        = (false, cfg.load st.mem (st.vdso + st.vdso_offset + off) cfg.long_bytes) := by
    intro s off hsr hsm ho
    rw [get_user_ok cfg s _ _ (fun i hi => by
      rw [hsr, Nat.add_assoc]
      exact hrd (off + i) (by omega)), hsm]
  have hnot : st.vdso + cfg.sizeof_mips_vdso ≤ msk_isa16_mode cfg st.xcp.cp0_epc →
      msk_isa16_mode cfg st.xcp.cp0_epc < st.vdso + cfg.PAGE_SIZE →
      ¬ epc_adjust_done cfg st = true := by
    intro ha hb
    unfold epc_adjust_done
    rw [if_pos (by omega)]
    simp only [hlim1, hlim2, decide_eq_true_eq]
    omega
  constructor
  · intro hpc
    rw [vdso_epc_adjust_step cfg n st (hnot (by omega) (by omega))]
    have hstep : epc_adjust_step cfg st =
        { st with
          xcp := { regs := Function.update st.xcp.regs 31
                      (cfg.load st.mem (st.vdso + st.vdso_offset + cfg.off_r31) cfg.long_bytes),
                   cp0_epc :=
                      cfg.load st.mem (st.vdso + st.vdso_offset + cfg.off_bpc) cfg.long_bytes }
          vdso_offset := cfg.PAGE_SIZE } := by
      unfold epc_adjust_step
      simp only [hfr, hpc, off_emul, Nat.add_zero, if_true]
      rw [hget st _ rfl rfl hfields.2.2, hget (st.set_reg 31 _) _ rfl rfl hfields.2.1]
      simp only [State.set_epc, State.set_reg, hnew]
    rw [hstep, vdso_epc_adjust_done cfg n _ (epc_adjust_done_of_ge cfg _ (le_refl _))]
    refine ⟨_, rfl, rfl, ?_, ?_, rfl⟩
    · exact Function.update_same (31 : Nat) _ st.xcp.regs
    · intro i hi
      exact Function.update_noteq hi _ st.xcp.regs
  · intro ha hb hne
    rw [vdso_epc_adjust_step cfg n st (hnot ha hb)]
    have hstep : epc_adjust_step cfg st =
        { st with
          xcp := { regs := st.xcp.regs,
                   cp0_epc :=
                      cfg.load st.mem (st.vdso + st.vdso_offset + cfg.off_epc) cfg.long_bytes }
          vdso_offset := cfg.PAGE_SIZE } := by
      unfold epc_adjust_step
      simp only [hfr, off_emul, Nat.add_zero, if_neg hne]
      rw [hget st _ rfl rfl hfields.1]
      simp only [State.set_epc, hnew]
    rw [hstep, vdso_epc_adjust_done cfg n _ (epc_adjust_done_of_ge cfg _ (le_refl _))]
    exact ⟨_, rfl, rfl, rfl, rfl⟩

/-- C6 at a concrete input: the frame just built on `rest32`. -/
theorem C6_single_frame_correction_witness :
    ∃ st', vdso_epc_adjust mips32 1 pending32 = some st' ∧
      st'.xcp.cp0_epc = mips32.load pending32.mem
        (pending32.vdso + pending32.vdso_offset + mips32.off_bpc) mips32.long_bytes ∧
      st'.xcp.regs 31 = mips32.load pending32.mem
        (pending32.vdso + pending32.vdso_offset + mips32.off_r31) mips32.long_bytes ∧
      (∀ i, i ≠ 31 → st'.xcp.regs i = pending32.xcp.regs i) ∧
      st'.vdso_offset = mips32.PAGE_SIZE :=
  (C6_single_frame_correction mips32 pending32 1 mips32_wf (by decide) (by decide) (by decide)
    (by decide) (fun _ _ => rfl)).1 (by decide)

/-! ## The corrector on return (C7, C8) -/

theorem epc_adjust_step_fields (cfg : Cfg) (st : State) :
    (epc_adjust_step cfg st).mem = st.mem ∧ (epc_adjust_step cfg st).vdso = st.vdso ∧
    (epc_adjust_step cfg st).vdso_offset = cfg.addw st.vdso_offset cfg.EMULFRAME_ROUNDED_SIZE := by
  unfold epc_adjust_step
  simp only []
  split <;> exact ⟨rfl, rfl, rfl⟩

/-- Whatever the fuel, a finished run of the loop ends in a state that passes
one of the exit tests, with memory and the page address as before. -/
theorem vdso_epc_adjust_exit (cfg : Cfg) (fuel : Nat) : ∀ st st' : State,
    vdso_epc_adjust cfg fuel st = some st' →
    epc_adjust_done cfg st' = true ∧ st'.mem = st.mem ∧ st'.vdso = st.vdso := by
  induction fuel with
  | zero =>
    intro st st' h
    unfold vdso_epc_adjust at h
    split at h
    · rename_i hd
      obtain rfl := Option.some.inj h
      exact ⟨hd, rfl, rfl⟩
    · exact absurd h (by simp)
  | succ n ih =>
    intro st st' h
    unfold vdso_epc_adjust at h
    split at h
    · rename_i hd
      obtain rfl := Option.some.inj h
      exact ⟨hd, rfl, rfl⟩
    · obtain ⟨h1, h2, h3⟩ := ih _ _ h
      obtain ⟨e1, e2, _⟩ := epc_adjust_step_fields cfg st
      exact ⟨h1, by rw [h2, e1], by rw [h3, e2]⟩

/-- The loop finishes within `PAGE_SIZE - vdso_offset` passes from any state. -/
theorem vdso_epc_adjust_total (cfg : Cfg) (h : cfg.WF) (fuel : Nat) : ∀ st : State,
    cfg.PAGE_SIZE - st.vdso_offset ≤ fuel → ∃ st', vdso_epc_adjust cfg fuel st = some st' := by
  obtain ⟨hR8, hFR, hR24⟩ := wf_frame cfg h
  obtain ⟨hP8, hPm, hPw, hS⟩ := wf_page cfg h
  have hbig : cfg.PAGE_SIZE + cfg.EMULFRAME_ROUNDED_SIZE < cfg.wmod := by
    rcases wf_layout cfg h with ⟨-, -, hw, -, -, -, -, hrs⟩ | ⟨-, -, hw, -, -, -, -, hrs⟩ <;> omega
  induction fuel with
  | zero =>
    intro st hf
    exact ⟨st, vdso_epc_adjust_done cfg 0 st (epc_adjust_done_of_ge cfg st (by omega))⟩
  | succ n ih =>
    intro st hf
    by_cases hd : epc_adjust_done cfg st = true
    · exact ⟨st, vdso_epc_adjust_done cfg _ st hd⟩
    · rw [vdso_epc_adjust_step cfg n st hd]
      have hlt : st.vdso_offset < cfg.PAGE_SIZE := by
        by_contra hc
        exact hd (epc_adjust_done_of_ge cfg st (by omega))
      apply ih
      rw [(epc_adjust_step_fields cfg st).2.2, addw_eq cfg _ _ (by omega)]
      omega

theorem not_in_scratch_of_done (cfg : Cfg) (st : State)
    (hvw : st.vdso + cfg.PAGE_SIZE < cfg.wmod) (hS : cfg.sizeof_mips_vdso ≤ cfg.PAGE_SIZE)
    (hd : epc_adjust_done cfg st = true) :
    cfg.PAGE_SIZE ≤ st.vdso_offset ∨ ¬ in_scratch cfg st := by
  unfold epc_adjust_done at hd
  by_cases hlt : st.vdso_offset < cfg.PAGE_SIZE
  · right
    rw [if_pos hlt] at hd
    simp only [decide_eq_true_eq, addw_eq cfg _ _ hvw,
      addw_eq cfg st.vdso cfg.sizeof_mips_vdso (by omega)] at hd
    unfold in_scratch
    omega
  · left
    omega

theorem epc_adjust_step_epc (cfg : Cfg) (st : State) :
    (epc_adjust_step cfg st).xcp.cp0_epc =
      if msk_isa16_mode cfg st.xcp.cp0_epc = cfg.addw st.vdso st.vdso_offset + off_emul then
        (get_user cfg st (cfg.addw st.vdso st.vdso_offset + cfg.off_bpc) cfg.long_bytes).2
      else (get_user cfg st (cfg.addw st.vdso st.vdso_offset + cfg.off_epc) cfg.long_bytes).2 := by
  unfold epc_adjust_step
  simp only []
  split <;> rfl

theorem done_of_not_in_scratch (cfg : Cfg) (st : State)
    (hvw : st.vdso + cfg.PAGE_SIZE < cfg.wmod) (hS : cfg.sizeof_mips_vdso ≤ cfg.PAGE_SIZE)
    (h : ¬ in_scratch cfg st) : epc_adjust_done cfg st = true := by
  unfold epc_adjust_done
  split
  · simp only [decide_eq_true_eq, addw_eq cfg _ _ hvw,
      addw_eq cfg st.vdso cfg.sizeof_mips_vdso (by omega)]
    unfold in_scratch at h
    omega
  · rfl

/-- C7, counterexample. Two states of a thread with a shared page from which
`vdso_epc_adjust` returns with the saved pc inside scratch-frame memory: a frame
built on the resting state whose continuation address lies in the scratch area,
saved pc at the trap marker; and the resting state itself, no frame pending, with
the saved pc in the scratch area. -/
theorem C7_counterexample :
    SharedRegion mips32 nested32 0x80010000 ∧
    (∃ st', vdso_epc_adjust mips32 1 nested32 = some st' ∧ in_scratch mips32 st') ∧
    SharedRegion mips32 idle_scratch32 0x80010000 ∧
    (∃ st', vdso_epc_adjust mips32 1 idle_scratch32 = some st' ∧ in_scratch mips32 st') :=
  ⟨rest32_shared nested32 rfl rfl rfl, ⟨_, rfl, by decide⟩,
    rest32_shared idle_scratch32 rfl rfl rfl, ⟨_, rfl, by decide⟩⟩

/-- C7, amended. Corrector postcondition: for every state using the shared
region (page mapped below the top of the address space) such that, if the saved
pc lies in scratch-frame memory, a frame is pending (`vdso_offset < PAGE_SIZE`)
and the address the corrector reads from the frame at the current offset (its
`bpc` when the saved pc is at the relocated instruction, its `epc` otherwise)
does not itself lie in scratch-frame memory: `vdso_epc_adjust` returns, and after
it returns the saved pc (mode bit masked) does not lie in
`[vdso + sizeof (struct mips_vdso), vdso + PAGE_SIZE)`. -/
theorem C7_corrector_postcondition (cfg : Cfg) (st : State) (fuel : Nat)
    (hcfg : cfg.WF) (hvw : st.vdso + cfg.PAGE_SIZE < cfg.wmod)
    (hfuel : 0 < fuel)
    (hframe : in_scratch cfg st →
      st.vdso_offset < cfg.PAGE_SIZE ∧
      (msk_isa16_mode cfg st.xcp.cp0_epc = st.vdso + st.vdso_offset →
        ¬ scratch_addr cfg st.vdso
          (get_user cfg st (st.vdso + st.vdso_offset + cfg.off_bpc) cfg.long_bytes).2) ∧
      (msk_isa16_mode cfg st.xcp.cp0_epc ≠ st.vdso + st.vdso_offset →
        ¬ scratch_addr cfg st.vdso
          (get_user cfg st (st.vdso + st.vdso_offset + cfg.off_epc) cfg.long_bytes).2)) :
    ∃ st', vdso_epc_adjust cfg fuel st = some st' ∧ ¬ in_scratch cfg st' := by
  obtain ⟨hP8, hPm, hPw, hS⟩ := wf_page cfg hcfg
  by_cases hin : in_scratch cfg st
  · obtain ⟨hlt, hb, he⟩ := hframe hin
    obtain ⟨n, rfl⟩ : ∃ n, fuel = n + 1 := ⟨fuel - 1, by omega⟩
    have hnd : ¬ epc_adjust_done cfg st = true := by
      unfold epc_adjust_done
      rw [if_pos hlt]
      simp only [decide_eq_true_eq, addw_eq cfg _ _ hvw,
        addw_eq cfg st.vdso cfg.sizeof_mips_vdso (by omega)]
      unfold in_scratch at hin
      omega
    have hfr : cfg.addw st.vdso st.vdso_offset = st.vdso + st.vdso_offset :=
      addw_eq cfg _ _ (by omega)
    obtain ⟨-, hv1, -⟩ := epc_adjust_step_fields cfg st
    have hout : ¬ in_scratch cfg (epc_adjust_step cfg st) := by
      unfold in_scratch
      rw [hv1, epc_adjust_step_epc, hfr]
      unfold scratch_addr at hb he
      by_cases hpc : msk_isa16_mode cfg st.xcp.cp0_epc = st.vdso + st.vdso_offset
      · rw [if_pos (by rw [hpc]; rfl)]
        exact hb hpc
      · rw [if_neg (by unfold off_emul; rw [Nat.add_zero]; exact hpc)]
        exact he hpc
    rw [vdso_epc_adjust_step cfg n st hnd]
    exact ⟨_, vdso_epc_adjust_done cfg n _
      (done_of_not_in_scratch cfg _ (by rw [hv1]; exact hvw) hS hout), hout⟩
  · exact ⟨st, vdso_epc_adjust_done cfg fuel st (done_of_not_in_scratch cfg st hvw hS hin), hin⟩

/-- C7 (amended) at a concrete input: the frame just built on `rest32`, saved pc
at its relocated instruction; the corrector leaves the pc at the branch target. -/
theorem C7_corrector_postcondition_witness :
    in_scratch mips32 pending32 ∧
    ∃ st', vdso_epc_adjust mips32 24 pending32 = some st' ∧ ¬ in_scratch mips32 st' :=
  ⟨by decide, C7_corrector_postcondition mips32 pending32 24 mips32_wf (by decide) (by decide)
    (fun _ => ⟨by decide, fun _ => by decide, fun _ => by decide⟩)⟩

/-- C8. Corrector idempotence: from every state `vdso_epc_adjust` returns
(within `PAGE_SIZE - vdso_offset` passes) having written no memory, and a second
run immediately after the first returns the very same state: trap context,
`vdso_offset` and everything else are as after one run. -/
theorem C8_corrector_idempotent (cfg : Cfg) (st : State) (fuel fuel2 : Nat)
    (hcfg : cfg.WF) (hfuel : cfg.PAGE_SIZE - st.vdso_offset ≤ fuel) :
    ∃ st', vdso_epc_adjust cfg fuel st = some st' ∧ st'.mem = st.mem ∧
      vdso_epc_adjust cfg fuel2 st' = some st' := by
  obtain ⟨st', h⟩ := vdso_epc_adjust_total cfg hcfg fuel st hfuel
  obtain ⟨hd, hm, _⟩ := vdso_epc_adjust_exit cfg fuel st st' h
  exact ⟨st', h, hm, vdso_epc_adjust_done cfg fuel2 st' hd⟩

/-- C8 at a concrete input. -/
theorem C8_corrector_idempotent_witness :
    ∃ st', vdso_epc_adjust mips32 24 pending32 = some st' ∧ st'.mem = pending32.mem ∧
      vdso_epc_adjust mips32 0 st' = some st' :=
  C8_corrector_idempotent mips32 pending32 24 0 mips32_wf (by decide)

/-! ## Fast paths (C9, C10) -/

/-- C9. No-op fast path: for every state, if `ir == 0`, or the saved pc is in
compact (ISA16) mode and the upper halfword of `ir` equals `MM_NOP16`, then
`mips_dsemul` returns -1 and the state after the call is the state before it:
saved pc, registers, `vdso_offset` and all memory are unchanged. -/
theorem C9_noop_fast_path (cfg : Cfg) (st : State) (ir cpc bpc r31 : Nat)
    (h : ir = 0 ∨ (get_isa16_mode st.xcp.cp0_epc ≠ 0 ∧ ir >>> 16 = cfg.MM_NOP16)) :
    mips_dsemul cfg st ir cpc bpc r31 = (-1, st) := by
  unfold mips_dsemul
  by_cases h0 : ir = 0
  · rw [if_pos h0]
  · rw [if_neg h0]
    rcases h with h | h
    · exact absurd h h0
    · rw [if_pos h]

/-- C9 at a concrete input: the compact no-op in compact mode. -/
theorem C9_noop_fast_path_witness :
    mips_dsemul mips32 rest32_mm 0x0c000000 0x400200 0x400300 77 = (-1, rest32_mm) :=
  C9_noop_fast_path mips32 rest32_mm 0x0c000000 0x400200 0x400300 77
    (Or.inr ⟨by decide, by decide⟩)

theorem to_s32_add (a b : Int) : to_s32 (to_s32 a + b) = to_s32 (a + b) := by
  unfold to_s32
  omega

theorem to_s32_modEq (a : Int) : to_s32 a % 2 ^ 32 = a % 2 ^ 32 := by
  unfold to_s32
  omega

theorem of_long_modEq (cfg : Cfg) (h : cfg.WF) (x : Int) :
    ((cfg.of_long x : Nat) : Int) % 2 ^ 32 = x % 2 ^ 32 := by
  unfold Cfg.of_long
  rcases wf_layout cfg h with ⟨-, -, hw, -⟩ | ⟨-, -, hw, -⟩ <;> rw [hw]
  · rw [Int.toNat_of_nonneg (Int.emod_nonneg _ (by norm_num))]
    norm_num
  · rw [Int.toNat_of_nonneg (Int.emod_nonneg _ (by norm_num))]
    norm_num

/-- C10, counterexample. `ADDIUPC` with immediate 1 at saved pc `0x400101` and
continuation address `0x500000`: the register receives `0x400104`, computed from
the saved pc, not `(0x500000 & ~3) + (1 << 2) = 0x500004`. -/
theorem C10_counterexample :
    get_isa16_mode rest32_mm.xcp.cp0_epc ≠ 0 ∧
    mips32.mm_a_opcode 0x78000001 = mips32.mm_addiupc_op ∧
    mips32.mm_a_simmediate 0x78000001 = 1 ∧
    (mips_dsemul mips32 rest32_mm 0x78000001 0x500000 0x400300 0).1 = -1 ∧
    (mips_dsemul mips32 rest32_mm 0x78000001 0x500000 0x400300 0).2.xcp.regs
      (addiupc_rs mips32 0x78000001) = 0x400104 ∧
    (((0x500000 &&& mips32.notw 3 : Nat) : Int) + mips32.mm_a_simmediate 0x78000001 * 2 ^ 2
      = 0x500004) ∧
    (((mips_dsemul mips32 rest32_mm 0x78000001 0x500000 0x400300 0).2.xcp.regs
      (addiupc_rs mips32 0x78000001) : Nat) : Int) ≠
      ((0x500000 &&& mips32.notw 3 : Nat) : Int) + mips32.mm_a_simmediate 0x78000001 * 2 ^ 2 := by
  decide

/-- C10, amended. In compact mode, for every `ADDIUPC` instruction (one that is
neither zero nor has the compact no-op as upper halfword) and every immediate,
`mips_dsemul` returns -1, writes no memory, leaves `vdso_offset` and the saved pc
unchanged, and the value it stores in the destination register is
`(saved_pc & ~3) + (signed_immediate << 2)` taken as a 32-bit two's-complement
number and sign-extended to the register width, where `saved_pc` is the saved
program counter `regs->cp0_epc` at the call (not the continuation address `cpc`);
in particular it is congruent to that sum modulo `2 ^ 32`. -/
theorem C10_addiupc_value (cfg : Cfg) (st : State) (ir cpc bpc r31 : Nat)
    (hcfg : cfg.WF)
    (hmode : get_isa16_mode st.xcp.cp0_epc ≠ 0)
    (hop : cfg.mm_a_opcode ir = cfg.mm_addiupc_op)
    (hir : ir ≠ 0) (hnop : ir >>> 16 ≠ cfg.MM_NOP16) :
    (mips_dsemul cfg st ir cpc bpc r31).1 = -1 ∧
    (mips_dsemul cfg st ir cpc bpc r31).2.mem = st.mem ∧
    (mips_dsemul cfg st ir cpc bpc r31).2.vdso_offset = st.vdso_offset ∧
    (mips_dsemul cfg st ir cpc bpc r31).2.xcp.cp0_epc = st.xcp.cp0_epc ∧
    (mips_dsemul cfg st ir cpc bpc r31).2.xcp.regs (addiupc_rs cfg ir) =
      cfg.of_long (to_s32 (((st.xcp.cp0_epc &&& cfg.notw 3 : Nat) : Int)
        + cfg.mm_a_simmediate ir * 2 ^ 2)) ∧
    (((mips_dsemul cfg st ir cpc bpc r31).2.xcp.regs (addiupc_rs cfg ir) : Nat) : Int) % 2 ^ 32 =
      (((st.xcp.cp0_epc &&& cfg.notw 3 : Nat) : Int) + cfg.mm_a_simmediate ir * 2 ^ 2) % 2 ^ 32 := by
  have he : mips_dsemul cfg st ir cpc bpc r31 =
      (-1, st.set_reg (addiupc_rs cfg ir) (cfg.of_long (addiupc_val cfg st ir))) := by
    unfold mips_dsemul
    rw [if_neg hir, if_neg (fun hh => hnop hh.2), if_pos ⟨hmode, hop⟩]
  have hv : (st.set_reg (addiupc_rs cfg ir) (cfg.of_long (addiupc_val cfg st ir))).xcp.regs
      (addiupc_rs cfg ir) = cfg.of_long (to_s32 (((st.xcp.cp0_epc &&& cfg.notw 3 : Nat) : Int)
        + cfg.mm_a_simmediate ir * 2 ^ 2)) := by
    show Function.update st.xcp.regs _ _ _ = _
    rw [Function.update_same]
    unfold addiupc_val
    rw [to_s32_add]
  rw [he]
  refine ⟨rfl, rfl, rfl, rfl, hv, ?_⟩
  rw [hv, of_long_modEq cfg hcfg, to_s32_modEq]

/-- C10 (amended) at a concrete input: a negative immediate. -/
theorem C10_addiupc_value_witness :
    mips32.mm_a_simmediate 0x787fffff = -1 ∧
    (mips_dsemul mips32 rest32_mm 0x787fffff 0x500000 0x400300 0).2.xcp.regs
      (addiupc_rs mips32 0x787fffff) = 0x4000fc ∧
    (mips_dsemul mips32 rest32_mm 0x787fffff 0x500000 0x400300 0).1 = -1 ∧
    (mips_dsemul mips32 rest32_mm 0x787fffff 0x500000 0x400300 0).2.mem = rest32_mm.mem ∧
    (mips_dsemul mips32 rest32_mm 0x787fffff 0x500000 0x400300 0).2.vdso_offset
      = rest32_mm.vdso_offset ∧
    (mips_dsemul mips32 rest32_mm 0x787fffff 0x500000 0x400300 0).2.xcp.cp0_epc
      = rest32_mm.xcp.cp0_epc ∧
    (mips_dsemul mips32 rest32_mm 0x787fffff 0x500000 0x400300 0).2.xcp.regs
        (addiupc_rs mips32 0x787fffff) =
      mips32.of_long (to_s32 (((rest32_mm.xcp.cp0_epc &&& mips32.notw 3 : Nat) : Int)
        + mips32.mm_a_simmediate 0x787fffff * 2 ^ 2)) ∧
    (((mips_dsemul mips32 rest32_mm 0x787fffff 0x500000 0x400300 0).2.xcp.regs
        (addiupc_rs mips32 0x787fffff) : Nat) : Int) % 2 ^ 32 =
      (((rest32_mm.xcp.cp0_epc &&& mips32.notw 3 : Nat) : Int)
        + mips32.mm_a_simmediate 0x787fffff * 2 ^ 2) % 2 ^ 32 :=
  ⟨by decide, by decide,
    C10_addiupc_value mips32 rest32_mm 0x787fffff 0x500000 0x400300 0 mips32_wf (by decide)
      (by decide) (by decide) (by decide)⟩

/-! ## The stack build -/

theorem forall_of_all_bytes (p : Nat → Bool) (n : Nat) : ∀ a : Nat,
    all_bytes p a n = true → ∀ i, i < n → p (a + i) = true := by
  induction n with
  | zero => intro a _ i hi; omega
  | succ n ih =>
    intro a h i hi
    rw [all_bytes, Bool.and_eq_true] at h
    cases i with
    | zero => exact h.1
    | succ j =>
      have := ih (a + 1) h.2 j (by omega)
      rwa [Nat.add_assoc, Nat.add_comm 1 j] at this

theorem put_user_ok (cfg : Cfg) (st : State) (v a n : Nat)
    (h : ∀ i, i < n → st.writable (a + i) = true) :
    put_user cfg st v a n = (false, { st with mem := cfg.store st.mem a n v }) := by
  unfold put_user
  rw [if_pos (all_bytes_of_forall _ n a h)]

theorem put_user_err_false (cfg : Cfg) (st : State) (v a n : Nat)
    (h : (put_user cfg st v a n).1 = false) : ∀ i, i < n → st.writable (a + i) = true := by
  unfold put_user at h
  split at h
  · rename_i hw
    exact forall_of_all_bytes _ n a hw
  · exact absurd h (by simp)

theorem put_user_xcp (cfg : Cfg) (st : State) (v a n : Nat) :
    (put_user cfg st v a n).2.xcp = st.xcp := by
  unfold put_user; split <;> rfl

theorem put_user_writable (cfg : Cfg) (st : State) (v a n : Nat) :
    (put_user cfg st v a n).2.writable = st.writable := by
  unfold put_user; split <;> rfl

theorem put_user_ok_at (cfg : Cfg) (st s : State) (fr off n v : Nat)
    (hs : s.writable = st.writable)
    (hw : ∀ i, off ≤ i → i < off + n → st.writable (fr + i) = true) :
    put_user cfg s v (fr + off) n = (false, { s with mem := cfg.store s.mem (fr + off) n v }) := by
  apply put_user_ok
  intro i hi
  rw [hs, Nat.add_assoc]
  exact hw (off + i) (by omega) (by omega)

/-- The stack build succeeds when the segment check passes and no written byte
faults, and then leaves `built_stack`. -/
theorem dsemul_stack_ok (cfg : Cfg) (h : cfg.WF) (st : State) (ir cpc : Nat)
    (hacc : cfg.access_ok VERIFY_WRITE (stack_frame cfg (st.xcp.regs 29)) cfg.sizeof_emuframe
      = true)
    (hw : stack_writable cfg st (stack_frame cfg (st.xcp.regs 29))) :
    dsemul_stack cfg st ir cpc = (0, built_stack cfg st ir cpc) := by
  have hfr : cfg.subw (st.xcp.regs 29) cfg.sizeof_emuframe &&& cfg.notw 0x7
      = stack_frame cfg (st.xcp.regs 29) := rfl
  unfold dsemul_stack
  simp only [hfr]
  rw [if_neg (by rw [hacc]; decide)]
  unfold stack_writable at hw
  rcases wf_layout cfg h with ⟨hL, -, -, ho, -, -, -, -⟩ | ⟨hL, -, -, ho, -, -, -, -⟩
  all_goals
    simp only [ho, hL, off_emul, off_badinst, off_cookie, Nat.add_assoc, Nat.reduceAdd] at hw ⊢
    by_cases hm : get_isa16_mode st.xcp.cp0_epc ≠ 0
    · simp only [if_pos hm]
      rw [put_user_ok_at cfg st st _ 0 2 _ (by rfl) (fun i h1 h2 => hw i (by omega))]
      simp only []
      rw [put_user_ok_at cfg st _ _ 2 2 _ (by rfl) (fun i h1 h2 => hw i (by omega))]
      simp only []
      rw [put_user_ok_at cfg st _ _ 4 2 _ (by rfl) (fun i h1 h2 => hw i (by omega))]
      simp only []
      rw [put_user_ok_at cfg st _ _ 6 2 _ (by rfl) (fun i h1 h2 => hw i (by omega))]
      simp only []
      rw [put_user_ok_at cfg st _ _ 8 4 _ (by rfl) (fun i h1 h2 => hw i (by omega))]
      simp only []
      rw [put_user_ok_at cfg st _ _ _ _ _ (by rfl) (fun i h1 h2 => hw i (by omega))]
      simp only [Bool.or_self, Bool.false_eq_true, if_false]
      simp only [built_stack, stack_image, State.set_epc, if_pos hm, ho, hL, off_emul,
        off_badinst, off_cookie, Nat.add_assoc, Nat.reduceAdd]
    · simp only [if_neg hm]
      rw [put_user_ok_at cfg st st _ 0 4 _ (by rfl) (fun i h1 h2 => hw i (by omega))]
      simp only []
      rw [put_user_ok_at cfg st _ _ 4 4 _ (by rfl) (fun i h1 h2 => hw i (by omega))]
      simp only []
      rw [put_user_ok_at cfg st _ _ 8 4 _ (by rfl) (fun i h1 h2 => hw i (by omega))]
      simp only []
      rw [put_user_ok_at cfg st _ _ _ _ _ (by rfl) (fun i h1 h2 => hw i (by omega))]
      simp only [Bool.or_self, Bool.false_eq_true, if_false]
      simp only [built_stack, stack_image, State.set_epc, if_neg hm, ho, hL, off_emul,
        off_badinst, off_cookie, Nat.add_assoc, Nat.reduceAdd]

theorem range_of_bytes (p : Nat → Bool) (a off n : Nat)
    (h : ∀ j, j < n → p (a + off + j) = true) (i : Nat) (h1 : off ≤ i) (h2 : i < off + n) :
    p (a + i) = true := by
  have := h (i - off) (by omega)
  rwa [Nat.add_assoc, Nat.add_sub_cancel' h1] at this

theorem dsemul_stack_ret_zero (cfg : Cfg) (h : cfg.WF) (st : State) (ir cpc : Nat)
    (h0 : (dsemul_stack cfg st ir cpc).1 = 0) :
    cfg.access_ok VERIFY_WRITE (stack_frame cfg (st.xcp.regs 29)) cfg.sizeof_emuframe = true ∧
    stack_writable cfg st (stack_frame cfg (st.xcp.regs 29)) := by
  have hfr : cfg.subw (st.xcp.regs 29) cfg.sizeof_emuframe &&& cfg.notw 0x7
      = stack_frame cfg (st.xcp.regs 29) := rfl
  unfold dsemul_stack at h0
  simp only [hfr] at h0
  by_cases hacc : cfg.access_ok VERIFY_WRITE (stack_frame cfg (st.xcp.regs 29))
      cfg.sizeof_emuframe = false
  · rw [if_pos hacc] at h0
    exact absurd h0 (sigbus_ne_zero cfg h)
  rw [if_neg hacc] at h0
  refine ⟨by simpa using hacc, ?_⟩
  by_cases hm : get_isa16_mode st.xcp.cp0_epc ≠ 0
  · simp only [if_pos hm] at h0
    split at h0
    · exact absurd h0 (sigbus_ne_zero cfg h)
    rename_i herr
    simp only [Bool.or_eq_true, not_or, Bool.not_eq_true] at herr
    obtain ⟨⟨⟨⟨⟨e1, e2⟩, e3⟩, e4⟩, e5⟩, e6⟩ := herr
    have w1 := put_user_err_false cfg _ _ _ _ e1
    have w2 := put_user_err_false cfg _ _ _ _ e2
    have w3 := put_user_err_false cfg _ _ _ _ e3
    have w4 := put_user_err_false cfg _ _ _ _ e4
    have w5 := put_user_err_false cfg _ _ _ _ e5
    have w6 := put_user_err_false cfg _ _ _ _ e6
    simp only [put_user_writable] at w1 w2 w3 w4 w5 w6
    intro i hi
    rcases hi with hi | hi
    · by_cases c1 : i < 2
      · exact range_of_bytes _ _ off_emul 2 w1 i (by unfold off_emul; omega)
          (by unfold off_emul; omega)
      · by_cases c2 : i < 4
        · exact range_of_bytes _ _ 2 2 (by simpa [off_emul] using w2) i (by omega) (by omega)
        · by_cases c3 : i < 6
          · exact range_of_bytes _ _ off_badinst 2 w3 i (by unfold off_badinst; omega)
              (by unfold off_badinst; omega)
          · by_cases c4 : i < 8
            · exact range_of_bytes _ _ 6 2 (by simpa [off_badinst, Nat.add_assoc] using w4) i
                (by omega) (by omega)
            · exact range_of_bytes _ _ off_cookie 4 w5 i (by unfold off_cookie; omega)
                (by unfold off_cookie; omega)
    · exact range_of_bytes _ _ cfg.off_epc cfg.long_bytes w6 i hi.1 hi.2
  · simp only [if_neg hm] at h0
    split at h0
    · exact absurd h0 (sigbus_ne_zero cfg h)
    rename_i herr
    simp only [Bool.or_eq_true, not_or, Bool.not_eq_true] at herr
    obtain ⟨⟨⟨e1, e2⟩, e5⟩, e6⟩ := herr
    have w1 := put_user_err_false cfg _ _ _ _ e1
    have w2 := put_user_err_false cfg _ _ _ _ e2
    have w5 := put_user_err_false cfg _ _ _ _ e5
    have w6 := put_user_err_false cfg _ _ _ _ e6
    simp only [put_user_writable] at w1 w2 w5 w6
    intro i hi
    rcases hi with hi | hi
    · by_cases c1 : i < 4
      · exact range_of_bytes _ _ off_emul 4 w1 i (by unfold off_emul; omega)
          (by unfold off_emul; omega)
      · by_cases c2 : i < 8
        · exact range_of_bytes _ _ off_badinst 4 w2 i (by unfold off_badinst; omega)
            (by unfold off_badinst; omega)
        · exact range_of_bytes _ _ off_cookie 4 w5 i (by unfold off_cookie; omega)
            (by unfold off_cookie; omega)
    · exact range_of_bytes _ _ cfg.off_epc cfg.long_bytes w6 i hi.1 hi.2

/-- A stack build that does not return 0 returns `SIGBUS` and leaves the trap
context and the fields of the scratch page untouched. -/
theorem dsemul_stack_fail (cfg : Cfg) (st : State) (ir cpc : Nat)
    (h0 : (dsemul_stack cfg st ir cpc).1 ≠ 0) :
    (dsemul_stack cfg st ir cpc).1 = (cfg.SIGBUS : Int) ∧
    (dsemul_stack cfg st ir cpc).2.xcp = st.xcp ∧
    (dsemul_stack cfg st ir cpc).2.vdso_offset = st.vdso_offset := by
  unfold dsemul_stack at h0 ⊢
  simp only [] at h0 ⊢
  by_cases hacc : cfg.access_ok VERIFY_WRITE
      (cfg.subw (st.xcp.regs 29) cfg.sizeof_emuframe &&& cfg.notw 7) cfg.sizeof_emuframe = false
  · rw [if_pos hacc]
    exact ⟨rfl, rfl, rfl⟩
  rw [if_neg hacc] at h0 ⊢
  by_cases hm : get_isa16_mode st.xcp.cp0_epc ≠ 0
  · simp only [if_pos hm] at h0 ⊢
    split
    · simp only [State.inc_errors, put_user_xcp, put_user_vdso_offset, and_self]
    · rename_i herr
      rw [if_neg herr] at h0
      exact absurd rfl h0
  · simp only [if_neg hm] at h0 ⊢
    split
    · simp only [State.inc_errors, put_user_xcp, put_user_vdso_offset, and_self]
    · rename_i herr
      rw [if_neg herr] at h0
      exact absurd rfl h0

/-! ## Redirection of the saved program counter (C11) -/

theorem dsemul_vdso_ret_zero (cfg : Cfg) (h : cfg.WF) (st : State) (pg ir cpc bpc r31 : Nat)
    (h0 : (dsemul_vdso cfg st pg ir cpc bpc r31).1 = 0) :
    (dsemul_vdso cfg st pg ir cpc bpc r31).2.vdso = st.vdso ∧
    (dsemul_vdso cfg st pg ir cpc bpc r31).2.vdso_offset
      = cfg.subw st.vdso_offset cfg.EMULFRAME_ROUNDED_SIZE ∧
    (dsemul_vdso cfg st pg ir cpc bpc r31).2.xcp.cp0_epc
      = cfg.addw st.vdso (cfg.subw st.vdso_offset cfg.EMULFRAME_ROUNDED_SIZE)
        ||| get_isa16_mode st.xcp.cp0_epc := by
  unfold dsemul_vdso at h0 ⊢
  simp only [] at h0 ⊢
  by_cases hc : cfg.subw (cfg.addw pg st.vdso_offset) cfg.EMULFRAME_ROUNDED_SIZE
      < cfg.addw pg cfg.sizeof_mips_vdso
  · rw [if_pos hc] at h0
    exact absurd h0 (sigbus_ne_zero cfg h)
  · rw [if_neg hc]
    by_cases hm : get_isa16_mode st.xcp.cp0_epc ≠ 0
    · simp only [if_pos hm, State.set_epc, kstore_vdso, kstore_vdso_offset, kstore_xcp, and_self]
    · simp only [if_neg hm, State.set_epc, kstore_vdso, kstore_vdso_offset, kstore_xcp, and_self]

theorem stack_frame_aligned (cfg : Cfg) (h : cfg.WF) (sp : Nat) :
    stack_frame cfg sp % 8 = 0 ∧ stack_frame cfg sp < cfg.wmod ∧
    stack_frame cfg sp = cfg.subw sp cfg.sizeof_emuframe - cfg.subw sp cfg.sizeof_emuframe % 8 := by
  have hlt : cfg.subw sp cfg.sizeof_emuframe < cfg.wmod := by
    unfold Cfg.subw
    exact Nat.mod_lt _ (by unfold Cfg.wmod; exact Nat.two_pow_pos _)
  have e := notw7_and cfg h _ hlt
  unfold stack_frame
  rw [e]
  refine ⟨by omega, by omega, rfl⟩

/-- C11. PC redirection on success: whenever `mips_dsemul` returns 0 (given, in
the shared case, a page-aligned region base and an 8-byte-aligned offset), the
new saved pc with the mode bit masked off is the user address of the new frame's
relocated instruction, `vdso + new vdso_offset` in the shared-region case and
`(sp - sizeof (struct emuframe)) & ~7` in the stack case, and the mode bit of the
new saved pc is the mode bit of the saved pc before the call. -/
theorem C11_pc_redirection (cfg : Cfg) (st : State) (ir cpc bpc r31 : Nat)
    (hcfg : cfg.WF)
    (halign : st.vdso_page.isSome = true →
      st.vdso % cfg.PAGE_SIZE = 0 ∧ st.vdso_offset % 8 = 0)
    (hret : (mips_dsemul cfg st ir cpc bpc r31).1 = 0) :
    msk_isa16_mode cfg (mips_dsemul cfg st ir cpc bpc r31).2.xcp.cp0_epc =
      (if st.vdso_page.isSome = true then
        cfg.addw st.vdso (mips_dsemul cfg st ir cpc bpc r31).2.vdso_offset
      else stack_frame cfg (st.xcp.regs 29) + off_emul) ∧
    get_isa16_mode (mips_dsemul cfg st ir cpc bpc r31).2.xcp.cp0_epc
      = get_isa16_mode st.xcp.cp0_epc := by
  have hnf := not_fast_of_ret_zero cfg st ir cpc bpc r31 hret
  have hmlt := get_isa16_mode_lt st.xcp.cp0_epc
  have hslow := mips_dsemul_slow cfg st ir cpc bpc r31 hnf
  -- the new pc is an even address with the old mode bit or-ed in
  have key : ∀ a : Nat, a % 2 = 0 → a < cfg.wmod →
      msk_isa16_mode cfg (a ||| get_isa16_mode st.xcp.cp0_epc) = a ∧
      get_isa16_mode (a ||| get_isa16_mode st.xcp.cp0_epc) = get_isa16_mode st.xcp.cp0_epc := by
    intro a ha hlt
    have hor : a ||| get_isa16_mode st.xcp.cp0_epc = a + get_isa16_mode st.xcp.cp0_epc :=
      or_low _ _ 1 (by omega) (by omega)
    have hw2 : cfg.wmod % 2 = 0 := by
      rcases wf_layout cfg hcfg with ⟨-, -, hw, -⟩ | ⟨-, -, hw, -⟩ <;> rw [hw] <;> norm_num
    rw [hor, msk_isa16_mode_eq cfg hcfg _ (by omega), get_isa16_mode_eq (a + _)]
    rw [get_isa16_mode_eq] at hmlt ⊢
    omega
  cases hp : st.vdso_page with
  | none =>
    rw [hp] at hslow
    have hs : mips_dsemul cfg st ir cpc bpc r31 = dsemul_stack cfg st ir cpc := hslow
    rw [hs] at hret ⊢
    obtain ⟨hacc, hw⟩ := dsemul_stack_ret_zero cfg hcfg st ir cpc hret
    rw [dsemul_stack_ok cfg hcfg st ir cpc hacc hw]
    obtain ⟨h8, hlt, -⟩ := stack_frame_aligned cfg hcfg (st.xcp.regs 29)
    simp only [Option.isSome_none, Bool.false_eq_true, if_false]
    exact key (stack_frame cfg (st.xcp.regs 29) + off_emul) (by unfold off_emul; omega)
      (by unfold off_emul; omega)
  | some pg =>
    rw [hp] at hslow
    have hs : mips_dsemul cfg st ir cpc bpc r31 = dsemul_vdso cfg st pg ir cpc bpc r31 := hslow
    rw [hs] at hret ⊢
    obtain ⟨-, e2, e3⟩ := dsemul_vdso_ret_zero cfg hcfg st pg ir cpc bpc r31 hret
    obtain ⟨hva, ho8⟩ := halign (by rw [hp]; rfl)
    have hv8 := mod8_of_page_aligned cfg hcfg st.vdso hva
    obtain ⟨hR8, -, -⟩ := wf_frame cfg hcfg
    simp only [Option.isSome_some, if_true]
    rw [e3, e2]
    apply key
    · unfold Cfg.addw Cfg.subw
      rcases wf_layout cfg hcfg with ⟨-, -, hw, -⟩ | ⟨-, -, hw, -⟩ <;> rw [hw] <;> omega
    · unfold Cfg.addw
      exact Nat.mod_lt _ (by unfold Cfg.wmod; exact Nat.two_pow_pos _)

/-! ## Pop underflow and stack failure (C12, C13) -/

/-- C11 at a concrete input: a build in compact mode on the shared page. -/
theorem C11_pc_redirection_witness :
    (mips_dsemul mips32 rest32_mm 0x12345678 0x400200 0x400300 77).1 = 0 ∧
    msk_isa16_mode mips32 (mips_dsemul mips32 rest32_mm 0x12345678 0x400200 0x400300 77).2.xcp.cp0_epc
      = (if rest32_mm.vdso_page.isSome = true then
        mips32.addw rest32_mm.vdso
          (mips_dsemul mips32 rest32_mm 0x12345678 0x400200 0x400300 77).2.vdso_offset
      else stack_frame mips32 (rest32_mm.xcp.regs 29) + off_emul) ∧
    get_isa16_mode (mips_dsemul mips32 rest32_mm 0x12345678 0x400200 0x400300 77).2.xcp.cp0_epc
      = get_isa16_mode rest32_mm.xcp.cp0_epc :=
  ⟨by decide, C11_pc_redirection mips32 rest32_mm 0x12345678 0x400200 0x400300 77 mips32_wf
    (fun _ => ⟨by decide, by decide⟩) (by decide)⟩

/-- C12. Pop underflow: with a shared region, if a trap context passes the
segment check and the marker, cookie and page validation but
`vdso_offset + EMULFRAME_ROUNDED_SIZE > PAGE_SIZE` (the sum not wrapping the
word), then `do_dsemulret` forces a `SIGBUS`, returns 0, and leaves
`vdso_offset` and the trap context (saved pc, registers) as before the call. -/
theorem C12_pop_underflow (cfg : Cfg) (st : State)
    (hpage : st.vdso_page.isSome = true)
    (hacc : cfg.access_ok VERIFY_READ (trap_frame cfg st) cfg.sizeof_emuframe = true)
    (hmark : read_badinst cfg st (trap_frame cfg st) = (false, cfg.BREAK_MATH))
    (hcookie : get_user cfg st (trap_frame cfg st + off_cookie) 4 = (false, cfg.BD_COOKIE))
    (hin : st.xcp.cp0_epc &&& cfg.PAGE_MASK = st.vdso)
    (hnowrap : st.vdso_offset + cfg.EMULFRAME_ROUNDED_SIZE < cfg.wmod)
    (hunder : st.vdso_offset + cfg.EMULFRAME_ROUNDED_SIZE > cfg.PAGE_SIZE) :
    (do_dsemulret cfg st).1 = 0 ∧
    (do_dsemulret cfg st).2.forced = cfg.SIGBUS :: st.forced ∧
    (do_dsemulret cfg st).2.vdso_offset = st.vdso_offset ∧
    (do_dsemulret cfg st).2.xcp = st.xcp := by
  have hadd : cfg.addw st.vdso_offset cfg.EMULFRAME_ROUNDED_SIZE
      = st.vdso_offset + cfg.EMULFRAME_ROUNDED_SIZE := addw_eq cfg _ _ hnowrap
  have hsub : cfg.subw (st.vdso_offset + cfg.EMULFRAME_ROUNDED_SIZE) cfg.EMULFRAME_ROUNDED_SIZE
      = st.vdso_offset := by
    rw [subw_eq cfg _ _ hnowrap (by omega)]
    omega
  unfold do_dsemulret
  simp only [hmark, hcookie, hin, hpage, hadd, hsub]
  rw [if_neg (by rw [hacc]; decide), if_neg (by simp)]
  by_cases hep : (get_user cfg st (trap_frame cfg st + cfg.off_epc) cfg.long_bytes).1 = true
  · rw [if_pos hep]
    exact ⟨rfl, rfl, rfl, rfl⟩
  · rw [if_neg hep, if_pos trivial, if_pos hunder]
    exact ⟨rfl, rfl, rfl, rfl⟩

/-- C12 at a concrete input: the marker of an abandoned frame fires. -/
theorem C12_pop_underflow_witness :
    (do_dsemulret mips32 unwound32).1 = 0 ∧
    (do_dsemulret mips32 unwound32).2.forced = mips32.SIGBUS :: unwound32.forced ∧
    (do_dsemulret mips32 unwound32).2.vdso_offset = unwound32.vdso_offset ∧
    (do_dsemulret mips32 unwound32).2.xcp = unwound32.xcp :=
  C12_pop_underflow mips32 unwound32 (by decide) (by decide) (by decide) (by decide) (by decide)
    (by decide) (by decide)

/-- C13. Stack-path failure atomicity: with no shared region, for an
instruction that matches no fast path, if the write-access check on the frame
below the stack pointer fails or a byte that the frame writes touch faults, then
`mips_dsemul` returns `SIGBUS` and leaves the saved pc, every register (the stack
pointer included) and `vdso_offset` unchanged. -/
theorem C13_stack_failure_atomicity (cfg : Cfg) (st : State) (ir cpc bpc r31 : Nat)
    (hcfg : cfg.WF) (hnone : st.vdso_page = none)
    (hnf : not_fast_path cfg st.xcp.cp0_epc ir)
    (hfail : cfg.access_ok VERIFY_WRITE (stack_frame cfg (st.xcp.regs 29)) cfg.sizeof_emuframe
        = false ∨
      ∃ i, (i < 12 ∨ (cfg.off_epc ≤ i ∧ i < cfg.off_epc + cfg.long_bytes)) ∧
        st.writable (stack_frame cfg (st.xcp.regs 29) + i) = false) :
    (mips_dsemul cfg st ir cpc bpc r31).1 = (cfg.SIGBUS : Int) ∧
    (cfg.SIGBUS : Int) ≠ 0 ∧
    (mips_dsemul cfg st ir cpc bpc r31).2.xcp = st.xcp ∧
    (mips_dsemul cfg st ir cpc bpc r31).2.vdso_offset = st.vdso_offset := by
  have hslow := mips_dsemul_slow cfg st ir cpc bpc r31 hnf
  rw [hnone] at hslow
  have hs : mips_dsemul cfg st ir cpc bpc r31 = dsemul_stack cfg st ir cpc := hslow
  rw [hs]
  have hne : (dsemul_stack cfg st ir cpc).1 ≠ 0 := by
    intro h0
    obtain ⟨hacc, hw⟩ := dsemul_stack_ret_zero cfg hcfg st ir cpc h0
    rcases hfail with hf | ⟨i, hi, hf⟩
    · rw [hacc] at hf
      exact absurd hf (by decide)
    · rw [hw i hi] at hf
      exact absurd hf (by decide)
  obtain ⟨h1, h2, h3⟩ := dsemul_stack_fail cfg st ir cpc hne
  exact ⟨h1, sigbus_ne_zero cfg hcfg, h2, h3⟩

/-- C13 at a concrete input: the stack is mapped read-only. -/
theorem C13_stack_failure_atomicity_witness :
    (mips_dsemul mips32 stack32_ro 0x12345678 0x400200 0x400300 77).1 = (mips32.SIGBUS : Int) ∧
    (mips32.SIGBUS : Int) ≠ 0 ∧
    (mips_dsemul mips32 stack32_ro 0x12345678 0x400200 0x400300 77).2.xcp = stack32_ro.xcp ∧
    (mips_dsemul mips32 stack32_ro 0x12345678 0x400200 0x400300 77).2.vdso_offset
      = stack32_ro.vdso_offset :=
  C13_stack_failure_atomicity mips32 stack32_ro 0x12345678 0x400200 0x400300 77 mips32_wf rfl
    (by decide) (Or.inr ⟨0, Or.inl (by decide), rfl⟩)

/-! ## Contents of a stack frame -/

theorem stack_image_outside (cfg : Cfg) (h : cfg.WF) (m : Mem) (u mode ir cpc b : Nat)
    (hout : b < u ∨ u + cfg.sizeof_emuframe ≤ b) :
    stack_image cfg m u mode ir cpc b = m b := by
  unfold stack_image
  rcases wf_layout cfg h with ⟨hL, -, -, ho, hb, hr, hs, hrs⟩ | ⟨hL, -, -, ho, hb, hr, hs, hrs⟩
  all_goals
    simp only [ho, hL, hs, off_emul, off_badinst, off_cookie] at hout ⊢
    by_cases hm : mode ≠ 0
    all_goals
      simp only [if_pos hm, if_neg hm]
      repeat rw [store_outside cfg _ _ _ _ _ (by omega)]

theorem stack_image_cookie (cfg : Cfg) (h : cfg.WF) (m : Mem) (u mode ir cpc : Nat) :
    cfg.load (stack_image cfg m u mode ir cpc) (u + off_cookie) 4 = cfg.BD_COOKIE := by
  have hc : cfg.BD_COOKIE % 256 ^ 4 = cfg.BD_COOKIE := Nat.mod_eq_of_lt h.2.2.2.2.2.1
  unfold stack_image
  rcases wf_layout cfg h with ⟨hL, -, -, ho, hb, hr, hs, hrs⟩ | ⟨hL, -, -, ho, hb, hr, hs, hrs⟩
  all_goals
    simp only [ho, hL, off_emul, off_badinst, off_cookie]
    repeat rw [load_store_disj cfg _ _ _ _ _ _ (by omega)]
    rw [load_store_same, hc]

theorem stack_image_epc (cfg : Cfg) (h : cfg.WF) (m : Mem) (u mode ir cpc : Nat)
    (hcpc : cpc < cfg.wmod) :
    cfg.load (stack_image cfg m u mode ir cpc) (u + cfg.off_epc) cfg.long_bytes = cpc := by
  unfold stack_image
  rcases wf_layout cfg h with ⟨hL, -, hw, ho, hb, hr, hs, hrs⟩ | ⟨hL, -, hw, ho, hb, hr, hs, hrs⟩
  all_goals
    simp only [ho, hL, off_emul, off_badinst, off_cookie]
    rw [load_store_same]
    rw [hw] at hcpc
    exact Nat.mod_eq_of_lt (by norm_num; omega)

theorem stack_image_badinst (cfg : Cfg) (h : cfg.WF) (m : Mem) (u mode ir cpc : Nat)
    (hm : ¬ mode ≠ 0) :
    cfg.load (stack_image cfg m u mode ir cpc) (u + off_badinst) 4 = cfg.BREAK_MATH := by
  have hc : cfg.BREAK_MATH % 256 ^ 4 = cfg.BREAK_MATH := Nat.mod_eq_of_lt h.2.2.2.2.1
  unfold stack_image
  rcases wf_layout cfg h with ⟨hL, -, -, ho, hb, hr, hs, hrs⟩ | ⟨hL, -, -, ho, hb, hr, hs, hrs⟩
  all_goals
    simp only [ho, hL, off_emul, off_badinst, off_cookie, if_neg hm]
    repeat rw [load_store_disj cfg _ _ _ _ _ _ (by omega)]
    rw [load_store_same, hc]

theorem stack_image_badinst_hi (cfg : Cfg) (h : cfg.WF) (m : Mem) (u mode ir cpc : Nat)
    (hm : mode ≠ 0) :
    cfg.load (stack_image cfg m u mode ir cpc) (u + off_badinst) 2
      = (cfg.BREAK_MATH >>> 16) % 2 ^ 16 := by
  unfold stack_image
  rcases wf_layout cfg h with ⟨hL, -, -, ho, hb, hr, hs, hrs⟩ | ⟨hL, -, -, ho, hb, hr, hs, hrs⟩
  all_goals
    simp only [ho, hL, off_emul, off_badinst, off_cookie, if_pos hm]
    repeat rw [load_store_disj cfg _ _ _ _ _ _ (by omega)]
    rw [load_store_same]
    norm_num

theorem stack_image_badinst_lo (cfg : Cfg) (h : cfg.WF) (m : Mem) (u mode ir cpc : Nat)
    (hm : mode ≠ 0) :
    cfg.load (stack_image cfg m u mode ir cpc) (u + off_badinst + 2) 2
      = (cfg.BREAK_MATH &&& 0xffff) % 2 ^ 16 := by
  unfold stack_image
  rcases wf_layout cfg h with ⟨hL, -, -, ho, hb, hr, hs, hrs⟩ | ⟨hL, -, -, ho, hb, hr, hs, hrs⟩
  all_goals
    simp only [ho, hL, off_emul, off_badinst, off_cookie, if_pos hm]
    repeat rw [load_store_disj cfg _ _ _ _ _ _ (by omega)]
    rw [load_store_same]
    norm_num

theorem stack_image_emul (cfg : Cfg) (h : cfg.WF) (m : Mem) (u mode ir cpc : Nat)
    (hm : ¬ mode ≠ 0) (hir : ir < 2 ^ 32) :
    cfg.load (stack_image cfg m u mode ir cpc) (u + off_emul) 4 = ir := by
  unfold stack_image
  rcases wf_layout cfg h with ⟨hL, -, -, ho, hb, hr, hs, hrs⟩ | ⟨hL, -, -, ho, hb, hr, hs, hrs⟩
  all_goals
    simp only [ho, hL, off_emul, off_badinst, off_cookie, if_neg hm]
    repeat rw [load_store_disj cfg _ _ _ _ _ _ (by omega)]
    rw [load_store_same]
    exact Nat.mod_eq_of_lt (by norm_num; omega)

theorem stack_image_emul_hi (cfg : Cfg) (h : cfg.WF) (m : Mem) (u mode ir cpc : Nat)
    (hm : mode ≠ 0) (hir : ir < 2 ^ 32) :
    cfg.load (stack_image cfg m u mode ir cpc) (u + off_emul) 2 = ir >>> 16 := by
  unfold stack_image
  rcases wf_layout cfg h with ⟨hL, -, -, ho, hb, hr, hs, hrs⟩ | ⟨hL, -, -, ho, hb, hr, hs, hrs⟩
  all_goals
    simp only [ho, hL, off_emul, off_badinst, off_cookie, if_pos hm]
    repeat rw [load_store_disj cfg _ _ _ _ _ _ (by omega)]
    rw [load_store_same, Nat.shiftRight_eq_div_pow]
    exact Nat.mod_eq_of_lt (by norm_num; omega)

theorem stack_image_emul_lo (cfg : Cfg) (h : cfg.WF) (m : Mem) (u mode ir cpc : Nat)
    (hm : mode ≠ 0) :
    cfg.load (stack_image cfg m u mode ir cpc) (u + off_emul + 2) 2 = ir &&& 0xffff := by
  unfold stack_image
  rcases wf_layout cfg h with ⟨hL, -, -, ho, hb, hr, hs, hrs⟩ | ⟨hL, -, -, ho, hb, hr, hs, hrs⟩
  all_goals
    simp only [ho, hL, off_emul, off_badinst, off_cookie, if_pos hm]
    repeat rw [load_store_disj cfg _ _ _ _ _ _ (by omega)]
    rw [load_store_same, and_ffff]
    exact Nat.mod_eq_of_lt (by norm_num; omega)

theorem frame_image_emul (cfg : Cfg) (h : cfg.WF) (m : Mem) (u mode ir cpc bpc r31 : Nat)
    (hm : ¬ mode ≠ 0) (hir : ir < 2 ^ 32) :
    cfg.load (frame_image cfg m u mode ir cpc bpc r31) (u + off_emul) 4 = ir := by
  unfold frame_image
  rcases wf_layout cfg h with ⟨hL, -, -, ho, hb, hr, hs, hrs⟩ | ⟨hL, -, -, ho, hb, hr, hs, hrs⟩
  all_goals
    simp only [ho, hb, hr, hL, off_emul, off_badinst, off_cookie, if_neg hm]
    repeat rw [load_store_disj cfg _ _ _ _ _ _ (by omega)]
    rw [load_store_same]
    exact Nat.mod_eq_of_lt (by norm_num; omega)

theorem frame_image_emul_hi (cfg : Cfg) (h : cfg.WF) (m : Mem) (u mode ir cpc bpc r31 : Nat)
    (hm : mode ≠ 0) (hir : ir < 2 ^ 32) :
    cfg.load (frame_image cfg m u mode ir cpc bpc r31) (u + off_emul) 2 = ir >>> 16 := by
  unfold frame_image
  rcases wf_layout cfg h with ⟨hL, -, -, ho, hb, hr, hs, hrs⟩ | ⟨hL, -, -, ho, hb, hr, hs, hrs⟩
  all_goals
    simp only [ho, hb, hr, hL, off_emul, off_badinst, off_cookie, if_pos hm]
    repeat rw [load_store_disj cfg _ _ _ _ _ _ (by omega)]
    rw [load_store_same, Nat.shiftRight_eq_div_pow]
    norm_num
    omega

theorem frame_image_emul_lo (cfg : Cfg) (h : cfg.WF) (m : Mem) (u mode ir cpc bpc r31 : Nat)
    (hm : mode ≠ 0) :
    cfg.load (frame_image cfg m u mode ir cpc bpc r31) (u + off_emul + 2) 2 = ir &&& 0xffff := by
  unfold frame_image
  rcases wf_layout cfg h with ⟨hL, -, -, ho, hb, hr, hs, hrs⟩ | ⟨hL, -, -, ho, hb, hr, hs, hrs⟩
  all_goals
    simp only [ho, hb, hr, hL, off_emul, off_badinst, off_cookie, if_pos hm]
    repeat rw [load_store_disj cfg _ _ _ _ _ _ (by omega)]
    rw [load_store_same, and_ffff]
    norm_num

theorem break_hi (cfg : Cfg) (h : cfg.WF) :
    (cfg.BREAK_MATH >>> 16) % 2 ^ 16 = cfg.BREAK_MATH >>> 16 := by
  have := h.2.2.2.2.1
  rw [Nat.shiftRight_eq_div_pow]
  exact Nat.mod_eq_of_lt (by norm_num; omega)

theorem break_lo (cfg : Cfg) :
    (cfg.BREAK_MATH &&& 0xffff) % 2 ^ 16 = cfg.BREAK_MATH &&& 0xffff := by
  rw [and_ffff]
  norm_num

/-! ## The round trip through the stack (C14) -/

/-- Resolving a frame on the user stack when there is no shared page. -/
theorem do_dsemulret_stack (cfg : Cfg) (hcfg : cfg.WF) (s : State) (u mode c : Nat)
    (m0 : Mem) (ir : Nat)
    (hnone : s.vdso_page = none)
    (hu2 : u % 2 = 0) (huw : u + 8 ≤ cfg.wmod)
    (hmode : mode < 2) (hc : c < cfg.wmod)
    (hpc : s.xcp.cp0_epc = u + sizeof_insn + mode)
    (hacc : cfg.access_ok VERIFY_READ u cfg.sizeof_emuframe = true)
    (hrd : ∀ i, i < cfg.sizeof_emuframe → s.readable (u + i) = true)
    (hmem : ∀ i, i < cfg.sizeof_emuframe →
      s.mem (u + i) = stack_image cfg m0 u mode ir c (u + i)) :
    do_dsemulret cfg s = (1, (s.set_epc c).inc_ds_emul) := by
  have hFS : 24 ≤ cfg.sizeof_emuframe ∧ cfg.off_epc + cfg.long_bytes ≤ cfg.sizeof_emuframe := by
    rcases wf_layout cfg hcfg with ⟨hL, -, -, ho, -, -, hs, hrs⟩ | ⟨hL, -, -, ho, -, -, hs, hrs⟩ <;>
      omega
  obtain ⟨hF24, hFe⟩ := hFS
  have hepc_lt : s.xcp.cp0_epc < cfg.wmod := by rw [hpc]; unfold sizeof_insn; omega
  have hmodebit : get_isa16_mode s.xcp.cp0_epc = mode := by
    rw [get_isa16_mode_eq, hpc]; unfold sizeof_insn; omega
  have hmsk : msk_isa16_mode cfg s.xcp.cp0_epc = u + sizeof_insn := by
    rw [msk_isa16_mode_eq cfg hcfg _ hepc_lt, hpc]; unfold sizeof_insn; omega
  have hfr : trap_frame cfg s = u := by
    unfold trap_frame
    rw [hmsk, subw_eq cfg _ _ (by unfold sizeof_insn; omega) (by unfold sizeof_insn; omega)]
    unfold sizeof_insn; omega
  have hread : ∀ off n, off + n ≤ cfg.sizeof_emuframe →
      get_user cfg s (u + off) n = (false, cfg.load
        (stack_image cfg m0 u mode ir c) (u + off) n) := by
    intro off n hn
    rw [get_user_ok cfg s _ n (fun i hi => by
      have := hrd (off + i) (by omega)
      rwa [← Nat.add_assoc] at this)]
    congr 1
    apply load_congr
    intro i hi
    have := hmem (off + i) (by omega)
    rw [← Nat.add_assoc] at this
    exact this
  unfold do_dsemulret
  simp only [hfr]
  rw [if_neg (by rw [hacc]; decide)]
  have hck := hread off_cookie 4 (by unfold off_cookie; omega)
  have hep := hread cfg.off_epc cfg.long_bytes hFe
  rw [stack_image_cookie cfg hcfg] at hck
  rw [stack_image_epc cfg hcfg _ _ _ _ _ hc] at hep
  have hsome : s.vdso_page.isSome = false := by rw [hnone]; rfl
  have hrdv : read_badinst cfg s u = (false, cfg.BREAK_MATH) := by
    unfold read_badinst
    simp only [hmodebit]
    by_cases hm : mode ≠ 0
    · rw [if_pos hm]
      have h1 := hread off_badinst 2 (by unfold off_badinst; omega)
      have h2 := hread (off_badinst + 2) 2 (by unfold off_badinst; omega)
      rw [stack_image_badinst_hi cfg hcfg _ _ _ _ _ hm] at h1
      rw [← Nat.add_assoc, stack_image_badinst_lo cfg hcfg _ _ _ _ _ hm] at h2
      rw [h1, h2]
      simp only [Bool.or_self]
      rw [marker_halves _ hcfg.2.2.2.2.1]
    · rw [if_neg hm]
      have h1 := hread off_badinst 4 (by unfold off_badinst; omega)
      rw [stack_image_badinst cfg hcfg _ _ _ _ _ hm] at h1
      exact h1
  simp only [hck, hep, hsome, hrdv]
  rw [if_neg (by simp), if_neg (by simp), if_neg (by simp)]

/-- The trap at the marker of a frame just built on the stack is resolved. -/
theorem marker_resolve_stack (cfg : Cfg) (hcfg : cfg.WF) (st : State) (ir cpc bpc r31 : Nat)
    (regs : Nat → Nat)
    (hnone : st.vdso_page = none) (hcpc : cpc < cfg.wmod)
    (hacc : cfg.access_ok VERIFY_READ (stack_frame cfg (st.xcp.regs 29)) cfg.sizeof_emuframe
      = true)
    (hrd : ∀ i, i < cfg.sizeof_emuframe →
      st.readable (stack_frame cfg (st.xcp.regs 29) + i) = true)
    (hret : (mips_dsemul cfg st ir cpc bpc r31).1 = 0) :
    (mips_dsemul cfg st ir cpc bpc r31).2.vdso_offset = st.vdso_offset ∧
    do_dsemulret cfg (marker_trap cfg (mips_dsemul cfg st ir cpc bpc r31).2 regs) =
      (1, ((marker_trap cfg (mips_dsemul cfg st ir cpc bpc r31).2 regs).set_epc cpc).inc_ds_emul)
    := by
  have hnf := not_fast_of_ret_zero cfg st ir cpc bpc r31 hret
  have hslow := mips_dsemul_slow cfg st ir cpc bpc r31 hnf
  rw [hnone] at hslow
  have hs : mips_dsemul cfg st ir cpc bpc r31 = dsemul_stack cfg st ir cpc := hslow
  rw [hs] at hret ⊢
  obtain ⟨haw, hw⟩ := dsemul_stack_ret_zero cfg hcfg st ir cpc hret
  rw [dsemul_stack_ok cfg hcfg st ir cpc haw hw]
  obtain ⟨h8, hlt, -⟩ := stack_frame_aligned cfg hcfg (st.xcp.regs 29)
  have hmlt := get_isa16_mode_lt st.xcp.cp0_epc
  have hw8 : cfg.wmod % 8 = 0 := by
    rcases wf_layout cfg hcfg with ⟨-, -, hw, -⟩ | ⟨-, -, hw, -⟩ <;> rw [hw] <;> norm_num
  have hor : (stack_frame cfg (st.xcp.regs 29) + off_emul) ||| get_isa16_mode st.xcp.cp0_epc
      = stack_frame cfg (st.xcp.regs 29) + get_isa16_mode st.xcp.cp0_epc := by
    rw [or_low _ _ 1 (by unfold off_emul; omega) (by omega)]
    rfl
  refine ⟨rfl, ?_⟩
  exact do_dsemulret_stack cfg hcfg (marker_trap cfg (built_stack cfg st ir cpc) regs)
    (stack_frame cfg (st.xcp.regs 29)) (get_isa16_mode st.xcp.cp0_epc) cpc st.mem ir
    hnone (by omega) (by omega) hmlt hcpc
    (by
      show cfg.addw ((stack_frame cfg (st.xcp.regs 29) + off_emul) |||
        get_isa16_mode st.xcp.cp0_epc) sizeof_insn =
        stack_frame cfg (st.xcp.regs 29) + sizeof_insn + get_isa16_mode st.xcp.cp0_epc
      rw [hor, addw_eq cfg _ _ (by unfold sizeof_insn; omega)]
      omega)
    hacc hrd (fun i _ => rfl)

/-- C14. Stack-placement round trip: with no shared region, for every `ir`,
`cpc` and stack pointer for which `mips_dsemul` returns 0, on a stack frame that
the user may read, `do_dsemulret` on the trap context of the frame's trap marker
(saved pc = the pc set by `mips_dsemul` plus one instruction width, any general
registers) returns 1 and sets the saved pc to exactly `cpc`, and neither call
touches `vdso_offset`. -/
theorem C14_stack_round_trip (cfg : Cfg) (st : State) (ir cpc bpc r31 : Nat)
    (regs : Nat → Nat)
    (hcfg : cfg.WF) (hnone : st.vdso_page = none) (hcpc : cpc < cfg.wmod)
    (hacc : cfg.access_ok VERIFY_READ (stack_frame cfg (st.xcp.regs 29)) cfg.sizeof_emuframe
      = true)
    (hrd : ∀ i, i < cfg.sizeof_emuframe →
      st.readable (stack_frame cfg (st.xcp.regs 29) + i) = true)
    (hret : (mips_dsemul cfg st ir cpc bpc r31).1 = 0) :
    (do_dsemulret cfg (marker_trap cfg (mips_dsemul cfg st ir cpc bpc r31).2 regs)).1 = 1 ∧
    (do_dsemulret cfg (marker_trap cfg (mips_dsemul cfg st ir cpc bpc r31).2 regs)).2.xcp.cp0_epc
      = cpc ∧
    (mips_dsemul cfg st ir cpc bpc r31).2.vdso_offset = st.vdso_offset ∧
    (do_dsemulret cfg (marker_trap cfg (mips_dsemul cfg st ir cpc bpc r31).2 regs)).2.vdso_offset
      = st.vdso_offset := by
  obtain ⟨h1, h2⟩ := marker_resolve_stack cfg hcfg st ir cpc bpc r31 regs hnone hcpc hacc hrd hret
  rw [h2]
  exact ⟨rfl, rfl, h1, h1⟩

/-- C14 at a concrete input: a frame on the stack in compact mode. -/
theorem C14_stack_round_trip_witness :
    (mips_dsemul mips32 stack32_mm 0x12345678 0x400200 0x400300 77).1 = 0 ∧
    (do_dsemulret mips32 (marker_trap mips32
      (mips_dsemul mips32 stack32_mm 0x12345678 0x400200 0x400300 77).2 (fun _ => 5))).1 = 1 ∧
    (do_dsemulret mips32 (marker_trap mips32
      (mips_dsemul mips32 stack32_mm 0x12345678 0x400200 0x400300 77).2
        (fun _ => 5))).2.xcp.cp0_epc = 0x400200 ∧
    (mips_dsemul mips32 stack32_mm 0x12345678 0x400200 0x400300 77).2.vdso_offset
      = stack32_mm.vdso_offset ∧
    (do_dsemulret mips32 (marker_trap mips32
      (mips_dsemul mips32 stack32_mm 0x12345678 0x400200 0x400300 77).2
        (fun _ => 5))).2.vdso_offset = stack32_mm.vdso_offset :=
  ⟨by decide, C14_stack_round_trip mips32 stack32_mm 0x12345678 0x400200 0x400300 77
    (fun _ => 5) mips32_wf rfl (by decide) (by decide) (fun _ _ => rfl) (by decide)⟩

/-! ## The entry convention of the resolver (C15) -/

/-- The trap at the marker of a frame just built in the shared page is resolved. -/
theorem marker_resolve_shared (cfg : Cfg) (hcfg : cfg.WF) (st : State)
    (pg ir cpc bpc r31 : Nat) (regs : Nat → Nat)
    (hsh : SharedRegion cfg st pg)
    (hoff : st.vdso_offset ≤ cfg.PAGE_SIZE) (heven : st.vdso_offset % 2 = 0)
    (hcpc : cpc < cfg.wmod)
    (hret : (mips_dsemul cfg st ir cpc bpc r31).1 = 0) :
    mips_dsemul cfg st ir cpc bpc r31 = (0, built_vdso cfg st ir cpc bpc r31) ∧
    cfg.sizeof_mips_vdso + cfg.EMULFRAME_ROUNDED_SIZE ≤ st.vdso_offset ∧
    do_dsemulret cfg (marker_trap cfg (built_vdso cfg st ir cpc bpc r31) regs) =
      (1, { marker_trap cfg (built_vdso cfg st ir cpc bpc r31) regs with
            vdso_offset := st.vdso_offset - cfg.EMULFRAME_ROUNDED_SIZE
              + cfg.EMULFRAME_ROUNDED_SIZE
            xcp := { regs := regs, cp0_epc := cpc }
            stat_ds_emul := st.stat_ds_emul + 1 }) := by
  have hnf := not_fast_of_ret_zero cfg st ir cpc bpc r31 hret
  rcases mips_dsemul_shared cfg hcfg st pg ir cpc bpc r31 hsh hoff hnf with ⟨hcap, he⟩ | ⟨_, he⟩
  swap
  · rw [he] at hret
    exact absurd hret (sigbus_ne_zero cfg hcfg)
  refine ⟨he, hcap, ?_⟩
  obtain ⟨hP8, hPm, hPw, hS⟩ := wf_page cfg hcfg
  obtain ⟨hvp, hRpg, hpgw, hval, hvw, hrd, hacc⟩ := hsh
  have hv8 := mod8_of_page_aligned cfg hcfg st.vdso hval
  obtain ⟨hR8, hFR, hR24⟩ := wf_frame cfg hcfg
  have hmlt := get_isa16_mode_lt st.xcp.cp0_epc
  have hor : (st.vdso + (st.vdso_offset - cfg.EMULFRAME_ROUNDED_SIZE)) |||
      get_isa16_mode st.xcp.cp0_epc
      = st.vdso + (st.vdso_offset - cfg.EMULFRAME_ROUNDED_SIZE) + get_isa16_mode st.xcp.cp0_epc :=
    or_low _ _ 1 (by omega) (by omega)
  exact do_dsemulret_resolves cfg hcfg
    (marker_trap cfg (built_vdso cfg st ir cpc bpc r31) regs) pg
    (st.vdso_offset - cfg.EMULFRAME_ROUNDED_SIZE) (get_isa16_mode st.xcp.cp0_epc) cpc
    st.mem ir bpc r31 ⟨hvp, hRpg, hpgw, hval, hvw, hrd, hacc⟩ (by omega) (by omega) hmlt hcpc
    (by
      show cfg.addw ((st.vdso + (st.vdso_offset - cfg.EMULFRAME_ROUNDED_SIZE)) |||
        get_isa16_mode st.xcp.cp0_epc) sizeof_insn =
        st.vdso + (st.vdso_offset - cfg.EMULFRAME_ROUNDED_SIZE) + sizeof_insn +
          get_isa16_mode st.xcp.cp0_epc
      rw [hor, addw_eq cfg _ _ (by unfold sizeof_insn; omega)]
      omega)
    (by
      show st.vdso_offset - cfg.EMULFRAME_ROUNDED_SIZE + cfg.EMULFRAME_ROUNDED_SIZE
        ≤ cfg.PAGE_SIZE
      omega)
    (fun i _ => rfl)

/-- C15, counterexample. A frame built on the resting state and the saved pc
just past its trap marker (frame address plus two instruction widths):
`do_dsemulret` reads the cookie where it expects the marker, returns 0 and does
not restore the continuation address `0x400200`. -/
theorem C15_counterexample :
    (mips_dsemul mips32 rest32 0x12345678 0x400200 0x400300 77).1 = 0 ∧
    past_marker32.xcp.cp0_epc =
      (mips_dsemul mips32 rest32 0x12345678 0x400200 0x400300 77).2.xcp.cp0_epc
        + 2 * sizeof_insn ∧
    (do_dsemulret mips32 past_marker32).1 = 0 ∧
    (do_dsemulret mips32 past_marker32).2.xcp.cp0_epc ≠ 0x400200 := by
  decide

/-- C15, amended. Resolver entry convention: for every frame just built by
`mips_dsemul` (in the shared page of a well-formed region, or on a user-readable
stack), `do_dsemulret` invoked with the saved pc pointing at the frame's trap
marker (frame address plus one instruction width, mode bit kept) recognises the
trap as its own: it returns 1 and sets the saved pc to the frame's continuation
address. -/
theorem C15_resolver_entry (cfg : Cfg) (st : State) (ir cpc bpc r31 : Nat)
    (regs : Nat → Nat)
    (hcfg : cfg.WF) (hcpc : cpc < cfg.wmod)
    (hshared : ∀ pg, st.vdso_page = some pg →
      SharedRegion cfg st pg ∧ st.vdso_offset ≤ cfg.PAGE_SIZE ∧ st.vdso_offset % 2 = 0)
    (hstack : st.vdso_page = none →
      cfg.access_ok VERIFY_READ (stack_frame cfg (st.xcp.regs 29)) cfg.sizeof_emuframe = true ∧
      ∀ i, i < cfg.sizeof_emuframe → st.readable (stack_frame cfg (st.xcp.regs 29) + i) = true)
    (hret : (mips_dsemul cfg st ir cpc bpc r31).1 = 0) :
    (marker_trap cfg (mips_dsemul cfg st ir cpc bpc r31).2 regs).xcp.cp0_epc =
      cfg.addw (mips_dsemul cfg st ir cpc bpc r31).2.xcp.cp0_epc sizeof_insn ∧
    (do_dsemulret cfg (marker_trap cfg (mips_dsemul cfg st ir cpc bpc r31).2 regs)).1 = 1 ∧
    (do_dsemulret cfg (marker_trap cfg (mips_dsemul cfg st ir cpc bpc r31).2 regs)).2.xcp.cp0_epc
      = cpc := by
  refine ⟨rfl, ?_⟩
  cases hp : st.vdso_page with
  | none =>
    obtain ⟨hacc, hrd⟩ := hstack hp
    obtain ⟨-, h2⟩ := marker_resolve_stack cfg hcfg st ir cpc bpc r31 regs hp hcpc hacc hrd hret
    rw [h2]
    exact ⟨rfl, rfl⟩
  | some pg =>
    obtain ⟨hsh, hoff, heven⟩ := hshared pg hp
    obtain ⟨h1, -, h3⟩ :=
      marker_resolve_shared cfg hcfg st pg ir cpc bpc r31 regs hsh hoff heven hcpc hret
    rw [h1, h3]
    exact ⟨rfl, rfl⟩

/-- C15 (amended) at a concrete input: a frame in the shared page, standard mode. -/
theorem C15_resolver_entry_witness :
    (mips_dsemul mips32 rest32 0x12345678 0x400200 0x400300 77).1 = 0 ∧
    (marker_trap mips32 (mips_dsemul mips32 rest32 0x12345678 0x400200 0x400300 77).2
      (fun _ => 5)).xcp.cp0_epc =
      mips32.addw (mips_dsemul mips32 rest32 0x12345678 0x400200 0x400300 77).2.xcp.cp0_epc
        sizeof_insn ∧
    (do_dsemulret mips32 (marker_trap mips32
      (mips_dsemul mips32 rest32 0x12345678 0x400200 0x400300 77).2 (fun _ => 5))).1 = 1 ∧
    (do_dsemulret mips32 (marker_trap mips32
      (mips_dsemul mips32 rest32 0x12345678 0x400200 0x400300 77).2
        (fun _ => 5))).2.xcp.cp0_epc = 0x400200 :=
  ⟨by decide, C15_resolver_entry mips32 rest32 0x12345678 0x400200 0x400300 77 (fun _ => 5)
    mips32_wf (by decide)
    (fun pg hp => by
      obtain rfl : 0x80010000 = pg := Option.some.inj hp
      exact ⟨rest32_shared rest32 rfl rfl rfl, by decide, by decide⟩)
    (fun hn => by simp [rest32] at hn)
    (by decide)⟩

/-! ## The layout of a built frame (C16) -/

/-- A shared-region build that returns 0 leaves `built_vdso`. -/
theorem dsemul_vdso_of_ret_zero (cfg : Cfg) (h : cfg.WF) (st : State) (pg ir cpc bpc r31 : Nat)
    (hR : cfg.EMULFRAME_ROUNDED_SIZE ≤ pg) (hpg : pg + cfg.PAGE_SIZE < cfg.wmod)
    (hv : st.vdso + cfg.PAGE_SIZE < cfg.wmod)
    (hoff : st.vdso_offset ≤ cfg.PAGE_SIZE)
    (hret : (dsemul_vdso cfg st pg ir cpc bpc r31).1 = 0) :
    cfg.sizeof_mips_vdso + cfg.EMULFRAME_ROUNDED_SIZE ≤ st.vdso_offset ∧
    dsemul_vdso cfg st pg ir cpc bpc r31 = (0, built_vdso cfg st ir cpc bpc r31) := by
  by_cases hcap : cfg.sizeof_mips_vdso + cfg.EMULFRAME_ROUNDED_SIZE ≤ st.vdso_offset
  · exact ⟨hcap, dsemul_vdso_ok cfg h st pg ir cpc bpc r31 hR hpg hv hoff hcap⟩
  · rw [dsemul_vdso_full cfg h st pg ir cpc bpc r31 hR hpg hoff (by omega)] at hret
    exact absurd hret (sigbus_ne_zero cfg h)

theorem frame_image_fields (cfg : Cfg) (h : cfg.WF) (m : Mem) (u mode ir cpc bpc r31 : Nat)
    (hir : ir < 2 ^ 32) (hcpc : cpc < cfg.wmod) :
    frame_fields cfg (frame_image cfg m u mode ir cpc bpc r31) u mode ir cpc := by
  unfold frame_fields
  refine ⟨?_, frame_image_cookie cfg h m u mode ir cpc bpc r31,
    frame_image_epc cfg h m u mode ir cpc bpc r31 hcpc⟩
  by_cases hm : mode ≠ 0
  · rw [if_pos hm]
    refine ⟨frame_image_emul_hi cfg h m u mode ir cpc bpc r31 hm hir,
      frame_image_emul_lo cfg h m u mode ir cpc bpc r31 hm, ?_, ?_⟩
    · rw [frame_image_badinst_hi cfg h m u mode ir cpc bpc r31 hm, break_hi cfg h]
    · rw [frame_image_badinst_lo cfg h m u mode ir cpc bpc r31 hm, break_lo cfg]
  · rw [if_neg hm]
    exact ⟨frame_image_emul cfg h m u mode ir cpc bpc r31 hm hir,
      frame_image_badinst cfg h m u mode ir cpc bpc r31 hm⟩

theorem stack_image_fields (cfg : Cfg) (h : cfg.WF) (m : Mem) (u mode ir cpc : Nat)
    (hir : ir < 2 ^ 32) (hcpc : cpc < cfg.wmod) :
    frame_fields cfg (stack_image cfg m u mode ir cpc) u mode ir cpc := by
  unfold frame_fields
  refine ⟨?_, stack_image_cookie cfg h m u mode ir cpc,
    stack_image_epc cfg h m u mode ir cpc hcpc⟩
  by_cases hm : mode ≠ 0
  · rw [if_pos hm]
    refine ⟨stack_image_emul_hi cfg h m u mode ir cpc hm hir,
      stack_image_emul_lo cfg h m u mode ir cpc hm, ?_, ?_⟩
    · rw [stack_image_badinst_hi cfg h m u mode ir cpc hm, break_hi cfg h]
    · rw [stack_image_badinst_lo cfg h m u mode ir cpc hm, break_lo cfg]
  · rw [if_neg hm]
    exact ⟨stack_image_emul cfg h m u mode ir cpc hm hir,
      stack_image_badinst cfg h m u mode ir cpc hm⟩

/-- C16. Frame layout: after `mips_dsemul` returns 0 on the shared-region path,
the new frame (at `vdso + new vdso_offset`) holds, at increasing offsets, the
relocated instruction, the trap marker `BREAK_MATH`, the cookie `BD_COOKIE`, then
`epc = cpc`, `bpc` and `r31` as passed in; in standard mode the first two are the
32-bit words `ir` and `BREAK_MATH`, in compact mode the four consecutive 16-bit
halfwords `ir >> 16`, `ir & 0xffff`, `BREAK_MATH >> 16`, `BREAK_MATH & 0xffff`.
After it returns 0 on the stack path, the frame below the stack pointer holds the
same values at the same offsets for the instruction, marker, cookie and `epc`. -/
theorem C16_frame_layout (cfg : Cfg) (st : State) (ir cpc bpc r31 : Nat)
    (hcfg : cfg.WF) (hir : ir < 2 ^ 32) (hcpc : cpc < cfg.wmod) (hbpc : bpc < cfg.wmod)
    (hr31 : r31 < cfg.wmod)
    (hshared : ∀ pg, st.vdso_page = some pg →
      cfg.EMULFRAME_ROUNDED_SIZE ≤ pg ∧ pg + cfg.PAGE_SIZE < cfg.wmod ∧
      st.vdso + cfg.PAGE_SIZE < cfg.wmod ∧ st.vdso_offset ≤ cfg.PAGE_SIZE)
    (hret : (mips_dsemul cfg st ir cpc bpc r31).1 = 0) :
    (off_emul < off_badinst ∧ off_badinst < off_cookie ∧ off_cookie < cfg.off_epc ∧
      cfg.off_epc < cfg.off_bpc ∧ cfg.off_bpc < cfg.off_r31 ∧
      cfg.off_r31 + cfg.long_bytes = cfg.sizeof_emuframe) ∧
    (if st.vdso_page.isSome = true then
      frame_fields cfg (mips_dsemul cfg st ir cpc bpc r31).2.mem
        (st.vdso + (mips_dsemul cfg st ir cpc bpc r31).2.vdso_offset)
        (get_isa16_mode st.xcp.cp0_epc) ir cpc ∧
      cfg.load (mips_dsemul cfg st ir cpc bpc r31).2.mem
        (st.vdso + (mips_dsemul cfg st ir cpc bpc r31).2.vdso_offset + cfg.off_bpc)
        cfg.long_bytes = bpc ∧
      cfg.load (mips_dsemul cfg st ir cpc bpc r31).2.mem
        (st.vdso + (mips_dsemul cfg st ir cpc bpc r31).2.vdso_offset + cfg.off_r31)
        cfg.long_bytes = r31
    else
      frame_fields cfg (mips_dsemul cfg st ir cpc bpc r31).2.mem
        (stack_frame cfg (st.xcp.regs 29)) (get_isa16_mode st.xcp.cp0_epc) ir cpc) := by
  constructor
  · rcases wf_layout cfg hcfg with ⟨hL, -, -, ho, hb, hr, hs, -⟩ | ⟨hL, -, -, ho, hb, hr, hs, -⟩
    · rw [ho, hb, hr, hs, hL]
      decide
    · rw [ho, hb, hr, hs, hL]
      decide
  have hnf := not_fast_of_ret_zero cfg st ir cpc bpc r31 hret
  have hslow := mips_dsemul_slow cfg st ir cpc bpc r31 hnf
  cases hp : st.vdso_page with
  | none =>
    rw [hp] at hslow
    have hs : mips_dsemul cfg st ir cpc bpc r31 = dsemul_stack cfg st ir cpc := hslow
    rw [hs] at hret ⊢
    obtain ⟨hacc, hw⟩ := dsemul_stack_ret_zero cfg hcfg st ir cpc hret
    rw [dsemul_stack_ok cfg hcfg st ir cpc hacc hw]
    simp only [Option.isSome_none, Bool.false_eq_true, if_false]
    exact stack_image_fields cfg hcfg st.mem _ _ ir cpc hir hcpc
  | some pg =>
    rw [hp] at hslow
    have hs : mips_dsemul cfg st ir cpc bpc r31 = dsemul_vdso cfg st pg ir cpc bpc r31 := hslow
    rw [hs] at hret ⊢
    obtain ⟨hR, hpg, hv, hoff⟩ := hshared pg hp
    obtain ⟨-, he⟩ := dsemul_vdso_of_ret_zero cfg hcfg st pg ir cpc bpc r31 hR hpg hv hoff hret
    rw [he]
    simp only [Option.isSome_some, if_true]
    exact ⟨frame_image_fields cfg hcfg st.mem _ _ ir cpc bpc r31 hir hcpc,
      frame_image_bpc cfg hcfg st.mem _ _ ir cpc bpc r31 hbpc,
      frame_image_r31 cfg hcfg st.mem _ _ ir cpc bpc r31 hr31⟩

/-- C16 at a concrete input: a frame in the shared page, compact mode. -/
theorem C16_frame_layout_witness :
    (mips_dsemul mips32 rest32_mm 0x12345678 0x400200 0x400300 77).1 = 0 ∧
    (off_emul < off_badinst ∧ off_badinst < off_cookie ∧ off_cookie < mips32.off_epc ∧
      mips32.off_epc < mips32.off_bpc ∧ mips32.off_bpc < mips32.off_r31 ∧
      mips32.off_r31 + mips32.long_bytes = mips32.sizeof_emuframe) ∧
    (if rest32_mm.vdso_page.isSome = true then
      frame_fields mips32 (mips_dsemul mips32 rest32_mm 0x12345678 0x400200 0x400300 77).2.mem
        (rest32_mm.vdso + (mips_dsemul mips32 rest32_mm 0x12345678 0x400200 0x400300 77).2.vdso_offset)
        (get_isa16_mode rest32_mm.xcp.cp0_epc) 0x12345678 0x400200 ∧
      mips32.load (mips_dsemul mips32 rest32_mm 0x12345678 0x400200 0x400300 77).2.mem
        (rest32_mm.vdso + (mips_dsemul mips32 rest32_mm 0x12345678 0x400200 0x400300 77).2.vdso_offset
          + mips32.off_bpc)
        mips32.long_bytes = 0x400300 ∧
      mips32.load (mips_dsemul mips32 rest32_mm 0x12345678 0x400200 0x400300 77).2.mem
        (rest32_mm.vdso + (mips_dsemul mips32 rest32_mm 0x12345678 0x400200 0x400300 77).2.vdso_offset
          + mips32.off_r31)
        mips32.long_bytes = 77
    else
      frame_fields mips32 (mips_dsemul mips32 rest32_mm 0x12345678 0x400200 0x400300 77).2.mem
        (stack_frame mips32 (rest32_mm.xcp.regs 29)) (get_isa16_mode rest32_mm.xcp.cp0_epc)
        0x12345678 0x400200) :=
  ⟨by decide, C16_frame_layout mips32 rest32_mm 0x12345678 0x400200 0x400300 77 mips32_wf
    (by decide) (by decide) (by decide) (by decide)
    (fun pg hp => by
      obtain rfl : 0x80010000 = pg := Option.some.inj hp
      decide)
    (by decide)⟩

/-! ## Stack placement and termination of the corrector (C17, C18) -/

/-- C17. Stack frame placement: for every stack pointer `sp` (an
`unsigned long`) with `sp ≥ sizeof (struct emuframe)`, the frame address
`fr = (sp - sizeof (struct emuframe)) & ~7` used by the stack path is 8-byte
aligned, the whole frame lies below the stack pointer with less than 8 bytes of
gap, and the 8 bytes at `fr` (relocated instruction and trap marker) lie in one
8-byte-aligned block. -/
theorem C17_stack_frame_placement (cfg : Cfg) (sp : Nat)
    (hcfg : cfg.WF) (hsp : sp < cfg.wmod) (hge : cfg.sizeof_emuframe ≤ sp) :
    stack_frame cfg sp % 8 = 0 ∧
    stack_frame cfg sp + cfg.sizeof_emuframe ≤ sp ∧
    sp - cfg.sizeof_emuframe - stack_frame cfg sp < 8 ∧
    (∀ i, i < 8 → (stack_frame cfg sp + i) / 8 = stack_frame cfg sp / 8) ∧
    (stack_frame cfg sp + off_emul) / 8 = (stack_frame cfg sp + off_badinst + 3) / 8 := by
  obtain ⟨h8, -, he⟩ := stack_frame_aligned cfg hcfg sp
  have hsub : cfg.subw sp cfg.sizeof_emuframe = sp - cfg.sizeof_emuframe :=
    subw_eq cfg _ _ hsp hge
  rw [hsub] at he
  refine ⟨h8, by omega, by omega, fun i hi => by omega, ?_⟩
  unfold off_emul off_badinst
  omega

/-- C17 at a concrete input: a stack pointer that is not 8-byte aligned. -/
theorem C17_stack_frame_placement_witness :
    stack_frame mips32 0x7fff8004 = 0x7fff7fe8 ∧
    stack_frame mips32 0x7fff8004 % 8 = 0 ∧
    stack_frame mips32 0x7fff8004 + mips32.sizeof_emuframe ≤ 0x7fff8004 ∧
    0x7fff8004 - mips32.sizeof_emuframe - stack_frame mips32 0x7fff8004 < 8 ∧
    (∀ i, i < 8 → (stack_frame mips32 0x7fff8004 + i) / 8 = stack_frame mips32 0x7fff8004 / 8) ∧
    (stack_frame mips32 0x7fff8004 + off_emul) / 8
      = (stack_frame mips32 0x7fff8004 + off_badinst + 3) / 8 :=
  ⟨by decide, C17_stack_frame_placement mips32 0x7fff8004 mips32_wf (by decide) (by decide)⟩

/-- Enough fuel for `n` passes finishes the loop when at most `n` frames lie
between the offset and the page end; more fuel gives the same state. -/
theorem vdso_epc_adjust_fuel (cfg : Cfg) (h : cfg.WF) (n : Nat) : ∀ st : State,
    cfg.PAGE_SIZE - st.vdso_offset ≤ n * cfg.EMULFRAME_ROUNDED_SIZE →
    ∃ st', ∀ fuel, n ≤ fuel → vdso_epc_adjust cfg fuel st = some st' := by
  obtain ⟨hR8, hFR, hR24⟩ := wf_frame cfg h
  obtain ⟨hP8, hPm, hPw, hS⟩ := wf_page cfg h
  induction n with
  | zero =>
    intro st hf
    exact ⟨st, fun fuel _ =>
      vdso_epc_adjust_done cfg fuel st (epc_adjust_done_of_ge cfg st (by omega))⟩
  | succ n ih =>
    intro st hf
    by_cases hd : epc_adjust_done cfg st = true
    · exact ⟨st, fun fuel _ => vdso_epc_adjust_done cfg fuel st hd⟩
    · have hlt : st.vdso_offset < cfg.PAGE_SIZE := by
        by_contra hc
        exact hd (epc_adjust_done_of_ge cfg st (by omega))
      have ho : (epc_adjust_step cfg st).vdso_offset
          = st.vdso_offset + cfg.EMULFRAME_ROUNDED_SIZE := by
        rw [(epc_adjust_step_fields cfg st).2.2, addw_eq cfg _ _ (by
          rcases wf_layout cfg h with ⟨-, -, hw, -, -, -, -, hrs⟩ | ⟨-, -, hw, -, -, -, -, hrs⟩ <;>
            omega)]
      obtain ⟨st', hst'⟩ := ih (epc_adjust_step cfg st) (by
        rw [ho]
        rw [Nat.add_mul, Nat.one_mul] at hf
        omega)
      refine ⟨st', fun fuel hfuel => ?_⟩
      obtain ⟨k, rfl⟩ : ∃ k, fuel = k + 1 := ⟨fuel - 1, by omega⟩
      rw [vdso_epc_adjust_step cfg k st hd]
      exact hst' k (by omega)

/-- C18. Corrector termination: from every state of a thread whose page is
mapped below the top of the address space, the loop of `vdso_epc_adjust` returns
within `ceil ((PAGE_SIZE - vdso_offset) / EMULFRAME_ROUNDED_SIZE)` passes (and
with the same state for any larger number of passes allowed); on return either
`vdso_offset ≥ PAGE_SIZE` or the saved pc (mode bit masked) lies outside
`[vdso + sizeof (struct mips_vdso), vdso + PAGE_SIZE)`; and each pass, entered
with `vdso_offset < PAGE_SIZE`, raises `vdso_offset` by exactly
`EMULFRAME_ROUNDED_SIZE`. -/
theorem C18_corrector_termination (cfg : Cfg) (st : State)
    (hcfg : cfg.WF) (hvw : st.vdso + cfg.PAGE_SIZE < cfg.wmod) :
    (∃ st', (∀ fuel, (cfg.PAGE_SIZE - st.vdso_offset + cfg.EMULFRAME_ROUNDED_SIZE - 1)
          / cfg.EMULFRAME_ROUNDED_SIZE ≤ fuel → vdso_epc_adjust cfg fuel st = some st') ∧
      (cfg.PAGE_SIZE ≤ st'.vdso_offset ∨ ¬ in_scratch cfg st')) ∧
    (∀ s : State, s.vdso_offset < cfg.PAGE_SIZE →
      (epc_adjust_step cfg s).vdso_offset = s.vdso_offset + cfg.EMULFRAME_ROUNDED_SIZE) := by
  obtain ⟨hR8, hFR, hR24⟩ := wf_frame cfg hcfg
  obtain ⟨hP8, hPm, hPw, hS⟩ := wf_page cfg hcfg
  constructor
  · have hceil : cfg.PAGE_SIZE - st.vdso_offset ≤
        (cfg.PAGE_SIZE - st.vdso_offset + cfg.EMULFRAME_ROUNDED_SIZE - 1)
          / cfg.EMULFRAME_ROUNDED_SIZE * cfg.EMULFRAME_ROUNDED_SIZE := by
      rcases wf_layout cfg hcfg with ⟨-, -, -, -, -, -, -, hrs⟩ | ⟨-, -, -, -, -, -, -, hrs⟩ <;>
        rw [hrs] <;> omega
    obtain ⟨st', h⟩ := vdso_epc_adjust_fuel cfg hcfg _ st hceil
    refine ⟨st', h, ?_⟩
    obtain ⟨hd, _, hv⟩ := vdso_epc_adjust_exit cfg _ st st' (h _ (le_refl _))
    exact not_in_scratch_of_done cfg st' (by rw [hv]; exact hvw) hS hd
  · intro s hs
    rw [(epc_adjust_step_fields cfg s).2.2, addw_eq cfg _ _ (by
      rcases wf_layout cfg hcfg with ⟨-, -, hw, -, -, -, -, hrs⟩ | ⟨-, -, hw, -, -, -, -, hrs⟩ <;>
        omega)]

/-- C18 at a concrete input: three pending frames, pc in the scratch area. -/
theorem C18_corrector_termination_witness :
    (mips32.PAGE_SIZE - stacked32.vdso_offset + mips32.EMULFRAME_ROUNDED_SIZE - 1)
      / mips32.EMULFRAME_ROUNDED_SIZE = 3 ∧
    ((∃ st', (∀ fuel, (mips32.PAGE_SIZE - stacked32.vdso_offset
            + mips32.EMULFRAME_ROUNDED_SIZE - 1) / mips32.EMULFRAME_ROUNDED_SIZE ≤ fuel →
          vdso_epc_adjust mips32 fuel stacked32 = some st') ∧
        (mips32.PAGE_SIZE ≤ st'.vdso_offset ∨ ¬ in_scratch mips32 st')) ∧
      (∀ s : State, s.vdso_offset < mips32.PAGE_SIZE →
        (epc_adjust_step mips32 s).vdso_offset
          = s.vdso_offset + mips32.EMULFRAME_ROUNDED_SIZE)) :=
  ⟨by decide, C18_corrector_termination mips32 stacked32 mips32_wf (by decide)⟩

/-! ## Write footprint and ADDIUPC destination (C19, C20) -/

/-- C19. Builder write footprint: a shared-region `mips_dsemul` that returns 0
changes memory only inside the new frame
`[vdso + new vdso_offset, vdso + new vdso_offset + sizeof (struct emuframe))`,
which lies entirely below the old `vdso_offset` and at or above
`sizeof (struct mips_vdso)`; hence every byte at or above the old offset (the
frames still pending) and every byte of the trampoline area is unchanged. -/
theorem C19_write_footprint (cfg : Cfg) (st : State) (pg ir cpc bpc r31 : Nat)
    (hcfg : cfg.WF) (hpage : st.vdso_page = some pg)
    (hR : cfg.EMULFRAME_ROUNDED_SIZE ≤ pg) (hpg : pg + cfg.PAGE_SIZE < cfg.wmod)
    (hv : st.vdso + cfg.PAGE_SIZE < cfg.wmod)
    (hoff : st.vdso_offset ≤ cfg.PAGE_SIZE)
    (hret : (mips_dsemul cfg st ir cpc bpc r31).1 = 0) :
    (∀ b, (b < st.vdso + (mips_dsemul cfg st ir cpc bpc r31).2.vdso_offset ∨
        st.vdso + (mips_dsemul cfg st ir cpc bpc r31).2.vdso_offset + cfg.sizeof_emuframe ≤ b) →
      (mips_dsemul cfg st ir cpc bpc r31).2.mem b = st.mem b) ∧
    (mips_dsemul cfg st ir cpc bpc r31).2.vdso_offset + cfg.sizeof_emuframe ≤ st.vdso_offset ∧
    cfg.sizeof_mips_vdso ≤ (mips_dsemul cfg st ir cpc bpc r31).2.vdso_offset ∧
    (∀ b, st.vdso + st.vdso_offset ≤ b →
      (mips_dsemul cfg st ir cpc bpc r31).2.mem b = st.mem b) ∧
    (∀ b, b < st.vdso + cfg.sizeof_mips_vdso →
      (mips_dsemul cfg st ir cpc bpc r31).2.mem b = st.mem b) := by
  have hnf := not_fast_of_ret_zero cfg st ir cpc bpc r31 hret
  have hslow := mips_dsemul_slow cfg st ir cpc bpc r31 hnf
  rw [hpage] at hslow
  have hs : mips_dsemul cfg st ir cpc bpc r31 = dsemul_vdso cfg st pg ir cpc bpc r31 := hslow
  rw [hs] at hret ⊢
  obtain ⟨hcap, he⟩ := dsemul_vdso_of_ret_zero cfg hcfg st pg ir cpc bpc r31 hR hpg hv hoff hret
  rw [he]
  obtain ⟨hR8, hFR, hR24⟩ := wf_frame cfg hcfg
  have hout : ∀ b, (b < st.vdso + (st.vdso_offset - cfg.EMULFRAME_ROUNDED_SIZE) ∨
      st.vdso + (st.vdso_offset - cfg.EMULFRAME_ROUNDED_SIZE) + cfg.sizeof_emuframe ≤ b) →
      (built_vdso cfg st ir cpc bpc r31).mem b = st.mem b :=
    fun b hb => frame_image_outside cfg hcfg st.mem _ _ ir cpc bpc r31 b hb
  refine ⟨hout, ?_, ?_, fun b hb => hout b (by omega), fun b hb => hout b (by omega)⟩
  · show st.vdso_offset - cfg.EMULFRAME_ROUNDED_SIZE + cfg.sizeof_emuframe ≤ st.vdso_offset
    omega
  · show cfg.sizeof_mips_vdso ≤ st.vdso_offset - cfg.EMULFRAME_ROUNDED_SIZE
    omega

/-- C19 at a concrete input: a second frame below a pending one. -/
theorem C19_write_footprint_witness :
    (mips_dsemul mips32 pending32 0x2345678a 0x500200 0x500300 2).1 = 0 ∧
    (∀ b, (b < pending32.vdso
          + (mips_dsemul mips32 pending32 0x2345678a 0x500200 0x500300 2).2.vdso_offset ∨
        pending32.vdso + (mips_dsemul mips32 pending32 0x2345678a 0x500200 0x500300 2).2.vdso_offset
          + mips32.sizeof_emuframe ≤ b) →
      (mips_dsemul mips32 pending32 0x2345678a 0x500200 0x500300 2).2.mem b = pending32.mem b) ∧
    (mips_dsemul mips32 pending32 0x2345678a 0x500200 0x500300 2).2.vdso_offset
      + mips32.sizeof_emuframe ≤ pending32.vdso_offset ∧
    mips32.sizeof_mips_vdso
      ≤ (mips_dsemul mips32 pending32 0x2345678a 0x500200 0x500300 2).2.vdso_offset ∧
    (∀ b, pending32.vdso + pending32.vdso_offset ≤ b →
      (mips_dsemul mips32 pending32 0x2345678a 0x500200 0x500300 2).2.mem b = pending32.mem b) ∧
    (∀ b, b < pending32.vdso + mips32.sizeof_mips_vdso →
      (mips_dsemul mips32 pending32 0x2345678a 0x500200 0x500300 2).2.mem b = pending32.mem b) :=
  ⟨by decide, C19_write_footprint mips32 pending32 0x80010000 0x2345678a 0x500200 0x500300 2
    mips32_wf rfl (by decide) (by decide) (by decide) (by decide) (by decide)⟩

/-- C20. ADDIUPC destination: in the `ADDIUPC` fast path (compact mode, an
instruction that is neither zero nor has the compact no-op as upper halfword),
for every value `rs` in 0..7 of the 3-bit register field, `mips_dsemul` returns
-1 and writes one general register, whose index `((rs + 0xe) & 0xf) + 2` is 16,
17, 2, 3, 4, 5, 6, 7 for `rs` = 0..7 and so lies in the register file; every
other register and the saved pc are unchanged. -/
theorem C20_addiupc_destination (cfg : Cfg) (st : State) (ir cpc bpc r31 : Nat)
    (hmode : get_isa16_mode st.xcp.cp0_epc ≠ 0)
    (hop : cfg.mm_a_opcode ir = cfg.mm_addiupc_op)
    (hir : ir ≠ 0) (hnop : ir >>> 16 ≠ cfg.MM_NOP16)
    (hrs : cfg.mm_a_rs ir < 8) :
    (mips_dsemul cfg st ir cpc bpc r31).1 = -1 ∧
    addiupc_rs cfg ir = [16, 17, 2, 3, 4, 5, 6, 7].getD (cfg.mm_a_rs ir) 0 ∧
    addiupc_rs cfg ir < 32 ∧
    (mips_dsemul cfg st ir cpc bpc r31).2.xcp.regs (addiupc_rs cfg ir)
      = cfg.of_long (addiupc_val cfg st ir) ∧
    (∀ i, i ≠ addiupc_rs cfg ir →
      (mips_dsemul cfg st ir cpc bpc r31).2.xcp.regs i = st.xcp.regs i) ∧
    (mips_dsemul cfg st ir cpc bpc r31).2.xcp.cp0_epc = st.xcp.cp0_epc := by
  have he : mips_dsemul cfg st ir cpc bpc r31 =
      (-1, st.set_reg (addiupc_rs cfg ir) (cfg.of_long (addiupc_val cfg st ir))) := by
    unfold mips_dsemul
    rw [if_neg hir, if_neg (fun hh => hnop hh.2), if_pos ⟨hmode, hop⟩]
  have hidx : addiupc_rs cfg ir = [16, 17, 2, 3, 4, 5, 6, 7].getD (cfg.mm_a_rs ir) 0 ∧
      addiupc_rs cfg ir < 32 := by
    unfold addiupc_rs
    generalize cfg.mm_a_rs ir = k at hrs
    interval_cases k <;> decide
  rw [he]
  refine ⟨rfl, hidx.1, hidx.2, ?_, ?_, rfl⟩
  · exact Function.update_same (addiupc_rs cfg ir) _ st.xcp.regs
  · intro i hi
    exact Function.update_noteq hi _ st.xcp.regs

/-- C20 at a concrete input: register field 1 selects register 17. -/
theorem C20_addiupc_destination_witness :
    mips32.mm_a_rs 0x78800001 = 1 ∧ addiupc_rs mips32 0x78800001 = 17 ∧
    (mips_dsemul mips32 rest32_mm 0x78800001 0x500000 0x400300 0).1 = -1 ∧
    addiupc_rs mips32 0x78800001
      = [16, 17, 2, 3, 4, 5, 6, 7].getD (mips32.mm_a_rs 0x78800001) 0 ∧
    addiupc_rs mips32 0x78800001 < 32 ∧
    (mips_dsemul mips32 rest32_mm 0x78800001 0x500000 0x400300 0).2.xcp.regs
        (addiupc_rs mips32 0x78800001)
      = mips32.of_long (addiupc_val mips32 rest32_mm 0x78800001) ∧
    (∀ i, i ≠ addiupc_rs mips32 0x78800001 →
      (mips_dsemul mips32 rest32_mm 0x78800001 0x500000 0x400300 0).2.xcp.regs i
        = rest32_mm.xcp.regs i) ∧
    (mips_dsemul mips32 rest32_mm 0x78800001 0x500000 0x400300 0).2.xcp.cp0_epc
      = rest32_mm.xcp.cp0_epc :=
  ⟨by decide, by decide,
    C20_addiupc_destination mips32 rest32_mm 0x78800001 0x500000 0x400300 0 (by decide)
      (by decide) (by decide) (by decide) (by decide)⟩

end Dsemul
